import Mathlib

/-!
# hermes-shm: shared-memory containers

A shallow embedding of `mpsc_queue.h`, `pair.h`, `ticket_queue.h`, of the
container template (`shm_container_macro.h`,
`template/shm_container_base_template.h`), of the memory backends
(`memory_backend.h`, `posix_shm_mmap.h`, `memory_backend_factory.h`) and of
`shm_serialize.h`, followed by the verification of the queue algorithm, of the
container lifecycle, of the backend lifecycle and of the serializer.

Conventions of the embedding:
* `qtok_id` and `size_t` are 64-bit unsigned integers: natural numbers with
  every arithmetic result reduced modulo `2 ^ 64`; `uint32_t` is reduced modulo
  `2 ^ 32`.
* A container owns the block its offset pointer names, so the contents of the
  block travel with the container value; the allocator side records which
  blocks are allocated.
* An operation whose source has undefined behaviour on some input (indexing a
  vector out of bounds) or does not return (the spin loop of `emplace`)
  yields `none` there.
-/

namespace hshm

/-- Number of values of an unsigned 64-bit integer (`qtok_id`, `size_t`). -/
abbrev U64 : Nat := 2 ^ 64

/-- Number of values of `uint32_t`. -/
abbrev U32 : Nat := 2 ^ 32

/-- Modelled from the spec: `qtok_t` (types/qtok.h is not part of the sources at
hand) wraps a 64-bit index, and one distinguished sentinel is the null token.
The sentinel is the largest 64-bit value. -/
structure qtok_t where
  id_ : Nat
  deriving DecidableEq, Repr

/-- The null token. -/
def qtok_t.GetNull : qtok_t := ⟨U64 - 1⟩

/-- Whether a token is the null token. -/
def qtok_t.IsNull (t : qtok_t) : Bool := t.id_ == qtok_t.GetNull.id_

/-- Modelled from the spec: `bitfield32_t` (types/bitfield.h is not part of the
sources at hand), the flag word of a queue slot; bit 0 means "payload fully
written and visible to the consumer". -/
structure bitfield32_t where
  bits_ : Nat
  deriving DecidableEq, Repr

/-- `SetBits(mask)`: or the mask into the word. -/
def bitfield32_t.SetBits (b : bitfield32_t) (mask : Nat) : bitfield32_t :=
  ⟨(b.bits_ ||| mask) % U32⟩

/-- `Any(mask)`: some bit of the mask is set. -/
def bitfield32_t.Any (b : bitfield32_t) (mask : Nat) : Bool :=
  (b.bits_ &&& mask) != 0

/-- `Clear()`: reset every bit. -/
def bitfield32_t.Clear (_b : bitfield32_t) : bitfield32_t := ⟨0⟩

/-- `pair<FirstT, SecondT>` of pair.h: the two archived sub-objects. The
allocator id stamped by the container template plays no part in the
algorithms below and is left out. -/
structure pair (FirstT SecondT : Type) where
  first_ : FirstT
  second_ : SecondT
  deriving DecidableEq, Repr

/-- `GetFirst()`. -/
def pair.GetFirst {A B : Type} (p : pair A B) : A := p.first_

/-- `GetSecond()`. -/
def pair.GetSecond {A B : Type} (p : pair A B) : B := p.second_

/-- What a call can end with other than a return value: one of the typed errors
thrown with `HERMES_THROW_ERROR` or `throw`, or undefined behaviour (an access
outside the storage a pointer refers to, or to an object that was never
constructed). `OUT_OF_MEMORY` is modelled from the spec (section 7,
`OutOfMemory`: the allocator is exhausted). -/
inductive Error where
  | SHMEM_RESERVE_FAILED
  | SHMEM_CREATE_FAILED
  | MEMORY_BACKEND_CREATE_FAILED
  | MEMORY_BACKEND_NOT_FOUND
  | IPC_ARGS_NOT_SHM_COMPATIBLE
  | OUT_OF_MEMORY
  | undefined_behaviour
  deriving DecidableEq, Repr

/-- Modelled from the spec: the allocator contract and the registry behind
`HERMES_MEMORY_MANAGER` (their sources are not at hand). `live` lists the
blocks, as (allocator id, offset), that `Allocate` has handed out and `Free`
has not taken back; `next` is the first offset never handed out. -/
structure MemoryManager where
  live : List (Nat × Nat)
  next : Nat
  deriving DecidableEq, Repr

/-- `Allocate` under allocator `a`: a block at an offset never used before. -/
def MemoryManager.Allocate (mm : MemoryManager) (a : Nat) : Nat × MemoryManager :=
  (mm.next, { live := (a, mm.next) :: mm.live, next := mm.next + 1 })

/-- Modelled from the spec: `Allocate` under allocator `a` when the backend
region of `a` has room for `capacity` blocks: it fails with `OutOfMemory` when
the region is exhausted (section 4.1). -/
def MemoryManager.AllocateChecked (mm : MemoryManager) (a capacity : Nat) :
    Except Error (Nat × MemoryManager) :=
  if mm.live.countP (fun b => b.1 == a) < capacity then Except.ok (mm.Allocate a)
  else Except.error Error.OUT_OF_MEMORY

/-- `Free` of the block at offset `off` of allocator `a`. -/
def MemoryManager.Free (mm : MemoryManager) (a off : Nat) : MemoryManager :=
  { mm with live := mm.live.erase (a, off) }

/-- Modelled from the spec: `hipc::vector` (vector.h is not part of the sources
at hand), a shared-memory container following the container protocol of
section 4.3: it records its allocator id, holds the offset pointer of its
block (`none` is the null pointer) and the elements stored in the block. -/
structure vector (α : Type) where
  alloc_id_ : Nat
  vec_ptr_ : Option Nat
  elems : List α
  deriving DecidableEq, Repr

/-- `vector::size()`. -/
def vector.size {α : Type} (v : vector α) : Nat := v.elems.length

/-- `vector::IsNull()`. -/
def vector.IsNull {α : Type} (v : vector α) : Bool := v.vec_ptr_.isNone

/-- `vector::SetNull()`. -/
def vector.SetNull {α : Type} (v : vector α) : vector α :=
  { v with vec_ptr_ := none, elems := [] }

/-- `mpsc_queue<T>` of mpsc_queue.h: the archived vector of (flag, value)
slots, the two atomic counters and the flag word. The `RwLock lock_` member is
never touched by any method and is left out. -/
structure mpsc_queue (T : Type) where
  alloc_id_ : Nat
  queue_ : vector (pair bitfield32_t T)
  tail_ : Nat
  head_ : Nat
  flags_ : bitfield32_t
  deriving DecidableEq, Repr

namespace mpsc_queue

variable {T : Type}

/-- The slot a ring index refers to, `(*queue_)[idx]`; `none` when the index is
out of bounds (undefined behaviour in the source). -/
def slot (q : mpsc_queue T) (idx : Nat) : Option (pair bitfield32_t T) :=
  q.queue_.elems[idx]?

/-- Overwrite slot `idx` of the archived vector. -/
def set_slot (q : mpsc_queue T) (idx : Nat) (e : pair bitfield32_t T) : mpsc_queue T :=
  { q with queue_ := { q.queue_ with elems := q.queue_.elems.set idx e } }

/-- `tail - head + 1` in `size_t` arithmetic (lines 187 and 194). -/
def occupancy (tail head : Nat) : Nat := (tail + U64 - head + 1) % U64

/-- `uint32_t idx = tail % queue.size()` (line 203): the remainder is narrowed to
32 bits. -/
def emplace_idx (q : mpsc_queue T) (tail : Nat) : Nat := (tail % q.queue_.size) % U32

/-- `tail_.fetch_add(1)` (line 186): the counter after the increment. -/
def fetch_add_tail (q : mpsc_queue T) : mpsc_queue T :=
  { q with tail_ := (q.tail_ + 1) % U64 }

/-- `head_.fetch_add(1)` (lines 233 and 255): the counter after the increment. -/
def fetch_add_head (q : mpsc_queue T) : mpsc_queue T :=
  { q with head_ := (q.head_ + 1) % U64 }

/-- Lines 203-208: `queue.replace(iter, PiecewiseConstruct(), make_argpack(),
make_argpack(args...))` builds a new pair in slot `idx`, its flag word default
constructed (all bits clear) and its value constructed from the argument. -/
def emplace_replace (q : mpsc_queue T) (tail : Nat) (v : T) : mpsc_queue T :=
  q.set_slot (q.emplace_idx tail) ⟨⟨0⟩, v⟩

/-- Lines 211-212: `entry.GetFirst().SetBits(1)` on `*iter`. -/
def emplace_publish (q : mpsc_queue T) (tail : Nat) : Option (mpsc_queue T) :=
  match q.slot (q.emplace_idx tail) with
  | none => none
  | some entry => some (q.set_slot (q.emplace_idx tail) { entry with first_ := entry.first_.SetBits 1 })

/-- The `while (true)` loop of lines 192-199 run by a thread on its own: each
round reloads `head_` and leaves the loop when the claimed index fits; `fuel`
bounds the number of rounds, and `false` means the loop is still spinning. -/
def emplace_spin (q : mpsc_queue T) (tail : Nat) : Nat → Bool
  | 0 => false
  | fuel + 1 =>
    if occupancy tail q.head_ ≤ q.queue_.size then true
    else emplace_spin q tail fuel

/-- `emplace(args...)` (lines 180-214) run with no other thread interleaved.
`none`: the call has not returned within `fuel` rounds of the wait loop, or
indexes an empty vector. -/
def emplace (fuel : Nat) (q : mpsc_queue T) (v : T) : Option (qtok_t × mpsc_queue T) :=
  let head := q.head_
  let tail := q.tail_
  let q1 := q.fetch_add_tail
  let size := occupancy tail head
  if size > q1.queue_.size ∧ emplace_spin q1 tail fuel = false then none
  else
    match (q1.emplace_replace tail v).emplace_publish tail with
    | none => none
    | some q3 => some (⟨tail⟩, q3)

/-- `pop(T &val)` (lines 217-238). `mv` gives the state `std::move` leaves a
value in. The result carries the token, the caller's `val` after the call and
the queue after the call. -/
def pop (mv : T → T) (q : mpsc_queue T) (val : T) : Option (qtok_t × T × mpsc_queue T) :=
  let head := q.head_
  let tail := q.tail_
  if head ≥ tail then some (qtok_t.GetNull, val, q)
  else
    let idx := head % q.queue_.size
    match q.slot idx with
    | none => none
    | some entry =>
      if entry.GetFirst.Any 1 then
        let val1 := entry.GetSecond
        let e1 : pair bitfield32_t T := { entry with second_ := mv entry.second_ }
        let e2 : pair bitfield32_t T := { e1 with first_ := e1.first_.Clear }
        some (⟨head⟩, val1, (q.set_slot idx e2).fetch_add_head)
      else some (qtok_t.GetNull, val, q)

/-- `pop()` (lines 240-260). -/
def pop0 (q : mpsc_queue T) : Option (qtok_t × mpsc_queue T) :=
  let head := q.head_
  let tail := q.tail_
  if head ≥ tail then some (qtok_t.GetNull, q)
  else
    let idx := head % q.queue_.size
    match q.slot idx with
    | none => none
    | some entry =>
      if entry.GetFirst.Any 1 then
        let q1 := q.set_slot idx { entry with first_ := entry.first_.Clear }
        some (⟨head⟩, q1.fetch_add_head)
      else some (qtok_t.GetNull, q)

/-- A pointer argument of `peek`: the address of something outside the queue, or
the address of (the value of) slot `idx`. -/
inductive SlotPtr where
  | other (addr : Nat)
  | slot (idx : Nat)
  deriving DecidableEq, Repr

/-- `head_.load() + off` with `int off` (lines 266 and 287): the offset is
converted to 64 bits and the sum wraps. -/
def peek_head (q : mpsc_queue T) (off : Int) : Nat :=
  (((q.head_ : Int) + off) % (U64 : Int)).toNat

/-- `peek(T *&val, int off)` (lines 262-281). The result carries the token, the
caller's pointer after the call and the queue after the call. -/
def peek (q : mpsc_queue T) (val : SlotPtr) (off : Int) : Option (qtok_t × SlotPtr × mpsc_queue T) :=
  let head := q.peek_head off
  let tail := q.tail_
  if head ≥ tail then some (qtok_t.GetNull, val, q)
  else
    let idx := head % q.queue_.size
    match q.slot idx with
    | none => none
    | some entry =>
      if entry.GetFirst.Any 1 then some (⟨head⟩, SlotPtr.slot idx, q)
      else some (qtok_t.GetNull, val, q)

/-- `peek(pair<bitfield32_t, T> *&val, int off)` (lines 283-302). -/
def peek_pair (q : mpsc_queue T) (val : SlotPtr) (off : Int) : Option (qtok_t × SlotPtr × mpsc_queue T) :=
  let head := q.peek_head off
  let tail := q.tail_
  if head ≥ tail then some (qtok_t.GetNull, val, q)
  else
    let idx := head % q.queue_.size
    match q.slot idx with
    | none => none
    | some entry =>
      if entry.GetFirst.Any 1 then some (⟨head⟩, SlotPtr.slot idx, q)
      else some (qtok_t.GetNull, val, q)

/-- What a `T*` set by `peek` points at. -/
def deref (q : mpsc_queue T) : SlotPtr → Option T
  | SlotPtr.other _ => none
  | SlotPtr.slot idx => (q.slot idx).map pair.GetSecond

/-- What a `pair*` set by `peek` points at. -/
def deref_pair (q : mpsc_queue T) : SlotPtr → Option (pair bitfield32_t T)
  | SlotPtr.other _ => none
  | SlotPtr.slot idx => q.slot idx

/-- `GetSize()` (lines 304-313). -/
def GetSize (q : mpsc_queue T) : Nat :=
  let tail := q.tail_
  let head := q.head_
  if tail < head then 0 else tail - head

/-- A run of `emplace` calls, one per value, by one thread: the tokens returned
and the queue afterwards. -/
def emplace_all (fuel : Nat) (q : mpsc_queue T) : List T → Option (List qtok_t × mpsc_queue T)
  | [] => some ([], q)
  | v :: vs =>
    match emplace fuel q v with
    | none => none
    | some r =>
      match emplace_all fuel r.2 vs with
      | none => none
      | some rs => some (r.1 :: rs.1, rs.2)

/-- A run of `n` calls `pop(val)` by the consumer, on the same variable `val`:
the token and the content of `val` after each call, and the queue afterwards. -/
def pop_n (mv : T → T) (q : mpsc_queue T) (val : T) : Nat → Option (List (qtok_t × T) × mpsc_queue T)
  | 0 => some ([], q)
  | n + 1 =>
    match pop mv q val with
    | none => none
    | some r =>
      match pop_n mv r.2.2 r.2.1 n with
      | none => none
      | some rs => some ((r.1, r.2.1) :: rs.1, rs.2)

end mpsc_queue

/-! ## Container lifecycle (HIPC_CONTAINER_TEMPLATE) -/

/-- What a class supplies to `HIPC_CONTAINER_TEMPLATE`: its `IsNull()`,
`SetNull()` and `shm_destroy_main()`, acting on a state `S`. -/
structure ContainerOps (S : Type) where
  IsNull : S → Bool
  SetNull : S → S
  shm_destroy_main : S → S

/-- The member functions of the class that a template function calls. -/
inductive Call where
  | shm_destroy_main
  | SetNull
  deriving DecidableEq, Repr

/-- `shm_destroy()` of the container template (shm_container_macro.h lines
36-41, shm_container_base_template.h lines 23-28): the state afterwards and the
class functions called, in order. -/
def ContainerOps.shm_destroy {S : Type} (c : ContainerOps S) (s : S) : S × List Call :=
  if c.IsNull s then (s, [])
  else (c.SetNull (c.shm_destroy_main s), [Call.shm_destroy_main, Call.SetNull])

/-- The destructor of the container template, `~CLASS_NAME() = default`
(shm_container_macro.h line 34, shm_container_base_template.h line 21): no
statement runs, and no member of a container class has a destructor of its own
that releases shared memory. -/
def ContainerOps.destructor {S : Type} (_c : ContainerOps S) (s : S) : S × List Call :=
  (s, [])

/-- Modelled from the spec: `vector::shm_destroy_main()`, the type-specific
teardown of the vector: its block goes back to its allocator. -/
def vector.shm_destroy_main {α : Type} (s : vector α × MemoryManager) : vector α × MemoryManager :=
  match s.1.vec_ptr_ with
  | none => s
  | some off => (s.1, s.2.Free s.1.alloc_id_ off)

/-- Modelled from the spec: the vector as an instance of the container
template. -/
def vector.ops (α : Type) : ContainerOps (vector α × MemoryManager) where
  IsNull s := s.1.IsNull
  SetNull s := (s.1.SetNull, s.2)
  shm_destroy_main := vector.shm_destroy_main

/-- Modelled from the spec: the vector constructor `vector(alloc, depth)` used by
`HSHM_MAKE_AR(queue_, GetAllocator(), depth)`: storage for `depth` default
constructed elements is allocated once, under `alloc`. -/
def vector.shm_init {α : Type} (alloc depth : Nat) (dflt : α) (mm : MemoryManager) :
    vector α × MemoryManager :=
  let r := mm.Allocate alloc
  ({ alloc_id_ := alloc, vec_ptr_ := some r.1, elems := List.replicate depth dflt }, r.2)

/-- Modelled from the spec: vector copy assignment, a strong copy: the
destination is destroyed, fresh storage is allocated under the destination's
allocator, whose region has room for `capacity` blocks, and the elements are
copied one by one. -/
def vector.copy_assign {α : Type} (dst src : vector α) (mm : MemoryManager) (capacity : Nat) :
    Except Error (vector α × MemoryManager) :=
  let d := ((vector.ops α).shm_destroy (dst, mm)).1
  match d.2.AllocateChecked d.1.alloc_id_ capacity with
  | Except.error e => Except.error e
  | Except.ok r =>
    Except.ok ({ alloc_id_ := d.1.alloc_id_, vec_ptr_ := some r.1, elems := src.elems }, r.2)

/-- Modelled from the spec: vector move assignment: the destination is
destroyed; when both vectors share one allocator the handle is transferred
and the source is nulled, otherwise the source is strongly copied and then
destroyed. The result is (destination, source, memory). -/
def vector.move_assign {α : Type} (dst src : vector α) (mm : MemoryManager) (capacity : Nat) :
    Except Error (vector α × vector α × MemoryManager) :=
  let d := ((vector.ops α).shm_destroy (dst, mm)).1
  if d.1.alloc_id_ = src.alloc_id_ then
    Except.ok ({ d.1 with vec_ptr_ := src.vec_ptr_, elems := src.elems }, src.SetNull, d.2)
  else
    match d.2.AllocateChecked d.1.alloc_id_ capacity with
    | Except.error e => Except.error e
    | Except.ok r =>
      let s := ((vector.ops α).shm_destroy (src, r.2)).1
      Except.ok ({ alloc_id_ := d.1.alloc_id_, vec_ptr_ := some r.1, elems := src.elems },
        s.1, s.2)

namespace mpsc_queue

variable {T : Type}

/-- `shm_destroy_main()` (lines 156-160): `(*queue_).shm_destroy()`. -/
def shm_destroy_main (s : mpsc_queue T × MemoryManager) : mpsc_queue T × MemoryManager :=
  let r := ((vector.ops (pair bitfield32_t T)).shm_destroy (s.1.queue_, s.2)).1
  ({ s.1 with queue_ := r.1 }, r.2)

/-- `IsNull()` (lines 162-166): `(*queue_).IsNull()`. -/
def IsNull (q : mpsc_queue T) : Bool := q.queue_.IsNull

/-- `SetNull()` (lines 168-173): both counters are reset. -/
def SetNull (q : mpsc_queue T) : mpsc_queue T := { q with head_ := 0, tail_ := 0 }

/-- The queue class as an instance of the container template. -/
def ops (T : Type) : ContainerOps (mpsc_queue T × MemoryManager) where
  IsNull s := s.1.IsNull
  SetNull s := (s.1.SetNull, s.2)
  shm_destroy_main := shm_destroy_main

/-- `shm_destroy()` of the queue. -/
def shm_destroy (s : mpsc_queue T × MemoryManager) : mpsc_queue T × MemoryManager :=
  ((ops T).shm_destroy s).1

/-- `shm_init(alloc, depth)` (lines 66-73); `dflt` is the default constructed
`T` that fills the slots. -/
def shm_init (alloc depth : Nat) (dflt : T) (mm : MemoryManager) : mpsc_queue T × MemoryManager :=
  let r := vector.shm_init alloc depth (⟨⟨0⟩, dflt⟩ : pair bitfield32_t T) mm
  (SetNull { alloc_id_ := alloc, queue_ := r.1, tail_ := 0, head_ := 0, flags_ := (⟨0⟩ : bitfield32_t).Clear }, r.2)

/-- `shm_strong_copy_op(other)` (lines 98-104). `queue_` is a `ShmArchive`, raw
storage that holds a vector only once `HSHM_MAKE_AR` has built one in it, which
`shm_init` alone does (line 70); `queue_built` says whether the archive of
`*this` holds one. Assigning through `*queue_` when it holds none is undefined
behaviour. -/
def shm_strong_copy_op (queue_built : Bool) (self other : mpsc_queue T) (mm : MemoryManager)
    (capacity : Nat) : Except Error (mpsc_queue T × MemoryManager) :=
  let self1 : mpsc_queue T := { self with head_ := other.head_, tail_ := other.tail_ }
  if queue_built then
    match vector.copy_assign self1.queue_ other.queue_ mm capacity with
    | Except.error e => Except.error e
    | Except.ok r => Except.ok ({ self1 with queue_ := r.1 }, r.2)
  else Except.error Error.undefined_behaviour

/-- `init_shm_container(alloc)` (shm_container_macro.h lines 25-27): the
allocator id is stored and nothing else is done. -/
def init_shm_container (self : mpsc_queue T) (alloc : Nat) : mpsc_queue T :=
  { self with alloc_id_ := alloc }

/-- `shm_move_op<IS_ASSIGN>(alloc, other)` (lines 132-150). `self` is the object
the member function runs on: the assigned-to queue, or for a constructor the
storage the new queue is built in, and `queue_built` says whether its archive
`queue_` holds a vector. Every access through `*queue_` when it holds none is
undefined behaviour: the `IsNull()` of `shm_destroy()` (line 136), the move
assignment of line 142 and the copy assignment of line 103. The result is
(this, other, memory). -/
def shm_move_op (IS_ASSIGN queue_built : Bool) (self : mpsc_queue T) (alloc : Nat)
    (other : mpsc_queue T) (mm : MemoryManager) (capacity : Nat) :
    Except Error (mpsc_queue T × mpsc_queue T × MemoryManager) :=
  if IS_ASSIGN = true ∧ queue_built = false then Except.error Error.undefined_behaviour
  else
    let s1 : mpsc_queue T × MemoryManager :=
      if IS_ASSIGN then shm_destroy (self, mm) else (init_shm_container self alloc, mm)
    if s1.1.alloc_id_ = other.alloc_id_ then
      let self2 : mpsc_queue T := { s1.1 with head_ := other.head_, tail_ := other.tail_ }
      if queue_built then
        match vector.move_assign self2.queue_ other.queue_ s1.2 capacity with
        | Except.error e => Except.error e
        | Except.ok r =>
          Except.ok ({ self2 with queue_ := r.1 }, SetNull { other with queue_ := r.2.1 }, r.2.2)
      else Except.error Error.undefined_behaviour
    else
      match shm_strong_copy_op queue_built s1.1 other s1.2 capacity with
      | Except.error e => Except.error e
      | Except.ok c =>
        let o := shm_destroy (other, c.2)
        Except.ok (c.1, o.1, o.2)

/-- The move assignment operator (lines 123-130) on a queue set up by `shm_init`.
`this_is_other` is the outcome of the test `this != &other` of line 126 not
holding: the two references are to one object, and nothing is done. -/
def move_assign (this_is_other : Bool) (self other : mpsc_queue T) (mm : MemoryManager)
    (capacity : Nat) : Except Error (mpsc_queue T × mpsc_queue T × MemoryManager) :=
  if this_is_other then Except.ok (self, other, mm)
  else shm_move_op true true self other.alloc_id_ other mm capacity

end mpsc_queue

/-! ## The other container classes -/

/-- `pair` as an instance of the container template (pair.h lines 236-248):
`IsNull()` is constantly false, `SetNull()` does nothing and `shm_destroy_main()`
runs `HSHM_DESTROY_AR` on `first_` and then on `second_`. `destroy_first` and
`destroy_second` say what destroying a sub-object of the two types does; `M` is
the state of the memory the sub-objects live in. -/
def pair.ops {A B M : Type} (destroy_first : A × M → A × M) (destroy_second : B × M → B × M) :
    ContainerOps (pair A B × M) where
  IsNull _ := false
  SetNull s := s
  shm_destroy_main s :=
    let r1 := destroy_first (s.1.first_, s.2)
    let r2 := destroy_second (s.1.second_, r1.2)
    ({ first_ := r1.1, second_ := r2.1 }, r2.2)

/-- Modelled from the spec: `spsc_queue` (spsc_queue.h is not part of the sources
at hand), the single-producer/single-consumer queue inside `ticket_queue`: a
container over an archived vector with a head and a tail counter. -/
structure spsc_queue (T : Type) where
  alloc_id_ : Nat
  queue_ : vector T
  tail_ : Nat
  head_ : Nat
  deriving DecidableEq, Repr

/-- Modelled from the spec: `spsc_queue` as an instance of the container
template. -/
def spsc_queue.ops (T : Type) : ContainerOps (spsc_queue T × MemoryManager) where
  IsNull s := s.1.queue_.IsNull
  SetNull s := ({ s.1 with head_ := 0, tail_ := 0 }, s.2)
  shm_destroy_main s :=
    let r := ((vector.ops T).shm_destroy (s.1.queue_, s.2)).1
    ({ s.1 with queue_ := r.1 }, r.2)

/-- `ticket_queue<T>` of ticket_queue.h: the archived queue and the mutex
(`true` when locked). -/
structure ticket_queue (T : Type) where
  alloc_id_ : Nat
  queue_ : spsc_queue T
  lock_ : Bool
  deriving DecidableEq, Repr

/-- `ticket_queue` as an instance of the container template (ticket_queue.h lines
127-141): `shm_destroy_main()` is `(*queue_).shm_destroy()`, `IsNull()` is
`(*queue_).IsNull()` and `SetNull()` does nothing. -/
def ticket_queue.ops (T : Type) : ContainerOps (ticket_queue T × MemoryManager) where
  IsNull s := (spsc_queue.ops T).IsNull (s.1.queue_, s.2)
  SetNull s := s
  shm_destroy_main s :=
    let r := ((spsc_queue.ops T).shm_destroy (s.1.queue_, s.2)).1
    ({ s.1 with queue_ := r.1 }, r.2)

/-- Modelled from the spec: the two operations of `spsc_queue` that `ticket_queue`
delegates to (spsc_queue.h is not part of the sources at hand). `emplace(tkt)`
gives the token returned and the queue afterwards; `pop(tkt)` gives the token
returned, the content of `tkt` afterwards and the queue afterwards. -/
structure spsc_queue.Methods (T : Type) where
  emplace : spsc_queue T → T → qtok_t × spsc_queue T
  pop : spsc_queue T → T → qtok_t × T × spsc_queue T

/-- Modelled from the spec: `Mutex::Lock(owner)` of `hshm::Mutex` (thread/lock.h is
not part of the sources at hand) on a mutex in state `lock_` (`true`: held). The
call waits until the mutex is free and then holds it; run with no other thread
to release the mutex, a call on a held mutex does not return (`none`). -/
def Mutex.Lock (lock_ : Bool) : Option Bool :=
  if lock_ then none else some true

/-- Modelled from the spec: `Mutex::Unlock()`: the mutex is free afterwards. -/
def Mutex.Unlock (_lock_ : Bool) : Bool := false

/-- What a member function of `ticket_queue` calls, in order. -/
inductive TicketCall where
  | Lock
  | emplace
  | pop
  | Unlock
  deriving DecidableEq, Repr

/-- `ticket_queue::emplace(tkt)` (ticket_queue.h lines 148-154): the token
returned, the queue afterwards and the calls made. -/
def ticket_queue.emplace {T : Type} (m : spsc_queue.Methods T) (q : ticket_queue T) (tkt : T) :
    Option (qtok_t × ticket_queue T × List TicketCall) :=
  match Mutex.Lock q.lock_ with
  | none => none
  | some l =>
    let q1 : ticket_queue T := { q with lock_ := l }
    let qtok := m.emplace q1.queue_ tkt
    let q2 : ticket_queue T := { q1 with queue_ := qtok.2 }
    let q3 : ticket_queue T := { q2 with lock_ := Mutex.Unlock q2.lock_ }
    some (qtok.1, q3, [TicketCall.Lock, TicketCall.emplace, TicketCall.Unlock])

/-- `ticket_queue::pop(tkt)` (ticket_queue.h lines 158-163): the token returned,
the content of `tkt` afterwards, the queue afterwards and the calls made. -/
def ticket_queue.pop {T : Type} (m : spsc_queue.Methods T) (q : ticket_queue T) (tkt : T) :
    Option (qtok_t × T × ticket_queue T × List TicketCall) :=
  match Mutex.Lock q.lock_ with
  | none => none
  | some l =>
    let q1 : ticket_queue T := { q with lock_ := l }
    let qtok := m.pop q1.queue_ tkt
    let q2 : ticket_queue T := { q1 with queue_ := qtok.2.2 }
    let q3 : ticket_queue T := { q2 with lock_ := Mutex.Unlock q2.lock_ }
    some (qtok.1, qtok.2.1, q3, [TicketCall.Lock, TicketCall.pop, TicketCall.Unlock])

/-- A queue of depth 2 fresh from `shm_init` under allocator 7, with the memory
that holds its block. -/
def fresh_queue : mpsc_queue Nat × MemoryManager :=
  mpsc_queue.shm_init 7 2 0 ⟨[], 0⟩

/-! ## Threads: producers and the consumer, one shared-memory access per step -/

/-- Where a producer thread stands inside `emplace` (mpsc_queue.h lines
182-214); `v` is the value being emplaced. -/
inductive ProducerPC (T : Type) where
  /-- Not inside `emplace`. -/
  | idle : ProducerPC T
  /-- Line 185 done: `head` holds `head_.load()`. -/
  | loaded (v : T) (head : Nat) : ProducerPC T
  /-- `tail` holds the index claimed by `tail_.fetch_add(1)` (line 186) and `head`
  the last value loaded from `head_` (line 185 or 193); next is the test of
  line 191 or 195. -/
  | claimed (v : T) (head tail : Nat) : ProducerPC T
  /-- The test failed (and the thread yielded); next is the load of line 193. -/
  | spinning (v : T) (tail : Nat) : ProducerPC T
  /-- The test passed; next is `replace` (lines 203-208). -/
  | ready (v : T) (tail : Nat) : ProducerPC T
  /-- The slot is written; next is `SetBits(1)` (line 212) and the return. -/
  | written (v : T) (tail : Nat) : ProducerPC T
  deriving DecidableEq, Repr

/-- Where the consumer thread stands inside `pop(val)` (`with_val = true`, lines
219-238) or `pop()` (`with_val = false`, lines 242-260). -/
inductive ConsumerPC where
  /-- Not inside a call. -/
  | idle : ConsumerPC
  /-- `head` holds `head_.load()`. -/
  | loaded_head (with_val : Bool) (head : Nat) : ConsumerPC
  /-- `tail` holds `tail_.load()`; next are the tests `head >= tail` and `Any(1)`. -/
  | loaded (with_val : Bool) (head tail : Nat) : ConsumerPC
  /-- The flag was seen set; next is the move into `val` (line 231) or, for
  `pop()`, `Clear()` (line 254). -/
  | flagged (with_val : Bool) (head : Nat) : ConsumerPC
  /-- The value is moved out; next is `Clear()` (line 232). -/
  | moved (head : Nat) : ConsumerPC
  /-- The flag is cleared; next is `head_.fetch_add(1)` and the return. -/
  | cleared (head : Nat) : ConsumerPC
  deriving DecidableEq, Repr

/-- The queue in shared memory, the producer threads, the single consumer thread
and the consumer's variable `val`. -/
structure System (T : Type) where
  q : mpsc_queue T
  producers : List (ProducerPC T)
  consumer : ConsumerPC
  val : T
  deriving DecidableEq, Repr

/-- What a scheduler can pick: producer `i` takes its next step (entering
`emplace(v)` when it is idle), or the consumer takes its next step (entering
`pop(val)` or `pop()` when it is idle). -/
inductive Action (T : Type) where
  | produce (i : Nat) (v : T) : Action T
  | consume (with_val : Bool) : Action T
  deriving DecidableEq, Repr

namespace System

variable {T : Type}

/-- The next step of producer `i`. -/
def producer_step (i : Nat) (v : T) (s : System T) : System T :=
  match s.producers[i]? with
  | none => s
  | some ProducerPC.idle =>
    { s with producers := s.producers.set i (ProducerPC.loaded v s.q.head_) }
  | some (ProducerPC.loaded w h) =>
    { s with q := s.q.fetch_add_tail,
             producers := s.producers.set i (ProducerPC.claimed w h s.q.tail_) }
  | some (ProducerPC.claimed w h t) =>
    if mpsc_queue.occupancy t h > s.q.queue_.size then
      { s with producers := s.producers.set i (ProducerPC.spinning w t) }
    else
      { s with producers := s.producers.set i (ProducerPC.ready w t) }
  | some (ProducerPC.spinning w t) =>
    { s with producers := s.producers.set i (ProducerPC.claimed w s.q.head_ t) }
  | some (ProducerPC.ready w t) =>
    { s with q := s.q.emplace_replace t w,
             producers := s.producers.set i (ProducerPC.written w t) }
  | some (ProducerPC.written _ t) =>
    match s.q.emplace_publish t with
    | none => s
    | some q1 => { s with q := q1, producers := s.producers.set i ProducerPC.idle }

/-- The next step of the consumer. -/
def consumer_step (mv : T → T) (with_val : Bool) (s : System T) : System T :=
  match s.consumer with
  | ConsumerPC.idle => { s with consumer := ConsumerPC.loaded_head with_val s.q.head_ }
  | ConsumerPC.loaded_head wv h => { s with consumer := ConsumerPC.loaded wv h s.q.tail_ }
  | ConsumerPC.loaded wv h t =>
    if h ≥ t then { s with consumer := ConsumerPC.idle }
    else
      match s.q.slot (h % s.q.queue_.size) with
      | none => s
      | some entry =>
        if entry.GetFirst.Any 1 then { s with consumer := ConsumerPC.flagged wv h }
        else { s with consumer := ConsumerPC.idle }
  | ConsumerPC.flagged true h =>
    match s.q.slot (h % s.q.queue_.size) with
    | none => s
    | some entry =>
      { s with val := entry.GetSecond,
               q := s.q.set_slot (h % s.q.queue_.size) { entry with second_ := mv entry.second_ },
               consumer := ConsumerPC.moved h }
  | ConsumerPC.flagged false h =>
    match s.q.slot (h % s.q.queue_.size) with
    | none => s
    | some entry =>
      { s with q := s.q.set_slot (h % s.q.queue_.size) { entry with first_ := entry.first_.Clear },
               consumer := ConsumerPC.cleared h }
  | ConsumerPC.moved h =>
    match s.q.slot (h % s.q.queue_.size) with
    | none => s
    | some entry =>
      { s with q := s.q.set_slot (h % s.q.queue_.size) { entry with first_ := entry.first_.Clear },
               consumer := ConsumerPC.cleared h }
  | ConsumerPC.cleared _ => { s with q := s.q.fetch_add_head, consumer := ConsumerPC.idle }

/-- One scheduled step. -/
def step (mv : T → T) (s : System T) : Action T → System T
  | Action.produce i v => producer_step i v s
  | Action.consume with_val => consumer_step mv with_val s

/-- The state a schedule leads to. -/
def run (mv : T → T) (s : System T) (acts : List (Action T)) : System T :=
  acts.foldl (step mv) s

/-- The start: a queue fresh from `shm_init(alloc, depth)`, `n` producer threads
and the consumer, all outside any call. -/
def init (n alloc depth : Nat) (dflt : T) (mm : MemoryManager) : System T :=
  { q := (mpsc_queue.shm_init alloc depth dflt mm).1,
    producers := List.replicate n ProducerPC.idle,
    consumer := ConsumerPC.idle,
    val := dflt }

/-- A producer has incremented `tail_` and has not yet passed the space test of
`emplace`. -/
def waiting : ProducerPC T → Bool
  | ProducerPC.claimed _ _ _ => true
  | ProducerPC.spinning _ _ => true
  | _ => false

/-- The number of producers waiting for space. -/
def waiting_count (s : System T) : Nat := s.producers.countP waiting

end System

/-! ## The invariant of the running system -/

namespace System

variable {T : Type}

/-- The index a producer has claimed, from `tail_.fetch_add(1)` to its return. -/
def held : ProducerPC T → Option Nat
  | ProducerPC.claimed _ _ t => some t
  | ProducerPC.spinning _ t => some t
  | ProducerPC.ready _ t => some t
  | ProducerPC.written _ t => some t
  | _ => none

/-- What the local variables of a producer say about the counters: a loaded head
is not ahead of `head_`, a claimed index lies in `[head_, tail_)`, and an index
that passed the space test lies below `head_ + C`. -/
def pc_ok (C head tail : Nat) : ProducerPC T → Prop
  | ProducerPC.idle => True
  | ProducerPC.loaded _ h => h ≤ head
  | ProducerPC.claimed _ h t => h ≤ head ∧ head ≤ t ∧ t < tail
  | ProducerPC.spinning _ t => head ≤ t ∧ t < tail
  | ProducerPC.ready _ t => head ≤ t ∧ t < tail ∧ t < head + C
  | ProducerPC.written _ t => head ≤ t ∧ t < tail ∧ t < head + C

/-- No producer is between claiming index `t` and returning. -/
def unheld (ps : List (ProducerPC T)) (t : Nat) : Prop :=
  ∀ (i : Nat) (pc : ProducerPC T), ps[i]? = some pc → held pc ≠ some t

/-- Flag bit 0 of slot `idx` is clear. -/
def flag_clear (q : mpsc_queue T) (idx : Nat) : Prop :=
  ∀ e, q.slot idx = some e → e.GetFirst.Any 1 = false

/-- What the local variables of the consumer say about the queue. -/
def cons_ok (C : Nat) (q : mpsc_queue T) (ps : List (ProducerPC T)) : ConsumerPC → Prop
  | ConsumerPC.idle => True
  | ConsumerPC.loaded_head _ h => h = q.head_
  | ConsumerPC.loaded _ h t => h = q.head_ ∧ t ≤ q.tail_
  | ConsumerPC.flagged _ h => h = q.head_ ∧ h < q.tail_ ∧ unheld ps h
  | ConsumerPC.moved h => h = q.head_ ∧ h < q.tail_ ∧ unheld ps h
  | ConsumerPC.cleared h => h = q.head_ ∧ h < q.tail_ ∧ unheld ps h ∧ flag_clear q (h % C)

/-- The invariant of a queue of capacity `C` after at most `k` steps. -/
structure Inv (C k : Nat) (s : System T) : Prop where
  size_eq : s.q.queue_.size = C
  head_le : s.q.head_ ≤ s.q.tail_
  tail_le : s.q.tail_ ≤ k
  pcs : ∀ (i : Nat) (pc : ProducerPC T), s.producers[i]? = some pc →
    pc_ok C s.q.head_ s.q.tail_ pc
  distinct : ∀ (i j : Nat) (pi pj : ProducerPC T) (t : Nat), s.producers[i]? = some pi →
    s.producers[j]? = some pj → held pi = some t → held pj = some t → i = j
  flags : ∀ t e, s.q.head_ ≤ t → t < s.q.head_ + C → s.q.slot (t % C) = some e →
    e.GetFirst.Any 1 = true → t < s.q.tail_ ∧ unheld s.producers t
  cons : cons_ok C s.q s.producers s.consumer
  over : ∀ t, s.q.head_ + C ≤ t → t < s.q.tail_ →
    ∃ (i : Nat) (pc : ProducerPC T),
      s.producers[i]? = some pc ∧ waiting pc = true ∧ held pc = some t

/-- What the local variables of a producer say about the two counters alone: a
loaded head is not ahead of `head_`, a claimed index is below `tail_`, and an
index that passed the space test is below `head_ + C`. -/
def pc_bound (C head tail : Nat) : ProducerPC T → Prop
  | ProducerPC.idle => True
  | ProducerPC.loaded _ h => h ≤ head
  | ProducerPC.claimed _ h t => h ≤ head ∧ t < tail
  | ProducerPC.spinning _ t => t < tail
  | ProducerPC.ready _ t => t < tail ∧ t < head + C
  | ProducerPC.written _ t => t < tail ∧ t < head + C

/-- What the local variables of the consumer say about the two counters alone. -/
def cons_bound (head tail : Nat) : ConsumerPC → Prop
  | ConsumerPC.idle => True
  | ConsumerPC.loaded_head _ h => h = head
  | ConsumerPC.loaded _ h t => h = head ∧ t ≤ tail
  | ConsumerPC.flagged _ h => h = head ∧ h < tail
  | ConsumerPC.moved h => h = head ∧ h < tail
  | ConsumerPC.cleared h => h = head ∧ h < tail

/-- The invariant of the two counters of a queue of capacity `C` after at most
`k` steps; it says nothing about the slots. -/
structure CounterInv (C k : Nat) (s : System T) : Prop where
  size_eq : s.q.queue_.size = C
  head_le : s.q.head_ ≤ s.q.tail_
  tail_le : s.q.tail_ ≤ k
  pcs : ∀ (i : Nat) (pc : ProducerPC T), s.producers[i]? = some pc →
    pc_bound C s.q.head_ s.q.tail_ pc
  cons : cons_bound s.q.head_ s.q.tail_ s.consumer
  over : ∀ t, s.q.head_ + C ≤ t → t < s.q.tail_ →
    ∃ (i : Nat) (pc : ProducerPC T),
      s.producers[i]? = some pc ∧ waiting pc = true ∧ held pc = some t

end System

/-! ## Concrete states used to instantiate the theorems -/

/-- A queue of depth 2 holding the published value 11 at index 0, with index 1
claimed by a producer that has not written yet. -/
def demo_queue : mpsc_queue Nat :=
  { alloc_id_ := 7,
    queue_ := { alloc_id_ := 7, vec_ptr_ := some 0, elems := [⟨⟨1⟩, 11⟩, ⟨⟨0⟩, 0⟩] },
    tail_ := 2, head_ := 0, flags_ := ⟨0⟩ }

/-- The queue `demo_queue` after its first value has been popped: the head
slot is claimed and not yet published. -/
def demo_queue_unpublished : mpsc_queue Nat :=
  { alloc_id_ := 7,
    queue_ := { alloc_id_ := 7, vec_ptr_ := some 0, elems := [⟨⟨0⟩, 11⟩, ⟨⟨0⟩, 0⟩] },
    tail_ := 2, head_ := 1, flags_ := ⟨0⟩ }

/-- An empty queue of depth 2 (head = tail = 3). -/
def demo_queue_empty : mpsc_queue Nat :=
  { alloc_id_ := 7,
    queue_ := { alloc_id_ := 7, vec_ptr_ := some 0, elems := [⟨⟨0⟩, 11⟩, ⟨⟨0⟩, 12⟩] },
    tail_ := 3, head_ := 3, flags_ := ⟨0⟩ }

/-- The queue holds exactly the values `p`, published in this order in the slots
`h`, `h + 1`, ... (no slot index wraps around the ring). -/
def mpsc_queue.Filled {T : Type} (q : mpsc_queue T) (h : Nat) (p : List T) : Prop :=
  q.head_ = h ∧ q.tail_ = h + p.length ∧ h + p.length ≤ q.queue_.size ∧
  ∀ i x, p[i]? = some x → q.slot (h + i) = some ⟨⟨1⟩, x⟩

/-- A queue of depth 2 ^ 32 + 1 after 2 ^ 32 calls `emplace(0)` and no pop: the
slots 0 .. 2 ^ 32 - 1 are published, the last slot is free. -/
def wide_queue : mpsc_queue Nat :=
  { alloc_id_ := 7,
    queue_ := { alloc_id_ := 7, vec_ptr_ := some 0,
                elems := List.replicate (2 ^ 32) ⟨⟨1⟩, 0⟩ ++ [⟨⟨0⟩, 0⟩] },
    tail_ := 2 ^ 32, head_ := 0, flags_ := ⟨0⟩ }

/-- Two producers on a queue of depth 1: producer 0 runs `emplace(5)` to the end,
then producer 1 enters `emplace(6)` and increments `tail_`; it finds no room and
has written nothing. -/
def overfull_schedule : List (Action Nat) :=
  [Action.produce 0 5, Action.produce 0 5, Action.produce 0 5, Action.produce 0 5,
   Action.produce 0 5, Action.produce 1 6, Action.produce 1 6, Action.produce 1 6]

/-- The state `overfull_schedule` leads to from a fresh queue of depth 1. -/
def overfull_system : System Nat :=
  System.run id (System.init 2 7 1 0 ⟨[], 0⟩) overfull_schedule

/-- A full queue of depth 2: the values 11 and 12 are published at the indices 0
and 1. -/
def demo_queue_full : mpsc_queue Nat :=
  { alloc_id_ := 7,
    queue_ := { alloc_id_ := 7, vec_ptr_ := some 0, elems := [⟨⟨1⟩, 11⟩, ⟨⟨1⟩, 12⟩] },
    tail_ := 2, head_ := 0, flags_ := ⟨0⟩ }

/-- A second queue of depth 2 under allocator 7, set up by `shm_init` after
`fresh_queue` (its block is at offset 1) and holding 11 and 12, both
published. -/
def demo_source : mpsc_queue Nat :=
  { alloc_id_ := 7,
    queue_ := { alloc_id_ := 7, vec_ptr_ := some 1, elems := [⟨⟨1⟩, 11⟩, ⟨⟨1⟩, 12⟩] },
    tail_ := 2, head_ := 0, flags_ := ⟨0⟩ }

/-- The memory in which `fresh_queue` and `demo_source` hold their blocks. -/
def demo_memory : MemoryManager := ⟨[(7, 1), (7, 0)], 2⟩

/-! ## Memory backends (memory_backend.h, posix_shm_mmap.h) -/

/-- Modelled from the spec: `UnsetBits(mask)` of `bitfield32_t` (types/bitfield.h
is not part of the sources at hand): the bits of the mask are cleared,
`bits_ &= ~mask` on a 32-bit word. -/
def bitfield32_t.UnsetBits (b : bitfield32_t) (mask : Nat) : bitfield32_t :=
  ⟨b.bits_ &&& (mask ^^^ (U32 - 1))⟩

/-- `enum class MemoryBackendType` (memory_backend.h lines 27-34). -/
inductive MemoryBackendType where
  | kPosixShmMmap
  | kCudaShmMmap
  | kCudaMalloc
  | kMallocBackend
  | kArrayBackend
  | kPosixMmap
  deriving DecidableEq, Repr

/-- `MemoryBackendId` (memory_backend.h lines 37-74): a `u32`. -/
structure MemoryBackendId where
  id_ : Nat
  deriving DecidableEq, Repr

/-- `struct MemoryBackendHeader` (memory_backend.h lines 77-81). -/
structure MemoryBackendHeader where
  type_ : MemoryBackendType
  id_ : MemoryBackendId
  data_size_ : Nat
  deriving DecidableEq, Repr

/-- `sizeof(MemoryBackendHeader)`: a 4-byte enum, a `u32` and a `size_t`. -/
def sizeof_MemoryBackendHeader : Nat := 16

/-- `MEMORY_BACKEND_INITIALIZED` (memory_backend.h line 83). -/
def MEMORY_BACKEND_INITIALIZED : Nat := 1

/-- `MEMORY_BACKEND_OWNED` (memory_backend.h line 84). -/
def MEMORY_BACKEND_OWNED : Nat := 2

/-- Modelled from the spec: `hshm::chararr` (chararr.h is not part of the sources
at hand), a character array holding a url; a default constructed one is the
empty string. -/
abbrev chararr : Type := String

/-- Modelled from the spec: an OS shared-memory object, with its length (set by
`ftruncate64`) and the `MemoryBackendHeader` its first bytes hold. -/
structure ShmObject where
  size : Nat
  header : MemoryBackendHeader
  deriving DecidableEq, Repr

/-- The header a zero-filled object holds: every field is 0, and enumerator 0 is
`kPosixShmMmap`. -/
def ShmObject.zero_header : MemoryBackendHeader := ⟨MemoryBackendType.kPosixShmMmap, ⟨0⟩, 0⟩

/-- Modelled from the spec: a region mapped by `mmap64`: `len` bytes of object
`obj` from byte `off` on. -/
structure Mapping where
  obj : Nat
  off : Nat
  len : Nat
  deriving DecidableEq, Repr

/-- Modelled from the spec: the operating system as the backend sees it (section
4.2 and the persisted layout of section 6): the page size
(`HERMES_SYSTEM_INFO->page_size_`), the names of the shared-memory objects, the
objects themselves (an object lives on after its name is unlinked), the
descriptor table (`none`: closed) and the mapped regions by address (`none`:
unmapped). Descriptors and addresses of all processes are drawn from one
numbering. -/
structure OS where
  page_size_ : Nat
  names : List (chararr × Nat)
  objects : List ShmObject
  fds : List (Option Nat)
  maps : List (Option Mapping)
  deriving DecidableEq, Repr

namespace OS

/-- The object a name refers to. -/
def lookup (os : OS) (name : chararr) : Option Nat := List.lookup name os.names

/-- `shm_unlink(name)`: the name is removed; the object stays for those that have
it open or mapped. The empty string names no object. The source ignores the
return value. -/
def shm_unlink (os : OS) (name : chararr) : OS :=
  if name = "" then os
  else { os with names := os.names.filter (fun p => p.1 != name) }

/-- `shm_open(name, oflag, 0666)` with `O_RDWR`, and with `O_CREAT` when
`O_CREAT` is true: the descriptor returned (-1 on failure) and the system
afterwards. An existing object is opened; a missing one is created empty when
`O_CREAT` is given and is an error otherwise; the empty name is an error. -/
def shm_open (os : OS) (name : chararr) (O_CREAT : Bool) : Int × OS :=
  if name = "" then (-1, os)
  else
    match os.lookup name with
    | some obj => ((os.fds.length : Int), { os with fds := os.fds ++ [some obj] })
    | none =>
      if O_CREAT then
        ((os.fds.length : Int),
         { os with names := (name, os.objects.length) :: os.names,
                   objects := os.objects ++ [⟨0, ShmObject.zero_header⟩],
                   fds := os.fds ++ [some os.objects.length] })
      else (-1, os)

/-- The object an open descriptor refers to. -/
def fd_object (os : OS) (fd : Int) : Option Nat :=
  if fd < 0 then none else (os.fds[fd.toNat]?).join

/-- `static_cast<off64_t>(size)` of a `size_t`: the 64-bit pattern read as a
signed integer. -/
def off64_t (size : Nat) : Int :=
  if size % U64 < 2 ^ 63 then ((size % U64 : Nat) : Int) else ((size % U64 : Nat) : Int) - (U64 : Int)

/-- `ftruncate64(fd, length)`: the return value (-1 on failure: bad descriptor
or negative length) and the system afterwards; the object gets the new length. -/
def ftruncate64 (os : OS) (fd : Int) (length : Int) : Int × OS :=
  match os.fd_object fd with
  | none => (-1, os)
  | some obj =>
    if length < 0 then (-1, os)
    else
      match os.objects[obj]? with
      | none => (-1, os)
      | some o => (0, { os with objects := os.objects.set obj { o with size := length.toNat } })

/-- `mmap64(nullptr, len, PROT_READ | PROT_WRITE, MAP_SHARED, fd, off)`: the
address (`none` is `MAP_FAILED`) and the system afterwards. The call fails on a
bad descriptor, on a length of 0, on an offset that is not a multiple of the
page size and when `off + len` does not fit a signed 64-bit offset. -/
def mmap64 (os : OS) (len : Nat) (fd : Int) (off : Nat) : Option Nat × OS :=
  match os.fd_object fd with
  | none => (none, os)
  | some obj =>
    if len = 0 ∨ off % os.page_size_ ≠ 0 ∨ 2 ^ 63 ≤ off + len then (none, os)
    else (some os.maps.length, { os with maps := os.maps ++ [some ⟨obj, off, len⟩] })

/-- `munmap(ptr, len)` of a whole region: the region at that address, if any, is
unmapped. The source ignores the return value. -/
def munmap (os : OS) (ptr : Option Nat) (_len : Nat) : OS :=
  match ptr with
  | none => os
  | some a => { os with maps := os.maps.set a none }

/-- `close(fd)`: the descriptor, if open, is closed. The source ignores the return
value. -/
def close (os : OS) (fd : Int) : OS :=
  if fd < 0 then os else { os with fds := os.fds.set fd.toNat none }

/-- The object whose first bytes a `MemoryBackendHeader*` addresses: the pointer
must be the address of a region mapped at offset 0 that covers a header, and the
object must be long enough to back it. -/
def header_object (os : OS) (ptr : Option Nat) : Option Nat :=
  match ptr with
  | none => none
  | some a =>
    match os.maps[a]? with
    | some (some m) =>
      if m.off = 0 ∧ sizeof_MemoryBackendHeader ≤ m.len then
        match os.objects[m.obj]? with
        | some o => if sizeof_MemoryBackendHeader ≤ o.size then some m.obj else none
        | none => none
      else none
    | _ => none

/-- A read through `header_`: `none` when the access is outside any backed page. -/
def load_header (os : OS) (ptr : Option Nat) : Option MemoryBackendHeader :=
  match os.header_object ptr with
  | none => none
  | some obj => (os.objects[obj]?).map ShmObject.header

/-- A write through `header_`: `none` when the access is outside any backed page. The mapping is
`MAP_SHARED`, so the write lands in the object. -/
def store_header (os : OS) (ptr : Option Nat) (f : MemoryBackendHeader → MemoryBackendHeader) :
    Option OS :=
  match os.header_object ptr with
  | none => none
  | some obj =>
    match os.objects[obj]? with
    | none => none
    | some o => some { os with objects := os.objects.set obj { o with header := f o.header } }

/-- A system with page size `page_size` and no shared-memory object, no open
descriptor and no mapping. -/
def boot (page_size : Nat) : OS :=
  { page_size_ := page_size, names := [], objects := [], fds := [], maps := [] }

end OS

/-- `PosixShmMmap` (posix_shm_mmap.h lines 35-39) with the members of its base
class `MemoryBackend` (memory_backend.h lines 88-93). A pointer is the address of
a mapped region, `none` the null pointer. -/
structure PosixShmMmap where
  header_ : Option Nat
  data_ : Option Nat
  data_size_ : Nat
  flags_ : bitfield32_t
  fd_ : Int
  url_ : chararr
  deriving DecidableEq, Repr

namespace PosixShmMmap

/-- The constructors `MemoryBackend()` and `PosixShmMmap()` (memory_backend.h line
97, posix_shm_mmap.h line 43): `header_` and `data_` are null and `fd_` is -1;
`flags_` and `url_` are default constructed; `data_size_` is not initialised and
holds whatever the storage held, `garbage`. -/
def construct (garbage : Nat) : PosixShmMmap :=
  { header_ := none, data_ := none, data_size_ := garbage, flags_ := ⟨0⟩, fd_ := -1,
    url_ := "" }

/-- `SetInitialized()` (memory_backend.h lines 104-106). -/
def SetInitialized (h : PosixShmMmap) : PosixShmMmap :=
  { h with flags_ := h.flags_.SetBits MEMORY_BACKEND_INITIALIZED }

/-- `IsInitialized()` (memory_backend.h lines 110-112). -/
def IsInitialized (h : PosixShmMmap) : Bool := h.flags_.Any MEMORY_BACKEND_INITIALIZED

/-- `UnsetInitialized()` (memory_backend.h lines 116-118). -/
def UnsetInitialized (h : PosixShmMmap) : PosixShmMmap :=
  { h with flags_ := h.flags_.UnsetBits MEMORY_BACKEND_INITIALIZED }

/-- `Own()` (memory_backend.h lines 122-124). -/
def Own (h : PosixShmMmap) : PosixShmMmap :=
  { h with flags_ := h.flags_.SetBits MEMORY_BACKEND_OWNED }

/-- `IsOwned()` (memory_backend.h lines 128-130). -/
def IsOwned (h : PosixShmMmap) : Bool := h.flags_.Any MEMORY_BACKEND_OWNED

/-- `Disown()` (memory_backend.h lines 134-136). -/
def Disown (h : PosixShmMmap) : PosixShmMmap :=
  { h with flags_ := h.flags_.UnsetBits MEMORY_BACKEND_OWNED }

/-- `_Reserve(size)` (posix_shm_mmap.h lines 103-108). -/
def _Reserve (h : PosixShmMmap) (os : OS) (size : Nat) : Except Error OS :=
  let ret := os.ftruncate64 h.fd_ (OS.off64_t size)
  if ret.1 < 0 then Except.error Error.SHMEM_RESERVE_FAILED else Except.ok ret.2

/-- `_ShmMap(size, off)` (posix_shm_mmap.h lines 116-124): the pointer returned
and the system afterwards. -/
def _ShmMap (h : PosixShmMmap) (os : OS) (size off : Nat) : Except Error (Option Nat × OS) :=
  let r := os.mmap64 size h.fd_ off
  match r.1 with
  | none => Except.error Error.SHMEM_CREATE_FAILED
  | some ptr => Except.ok (some ptr, r.2)

/-- `_Map(size, off)` (posix_shm_mmap.h lines 111-113). -/
def _Map (h : PosixShmMmap) (os : OS) (size off : Nat) : Except Error (Option Nat × OS) :=
  h._ShmMap os size off

/-- `shm_init(backend_id, size, url)` (posix_shm_mmap.h lines 55-74): the value
returned, the handle and the system afterwards. The three stores of lines 68-70
go through the one pointer `header_` and are taken together. -/
def shm_init (h : PosixShmMmap) (os : OS) (backend_id : MemoryBackendId) (size : Nat)
    (url : chararr) : Except Error (Bool × PosixShmMmap × OS) :=
  let h1 := h.SetInitialized.Own
  let os1 := os.shm_unlink url
  let r := os1.shm_open url true
  let h2 := { h1 with fd_ := r.1 }
  if r.1 < 0 then Except.ok (false, h2, r.2)
  else
    match h2._Reserve r.2 ((size + r.2.page_size_) % U64) with
    | Except.error e => Except.error e
    | Except.ok os3 =>
      let h3 := { h2 with url_ := url }
      match h3._Map os3 os3.page_size_ 0 with
      | Except.error e => Except.error e
      | Except.ok m =>
        let h4 := { h3 with header_ := m.1 }
        match m.2.store_header h4.header_
            (fun _ => ⟨MemoryBackendType.kPosixShmMmap, backend_id, size⟩) with
        | none => Except.error Error.undefined_behaviour
        | some os5 =>
          let h5 := { h4 with data_size_ := size }
          match h5._Map os5 size os5.page_size_ with
          | Except.error e => Except.error e
          | Except.ok d => Except.ok (true, { h5 with data_ := d.1 }, d.2)

/-- `shm_deserialize(url)` (posix_shm_mmap.h lines 77-89): the value returned, the
handle and the system afterwards. -/
def shm_deserialize (h : PosixShmMmap) (os : OS) (url : chararr) :
    Except Error (Bool × PosixShmMmap × OS) :=
  let h1 := h.SetInitialized.Disown
  let r := os.shm_open url false
  let h2 := { h1 with fd_ := r.1 }
  if r.1 < 0 then Except.ok (false, h2, r.2)
  else
    match h2._Map r.2 r.2.page_size_ 0 with
    | Except.error e => Except.error e
    | Except.ok m =>
      let h3 := { h2 with header_ := m.1 }
      match m.2.load_header h3.header_ with
      | none => Except.error Error.undefined_behaviour
      | some hd =>
        let h4 := { h3 with data_size_ := hd.data_size_ }
        match h4._Map m.2 h4.data_size_ m.2.page_size_ with
        | Except.error e => Except.error e
        | Except.ok d => Except.ok (true, { h4 with data_ := d.1 }, d.2)

/-- `_ShmDetach()` (posix_shm_mmap.h lines 132-138). -/
def _ShmDetach (s : PosixShmMmap × OS) : PosixShmMmap × OS :=
  if !s.1.IsInitialized then s
  else
    let os1 := s.2.munmap s.1.data_ s.1.data_size_
    let os2 := os1.munmap s.1.header_ os1.page_size_
    let os3 := os2.close s.1.fd_
    (s.1.UnsetInitialized, os3)

/-- `_Detach()` (posix_shm_mmap.h lines 127-129). -/
def _Detach (s : PosixShmMmap × OS) : PosixShmMmap × OS := _ShmDetach s

/-- `_Destroy()` (posix_shm_mmap.h lines 141-146). -/
def _Destroy (s : PosixShmMmap × OS) : PosixShmMmap × OS :=
  if !s.1.IsInitialized then s
  else
    let s1 := _Detach s
    let os2 := s1.2.shm_unlink s1.1.url_
    (s1.1.UnsetInitialized, os2)

/-- `shm_detach()` (posix_shm_mmap.h lines 92-94). -/
def shm_detach (s : PosixShmMmap × OS) : PosixShmMmap × OS := _Detach s

/-- `shm_destroy()` (posix_shm_mmap.h lines 97-99). -/
def shm_destroy (s : PosixShmMmap × OS) : PosixShmMmap × OS := _Destroy s

/-- `~PosixShmMmap()` (posix_shm_mmap.h lines 46-52). -/
def destructor (s : PosixShmMmap × OS) : PosixShmMmap × OS :=
  if s.1.IsOwned then _Destroy s else _Detach s

end PosixShmMmap

/-! ## MemoryBackendFactory (memory_backend_factory.h) -/

/-- A backend object as the factory hands it out: a `PosixShmMmap`, or an object
of one of the backend classes whose sources are not at hand, known by its
type. -/
inductive MemoryBackend where
  | posix_shm_mmap (backend : PosixShmMmap)
  | external (type : MemoryBackendType)
  deriving DecidableEq, Repr

/-- The classes the template parameter `BackendT` of
`MemoryBackendFactory::shm_init` is compared with, and `unlisted` for any other
class. -/
inductive BackendT where
  | PosixShmMmap
  | CudaShmMmap
  | CudaMalloc
  | PosixMmap
  | NullBackend
  | ArrayBackend
  | unlisted
  deriving DecidableEq, Repr

namespace MemoryBackendFactory

/-- The body shared by the branches of `shm_init` (for instance lines 38-42):
`call` is the outcome of `NewObj<BackendT>()` followed by
`backend->shm_init(...)` - the value returned, the backend and the system. -/
def shm_init_branch (call : Except Error (Bool × MemoryBackend × OS)) :
    Except Error (MemoryBackend × OS) :=
  match call with
  | Except.error e => Except.error e
  | Except.ok r =>
    if !r.1 then Except.error Error.MEMORY_BACKEND_CREATE_FAILED
    else Except.ok r.2

/-- `shm_init<BackendT>(size, url, args...)` (lines 33-88). `HERMES_ENABLE_CUDA`
says whether lines 45-60 are compiled. -/
def shm_init (HERMES_ENABLE_CUDA : Bool) (B : BackendT)
    (call : Except Error (Bool × MemoryBackend × OS)) : Except Error (MemoryBackend × OS) :=
  match B with
  | BackendT.PosixShmMmap => shm_init_branch call
  | BackendT.CudaShmMmap =>
    if HERMES_ENABLE_CUDA then shm_init_branch call
    else Except.error Error.MEMORY_BACKEND_NOT_FOUND
  | BackendT.CudaMalloc =>
    if HERMES_ENABLE_CUDA then shm_init_branch call
    else Except.error Error.MEMORY_BACKEND_NOT_FOUND
  | BackendT.PosixMmap => shm_init_branch call
  | BackendT.NullBackend => shm_init_branch call
  | BackendT.ArrayBackend => shm_init_branch call
  | BackendT.unlisted => Except.error Error.MEMORY_BACKEND_NOT_FOUND

/-- A `case` of `shm_deserialize` for a backend class whose source is not at hand
(for instance lines 124-130): `ok` is what `backend->shm_deserialize(url)`
returned. `none` in the result is the null pointer. -/
def shm_deserialize_external (type : MemoryBackendType) (ok : Bool) (os : OS) :
    Except Error (Option MemoryBackend × OS) :=
  if !ok then Except.error Error.MEMORY_BACKEND_NOT_FOUND
  else Except.ok (some (MemoryBackend.external type), os)

/-- `shm_deserialize(type, url)` (lines 91-153). `HERMES_ENABLE_CUDA` says whether
the cases of lines 104-120 are compiled; `ext type url` is what
`shm_deserialize(url)` of a backend class whose source is not at hand returns;
`garbage` is the content of the storage `NewObj` builds the backend in. `none`
in the result is the null pointer. The label `kNullBackend` of line 133 is no
enumerator of `MemoryBackendType` (memory_backend.h lines 27-34) and selects no
value. -/
def shm_deserialize (HERMES_ENABLE_CUDA : Bool) (ext : MemoryBackendType → chararr → Bool)
    (garbage : Nat) (type : MemoryBackendType) (url : chararr) (os : OS) :
    Except Error (Option MemoryBackend × OS) :=
  match type with
  | MemoryBackendType.kPosixShmMmap =>
    match (PosixShmMmap.construct garbage).shm_deserialize os url with
    | Except.error e => Except.error e
    | Except.ok r =>
      if !r.1 then Except.error Error.MEMORY_BACKEND_NOT_FOUND
      else Except.ok (some (MemoryBackend.posix_shm_mmap r.2.1), r.2.2)
  | MemoryBackendType.kCudaShmMmap =>
    if HERMES_ENABLE_CUDA then
      shm_deserialize_external MemoryBackendType.kCudaShmMmap
        (ext MemoryBackendType.kCudaShmMmap url) os
    else Except.ok (none, os)
  | MemoryBackendType.kCudaMalloc =>
    if HERMES_ENABLE_CUDA then
      shm_deserialize_external MemoryBackendType.kCudaMalloc
        (ext MemoryBackendType.kCudaMalloc url) os
    else Except.ok (none, os)
  | MemoryBackendType.kPosixMmap =>
    shm_deserialize_external MemoryBackendType.kPosixMmap
      (ext MemoryBackendType.kPosixMmap url) os
  | MemoryBackendType.kArrayBackend =>
    shm_deserialize_external MemoryBackendType.kArrayBackend
      (ext MemoryBackendType.kArrayBackend url) os
  | MemoryBackendType.kMallocBackend => Except.ok (none, os)

end MemoryBackendFactory

/-! ## ShmSerializer (shm_serialize.h) -/

/-- Modelled from the spec: an argument as `ShmSerializer` sees it (`std::is_pod`
and `IS_SHM_ARCHIVEABLE` are not part of the sources at hand): plain old data
with the bytes of its object representation (`sizeof(arg)` of them), a
shared-memory-archivable value with the offset of the `OffsetPointer` that its
`ToOffsetPointer()` returns, or a value of neither kind. -/
inductive Arg where
  | pod (bytes : List Nat)
  | archive (off : Nat)
  | incompatible
  deriving DecidableEq, Repr

/-- The type argument of `shm_deserialize<T>`: plain old data of `size` bytes, an
archivable type, or a type of neither kind. -/
inductive ArgT where
  | pod (size : Nat)
  | archive
  | incompatible
  deriving DecidableEq, Repr

/-- The type of an argument. -/
def Arg.type : Arg → ArgT
  | Arg.pod bytes => ArgT.pod bytes.length
  | Arg.archive _ => ArgT.archive
  | Arg.incompatible => ArgT.incompatible

/-- The value of `sizeof` for a plain-old-data type; it is used only where
`is_pod` holds. -/
def ArgT.sizeof : ArgT → Nat
  | ArgT.pod size => size
  | _ => 0

/-- The type `decltype(arg)` names: for a variable declared `T arg;` (line 68)
the type `T` itself, for a lambda parameter declared `auto &&arg` (lines 21 and
43) a reference to the type of the argument. -/
inductive DeclType where
  | value (T : ArgT)
  | reference (T : ArgT)
  deriving DecidableEq, Repr

/-- Modelled from the spec: `std::is_pod<D>()` of the standard library. Plain old
data is a scalar type, a class of a certain kind or an array of such; a reference
type is none of these, so the answer for a reference is `false` whatever it
refers to. -/
def is_pod : DeclType → Bool
  | DeclType.value (ArgT.pod _) => true
  | DeclType.value _ => false
  | DeclType.reference _ => false

/-- Modelled from the spec: the macro `IS_SHM_ARCHIVEABLE(D)`, which is not part
of the sources at hand. It holds of an archivable type and of no other type;
what it answers for a reference to an archivable type depends on its definition
and is left open as `archiveable_ref`. -/
def IS_SHM_ARCHIVEABLE (archiveable_ref : Bool) : DeclType → Bool
  | DeclType.value ArgT.archive => true
  | DeclType.value _ => false
  | DeclType.reference ArgT.archive => archiveable_ref
  | DeclType.reference _ => false

/-- The bytes `memcpy(.., &arg, sizeof(arg))` reads from a plain-old-data
argument: its object representation. -/
def Arg.object_bytes : Arg → List Nat
  | Arg.pod bytes => bytes
  | _ => []

/-- The offset of the `OffsetPointer` that `arg.ToOffsetPointer()` returns for an
archivable argument. -/
def Arg.ToOffsetPointer : Arg → Nat
  | Arg.archive off => off
  | _ => 0

/-- Modelled from the spec: `sizeof(allocator_id_t)`, an id of 64 bits. -/
def sizeof_allocator_id : Nat := 8

/-- Modelled from the spec: `sizeof(hipc::OffsetPointer)`, an offset of 64 bits. -/
def sizeof_OffsetPointer : Nat := 8

/-- The object representation of an unsigned integer of `width` bytes, least
significant byte first. -/
def le_bytes (n width : Nat) : List Nat :=
  (List.range width).map (fun i => n / 256 ^ i % 256)

/-- The unsigned integer a little-endian object representation stands for. -/
def of_le_bytes (bs : List Nat) : Nat := bs.foldr (fun b acc => b % 256 + 256 * acc) 0

/-- `memcpy(buf + off, src, n)` into a buffer, `bytes` being the `n` bytes at
`src`: the buffer afterwards, `none` when the copy leaves the buffer. -/
def memcpy_to (buf : List Nat) (off : Nat) (bytes : List Nat) : Option (List Nat) :=
  if off + bytes.length ≤ buf.length then
    some (buf.take off ++ bytes ++ buf.drop (off + bytes.length))
  else none

/-- `memcpy(dst, buf + off, n)` out of a buffer: the `n` bytes copied, `none` when
the copy leaves the buffer. -/
def memcpy_from (buf : List Nat) (off n : Nat) : Option (List Nat) :=
  if off + n ≤ buf.length then some ((buf.drop off).take n) else none

/-- The bytes an argument is encoded with, following section 4.7 of the
specification: the raw bytes of plain old data, the `OffsetPointer` of an
archivable value. -/
def Arg.encoding : Arg → List Nat
  | Arg.pod bytes => bytes
  | Arg.archive off => le_bytes off sizeof_OffsetPointer
  | Arg.incompatible => []

/-- The buffer size `shm_buf_size` is specified to return (section 4.7 of the
specification): plain old data counts with its raw size, an archivable value
with the size of an `OffsetPointer`. -/
def shm_buf_size_spec (args : List Arg) : Nat := (args.map (fun a => a.encoding.length)).sum

/-- `ShmSerializer` (shm_serialize.h lines 10-15). -/
structure ShmSerializer where
  off_ : Nat
  deriving DecidableEq, Repr

namespace ShmSerializer

/-- The constructor `ShmSerializer()` (line 15). -/
def construct : ShmSerializer := ⟨0⟩

/-- The lambda of `shm_buf_size` (lines 21-30) applied to one argument, a
parameter declared `auto &&arg`, so that `decltype(arg)` is a reference type.
`captured` is the variable `size` of `shm_buf_size` (line 20), captured by
reference; line 22 declares a variable `size` of the lambda's own, and the
additions of lines 24 and 26 go to that one. The result is the captured `size`
after the call. -/
def shm_buf_size_lambda (archiveable_ref : Bool) (captured : Nat) (arg : Arg) :
    Except Error Nat :=
  let size := 0
  if is_pod (DeclType.reference arg.type) then
    let _size := size + arg.type.sizeof
    Except.ok captured
  else if IS_SHM_ARCHIVEABLE archiveable_ref (DeclType.reference arg.type) then
    let _size := size + sizeof_OffsetPointer
    Except.ok captured
  else Except.error Error.IPC_ARGS_NOT_SHM_COMPATIBLE

/-- `ForwardIterateArgpack::Apply(make_argpack(args...), lambda)` of line 31: the
lambda runs on each argument in order. -/
def shm_buf_size_apply (archiveable_ref : Bool) (size : Nat) : List Arg → Except Error Nat
  | [] => Except.ok size
  | arg :: args =>
    match shm_buf_size_lambda archiveable_ref size arg with
    | Except.error e => Except.error e
    | Except.ok size1 => shm_buf_size_apply archiveable_ref size1 args

/-- `shm_buf_size(args...)` (lines 18-33). -/
def shm_buf_size (archiveable_ref : Bool) (args : List Arg) : Except Error Nat :=
  let size := 0
  shm_buf_size_apply archiveable_ref size args

/-- The lambda of `shm_serialize` (lines 43-52) applied to one argument, again a
parameter declared `auto &&arg`: the buffer and the serializer afterwards.
`off_` is read and never written. A `memcpy` that leaves the buffer is
undefined behaviour. -/
def shm_serialize_lambda (archiveable_ref : Bool) (s : ShmSerializer) (buf : List Nat)
    (arg : Arg) : Except Error (List Nat × ShmSerializer) :=
  if is_pod (DeclType.reference arg.type) then
    match memcpy_to buf s.off_ arg.object_bytes with
    | none => Except.error Error.undefined_behaviour
    | some buf1 => Except.ok (buf1, s)
  else if IS_SHM_ARCHIVEABLE archiveable_ref (DeclType.reference arg.type) then
    let p := le_bytes arg.ToOffsetPointer sizeof_OffsetPointer
    match memcpy_to buf s.off_ p with
    | none => Except.error Error.undefined_behaviour
    | some buf1 => Except.ok (buf1, s)
  else Except.error Error.IPC_ARGS_NOT_SHM_COMPATIBLE

/-- `ForwardIterateArgpack::Apply(make_argpack(args...), lambda)` of line 53. -/
def shm_serialize_apply (archiveable_ref : Bool) (s : ShmSerializer) (buf : List Nat) :
    List Arg → Except Error (List Nat × ShmSerializer)
  | [] => Except.ok (buf, s)
  | arg :: args =>
    match shm_serialize_lambda archiveable_ref s buf arg with
    | Except.error e => Except.error e
    | Except.ok r => shm_serialize_apply archiveable_ref r.2 r.1 args

/-- `shm_serialize(alloc, args...)` (lines 36-55): the buffer returned and the
serializer afterwards. `alloc` is the id of the allocator, which
`AllocatePtr` stores in `p.alloc_id_`; the block it hands out has `buf_size`
bytes. -/
def shm_serialize (archiveable_ref : Bool) (s : ShmSerializer) (alloc : Nat)
    (args : List Arg) : Except Error (List Nat × ShmSerializer) :=
  match shm_buf_size archiveable_ref args with
  | Except.error e => Except.error e
  | Except.ok n =>
    let buf_size := sizeof_allocator_id + n
    let buf := List.replicate buf_size 0
    match memcpy_to buf 0 (le_bytes alloc sizeof_allocator_id) with
    | none => Except.error Error.undefined_behaviour
    | some buf1 =>
      let s1 : ShmSerializer := { s with off_ := sizeof_allocator_id }
      shm_serialize_apply archiveable_ref s1 buf1 args

/-- `shm_deserialize(buf)` (lines 58-63): the id of the allocator returned and the
serializer afterwards. -/
def shm_deserialize (s : ShmSerializer) (buf : List Nat) : Except Error (Nat × ShmSerializer) :=
  match memcpy_from buf s.off_ sizeof_allocator_id with
  | none => Except.error Error.undefined_behaviour
  | some bytes => Except.ok (of_le_bytes bytes, { s with off_ := s.off_ + sizeof_allocator_id })

/-- `shm_deserialize<T>(alloc, buf)` (lines 66-81): the argument returned and the
serializer afterwards. An archivable value is rebuilt by its own
`shm_deserialize(alloc, p)` and refers to the `OffsetPointer` read. -/
def shm_deserialize_arg (archiveable_ref : Bool) (T : ArgT) (s : ShmSerializer) (_alloc : Nat)
    (buf : List Nat) : Except Error (Arg × ShmSerializer) :=
  if is_pod (DeclType.value T) then
    match memcpy_from buf s.off_ T.sizeof with
    | none => Except.error Error.undefined_behaviour
    | some bytes => Except.ok (Arg.pod bytes, { s with off_ := s.off_ + T.sizeof })
  else if IS_SHM_ARCHIVEABLE archiveable_ref (DeclType.value T) then
    match memcpy_from buf s.off_ sizeof_OffsetPointer with
    | none => Except.error Error.undefined_behaviour
    | some bytes =>
      Except.ok (Arg.archive (of_le_bytes bytes), { s with off_ := s.off_ + sizeof_OffsetPointer })
  else Except.error Error.IPC_ARGS_NOT_SHM_COMPATIBLE

/-- A run of `shm_deserialize<T_i>(alloc, buf)`, one call per type, on one
serializer. -/
def shm_deserialize_args (archiveable_ref : Bool) (s : ShmSerializer) (alloc : Nat)
    (buf : List Nat) : List ArgT → Except Error (List Arg × ShmSerializer)
  | [] => Except.ok ([], s)
  | T :: Ts =>
    match shm_deserialize_arg archiveable_ref T s alloc buf with
    | Except.error e => Except.error e
    | Except.ok r =>
      match shm_deserialize_args archiveable_ref r.2 alloc buf Ts with
      | Except.error e => Except.error e
      | Except.ok rs => Except.ok (r.1 :: rs.1, rs.2)

/-- The round trip: `shm_serialize(alloc, args...)` on a fresh serializer, then, on
another fresh serializer, `shm_deserialize(buf)` and `shm_deserialize<T_i>(alloc,
buf)` for each argument type in order. The result is the allocator and the
arguments read back. -/
def round_trip (archiveable_ref : Bool) (alloc : Nat) (args : List Arg) :
    Except Error (Nat × List Arg) :=
  match shm_serialize archiveable_ref construct alloc args with
  | Except.error e => Except.error e
  | Except.ok w =>
    match construct.shm_deserialize w.1 with
    | Except.error e => Except.error e
    | Except.ok a =>
      match shm_deserialize_args archiveable_ref a.2 a.1 w.1 (args.map Arg.type) with
      | Except.error e => Except.error e
      | Except.ok r => Except.ok (a.1, r.1)

end ShmSerializer

/-! ## Copying a queue -/

namespace mpsc_queue

variable {T : Type}

/-- The copy constructor `mpsc_queue(AllocT *alloc, const mpsc_queue &other)`
(lines 79-86). `self` is the storage the new queue is built in; no statement of
the constructor builds a vector in its archive. -/
def copy_construct (self : mpsc_queue T) (alloc : Nat) (other : mpsc_queue T)
    (mm : MemoryManager) (capacity : Nat) : Except Error (mpsc_queue T × MemoryManager) :=
  shm_strong_copy_op false (SetNull (init_shm_container self alloc)) other mm capacity

/-- The copy assignment operator (lines 88-96) on a queue set up by `shm_init`.
`this_is_other` is the outcome of the test `this != &other` of line 90 not
holding: the two references are to one object, and nothing is done. -/
def copy_assign (this_is_other : Bool) (self other : mpsc_queue T) (mm : MemoryManager)
    (capacity : Nat) : Except Error (mpsc_queue T × MemoryManager) :=
  if this_is_other then Except.ok (self, mm)
  else
    let s := shm_destroy (self, mm)
    shm_strong_copy_op true s.1 other s.2 capacity

end mpsc_queue

/-- The handle and the system after `shm_init(3, 8192, "/hermes")` on a newly
constructed handle, in a system with pages of 4096 bytes and nothing else in
it. -/
def demo_backend : PosixShmMmap × OS :=
  ({ header_ := some 0, data_ := some 1, data_size_ := 8192, flags_ := ⟨3⟩, fd_ := 0,
     url_ := "/hermes" },
   { page_size_ := 4096, names := [("/hermes", 0)],
     objects := [⟨12288, ⟨MemoryBackendType.kPosixShmMmap, ⟨3⟩, 8192⟩⟩],
     fds := [some 0], maps := [some ⟨0, 0, 4096⟩, some ⟨0, 4096, 8192⟩] })

/-! # Verification -/

namespace mpsc_queue

variable {T : Type}

/-! ## Slots of the ring -/

theorem size_set_slot (q : mpsc_queue T) (i : Nat) (e : pair bitfield32_t T) :
    (q.set_slot i e).queue_.size = q.queue_.size := by
  simp [set_slot, vector.size]

theorem slot_set_slot_eq (q : mpsc_queue T) (i : Nat) (e : pair bitfield32_t T)
    (hi : i < q.queue_.size) : (q.set_slot i e).slot i = some e := by
  unfold vector.size at hi
  simp [set_slot, slot, hi]

theorem slot_set_slot_ne (q : mpsc_queue T) (i j : Nat) (e : pair bitfield32_t T)
    (h : i ≠ j) : (q.set_slot i e).slot j = q.slot j := by
  simp [set_slot, slot, List.getElem?_set_ne h]

theorem slot_lt_size (q : mpsc_queue T) (i : Nat) (e : pair bitfield32_t T)
    (h : q.slot i = some e) : i < q.queue_.size := by
  unfold slot at h
  unfold vector.size
  by_contra hc
  rw [List.getElem?_eq_none (by omega)] at h
  cases h

theorem slot_of_lt_size (q : mpsc_queue T) (i : Nat) (h : i < q.queue_.size) :
    ∃ e, q.slot i = some e := by
  unfold vector.size at h
  exact ⟨q.queue_.elems[i], by simp [slot, h]⟩

theorem peek_head_zero (q : mpsc_queue T) (hr : q.head_ < U64) : q.peek_head 0 = q.head_ := by
  unfold peek_head
  have h0 : (0 : Int) ≤ (q.head_ : Int) := Int.ofNat_nonneg _
  have h1 : ((q.head_ : Int) + 0) % (U64 : Int) = (q.head_ : Int) := by
    rw [add_zero]
    apply Int.emod_eq_of_lt h0
    exact_mod_cast hr
  rw [h1]; simp

theorem occupancy_eq (t h : Nat) (hle : h ≤ t) (ht : t - h + 1 < U64) :
    occupancy t h = t - h + 1 := by
  unfold occupancy
  have : t + U64 - h + 1 = (t - h + 1) + U64 := by omega
  rw [this, Nat.add_mod_right, Nat.mod_eq_of_lt ht]

/-! ## One call of `pop` and of `emplace` -/

/-- A `pop(val)` on a queue whose head slot is published. -/
theorem pop_success (mv : T → T) (q : mpsc_queue T) (val : T) (e : pair bitfield32_t T)
    (hr : q.tail_ < U64) (h : q.head_ < q.tail_)
    (hs : q.slot (q.head_ % q.queue_.size) = some e) (hf : e.GetFirst.Any 1 = true) :
    ∃ q', pop mv q val = some (⟨q.head_⟩, e.GetSecond, q') ∧
      q'.head_ = q.head_ + 1 ∧ q'.tail_ = q.tail_ ∧
      (∃ e', q'.slot (q.head_ % q.queue_.size) = some e' ∧ e'.GetFirst.Any 1 = false) ∧
      (∀ j, j ≠ q.head_ % q.queue_.size → q'.slot j = q.slot j) ∧
      q'.queue_.size = q.queue_.size ∧ q'.queue_.vec_ptr_ = q.queue_.vec_ptr_ := by
  have hn : ¬ q.head_ ≥ q.tail_ := by omega
  have hlt := slot_lt_size q _ e hs
  have hm : (q.head_ + 1) % U64 = q.head_ + 1 := Nat.mod_eq_of_lt (by omega)
  refine ⟨(q.set_slot (q.head_ % q.queue_.size) ⟨⟨0⟩, mv e.second_⟩).fetch_add_head,
    by simp only [pop, hn, hs, hf, if_false, if_true]; rfl, ?_, ?_, ?_, ?_, ?_, ?_⟩
  · simp [fetch_add_head, set_slot, hm]
  · simp [fetch_add_head, set_slot]
  · refine ⟨⟨⟨0⟩, mv e.second_⟩, ?_, ?_⟩
    · show (q.set_slot _ _).slot _ = _
      exact slot_set_slot_eq _ _ _ hlt
    · simp [pair.GetFirst, bitfield32_t.Any]
  · intro j hj
    show (q.set_slot _ _).slot _ = _
    exact slot_set_slot_ne _ _ _ _ (Ne.symm hj)
  · show (q.set_slot _ _).queue_.size = _
    exact size_set_slot _ _ _
  · simp [fetch_add_head, set_slot]

/-- One `emplace(v)` on a queue with room: the slot written is the one the
narrowed index names. -/
theorem emplace_spec (fuel : Nat) (q : mpsc_queue T) (v : T)
    (h64 : q.queue_.size < U64)
    (hle : q.head_ ≤ q.tail_) (hsp : q.tail_ - q.head_ < q.queue_.size) :
    ∃ q', emplace fuel q v = some (⟨q.tail_⟩, q') ∧
      q'.tail_ = (q.tail_ + 1) % U64 ∧ q'.head_ = q.head_ ∧
      q'.slot (q.emplace_idx q.tail_) = some ⟨⟨1⟩, v⟩ ∧
      (∀ j, j ≠ q.emplace_idx q.tail_ → q'.slot j = q.slot j) ∧
      q'.queue_.size = q.queue_.size ∧ q'.queue_.vec_ptr_ = q.queue_.vec_ptr_ := by
  have hocc : occupancy q.tail_ q.head_ = q.tail_ - q.head_ + 1 :=
    occupancy_eq _ _ hle (by omega)
  have hmod : q.emplace_idx q.tail_ < q.queue_.size :=
    lt_of_le_of_lt (Nat.mod_le _ _) (Nat.mod_lt _ (by omega))
  have hidx : q.fetch_add_tail.emplace_idx q.tail_ = q.emplace_idx q.tail_ := rfl
  have hidx2 : (q.fetch_add_tail.emplace_replace q.tail_ v).emplace_idx q.tail_
      = q.emplace_idx q.tail_ := by
    simp only [emplace_idx, emplace_replace, size_set_slot]
    rfl
  have hsz : q.fetch_add_tail.queue_.size = q.queue_.size := rfl
  have hnot : ¬ (occupancy q.tail_ q.head_ > q.fetch_add_tail.queue_.size ∧
      emplace_spin q.fetch_add_tail q.tail_ fuel = false) := by
    rw [hocc, hsz]; omega
  have hpub : (q.fetch_add_tail.emplace_replace q.tail_ v).emplace_publish q.tail_ =
      some ((q.fetch_add_tail.emplace_replace q.tail_ v).set_slot (q.emplace_idx q.tail_)
        ⟨⟨1⟩, v⟩) := by
    unfold emplace_publish
    rw [hidx2]
    have : (q.fetch_add_tail.emplace_replace q.tail_ v).slot (q.emplace_idx q.tail_)
        = some ⟨⟨0⟩, v⟩ := by
      unfold emplace_replace
      rw [hidx]
      exact slot_set_slot_eq _ _ _ (by rw [hsz]; exact hmod)
    rw [this]
    simp [bitfield32_t.SetBits]
  refine ⟨(q.fetch_add_tail.emplace_replace q.tail_ v).set_slot (q.emplace_idx q.tail_)
        ⟨⟨1⟩, v⟩, by simp only [emplace, hnot, if_false, hpub], ?_, ?_, ?_, ?_, ?_, ?_⟩
  · simp [set_slot, emplace_replace, fetch_add_tail]
  · simp [set_slot, emplace_replace, fetch_add_tail]
  · exact slot_set_slot_eq _ _ _ (by simp only [emplace_replace, size_set_slot, hsz]; exact hmod)
  · intro j hj
    rw [slot_set_slot_ne _ _ _ _ (Ne.symm hj)]
    unfold emplace_replace
    rw [hidx, slot_set_slot_ne _ _ _ _ (Ne.symm hj)]
    rfl
  · simp only [emplace_replace, size_set_slot, hsz]
  · simp [set_slot, emplace_replace, fetch_add_tail]

/-- An `emplace(v)` on a queue with room, when the slot index survives the
narrowing to 32 bits: the token wraps the old tail, tail advances, head stays,
slot `tail % depth` holds `v` with flag bit 0 set and no other slot changes. -/
theorem emplace_success (fuel : Nat) (q : mpsc_queue T) (v : T)
    (h32 : q.tail_ % q.queue_.size < U32) (h64 : q.queue_.size < U64)
    (hle : q.head_ ≤ q.tail_) (hsp : q.tail_ - q.head_ < q.queue_.size) :
    ∃ q', emplace fuel q v = some (⟨q.tail_⟩, q') ∧
      q'.tail_ = (q.tail_ + 1) % U64 ∧ q'.head_ = q.head_ ∧
      q'.slot (q.tail_ % q.queue_.size) = some ⟨⟨1⟩, v⟩ ∧
      (∀ j, j ≠ q.tail_ % q.queue_.size → q'.slot j = q.slot j) ∧
      q'.queue_.size = q.queue_.size ∧ q'.queue_.vec_ptr_ = q.queue_.vec_ptr_ := by
  have hidx : q.emplace_idx q.tail_ = q.tail_ % q.queue_.size := Nat.mod_eq_of_lt h32
  have := emplace_spec fuel q v h64 hle hsp
  rw [hidx] at this
  exact this

/-! ## C3, C2, C6: what the consumer gets from one call -/

/-- C3: on an empty queue (head == tail) `pop(val)`, `pop()` and both `peek`
overloads at offset 0 return the null token and change nothing: the queue
(head, tail, every slot) and the caller's output argument come back as they
were. -/
theorem pop_peek_on_empty_queue (mv : T → T) (q : mpsc_queue T) (val : T) (p : SlotPtr)
    (hr : q.head_ < U64) (h : q.head_ = q.tail_) :
    pop mv q val = some (qtok_t.GetNull, val, q) ∧ pop0 q = some (qtok_t.GetNull, q) ∧
    peek q p 0 = some (qtok_t.GetNull, p, q) ∧ peek_pair q p 0 = some (qtok_t.GetNull, p, q) := by
  refine ⟨?_, ?_, ?_, ?_⟩
  · simp [pop, h]
  · simp [pop0, h]
  · simp [peek, peek_head_zero q hr, h]
  · simp [peek_pair, peek_head_zero q hr, h]

theorem pop_peek_on_empty_queue_witness :
    demo_queue_empty.head_ < U64 ∧ demo_queue_empty.head_ = demo_queue_empty.tail_ ∧
    (pop id demo_queue_empty 5 = some (qtok_t.GetNull, 5, demo_queue_empty) ∧
     pop0 demo_queue_empty = some (qtok_t.GetNull, demo_queue_empty) ∧
     peek demo_queue_empty (SlotPtr.other 9) 0
       = some (qtok_t.GetNull, SlotPtr.other 9, demo_queue_empty) ∧
     peek_pair demo_queue_empty (SlotPtr.other 9) 0
       = some (qtok_t.GetNull, SlotPtr.other 9, demo_queue_empty)) :=
  ⟨by decide, by decide,
   pop_peek_on_empty_queue id demo_queue_empty 5 (SlotPtr.other 9) (by decide) (by decide)⟩

/-- C2: when head < tail but the slot at head % depth does not have flag bit 0
set (the index is reserved, the value not yet published), `pop(val)`, `pop()`
and both `peek` overloads return the null token, leave the caller's output
argument as it was and leave head, tail and every slot unchanged: the slot's
value is not handed to the consumer. -/
theorem pop_peek_on_unpublished_slot (mv : T → T) (q : mpsc_queue T) (val : T) (p : SlotPtr)
    (e : pair bitfield32_t T)
    (hr : q.head_ < U64) (h : q.head_ < q.tail_)
    (hs : q.slot (q.head_ % q.queue_.size) = some e) (hf : e.GetFirst.Any 1 = false) :
    pop mv q val = some (qtok_t.GetNull, val, q) ∧ pop0 q = some (qtok_t.GetNull, q) ∧
    peek q p 0 = some (qtok_t.GetNull, p, q) ∧ peek_pair q p 0 = some (qtok_t.GetNull, p, q) := by
  have hn : ¬ q.head_ ≥ q.tail_ := by omega
  refine ⟨?_, ?_, ?_, ?_⟩
  · simp [pop, hn, hs, hf]
  · simp [pop0, hn, hs, hf]
  · simp [peek, peek_head_zero q hr, hn, hs, hf]
  · simp [peek_pair, peek_head_zero q hr, hn, hs, hf]

theorem pop_peek_on_unpublished_slot_witness :
    demo_queue_unpublished.head_ < U64 ∧
    demo_queue_unpublished.head_ < demo_queue_unpublished.tail_ ∧
    demo_queue_unpublished.slot (demo_queue_unpublished.head_ % demo_queue_unpublished.queue_.size)
      = some ⟨⟨0⟩, 0⟩ ∧
    (⟨⟨0⟩, 0⟩ : pair bitfield32_t Nat).GetFirst.Any 1 = false ∧
    (pop id demo_queue_unpublished 5 = some (qtok_t.GetNull, 5, demo_queue_unpublished) ∧
     pop0 demo_queue_unpublished = some (qtok_t.GetNull, demo_queue_unpublished) ∧
     peek demo_queue_unpublished (SlotPtr.other 9) 0
       = some (qtok_t.GetNull, SlotPtr.other 9, demo_queue_unpublished) ∧
     peek_pair demo_queue_unpublished (SlotPtr.other 9) 0
       = some (qtok_t.GetNull, SlotPtr.other 9, demo_queue_unpublished)) :=
  ⟨by decide, by decide, by decide, by decide,
   pop_peek_on_unpublished_slot id demo_queue_unpublished 5 (SlotPtr.other 9) ⟨⟨0⟩, 0⟩
     (by decide) (by decide) (by decide) (by decide)⟩

/-- C6: when head h < tail and slot h % depth has flag bit 0 set, `pop(val)`
returns the token wrapping h, assigns the slot's value to `val`, clears the
slot's flag, sets head to h + 1 and leaves tail and every other slot
unchanged. -/
theorem pop_published_slot (mv : T → T) (q : mpsc_queue T) (val : T) (e : pair bitfield32_t T)
    (hr : q.tail_ < U64) (h : q.head_ < q.tail_)
    (hs : q.slot (q.head_ % q.queue_.size) = some e) (hf : e.GetFirst.Any 1 = true) :
    ∃ q', pop mv q val = some (⟨q.head_⟩, e.GetSecond, q') ∧
      q'.head_ = q.head_ + 1 ∧ q'.tail_ = q.tail_ ∧
      (∃ e', q'.slot (q.head_ % q.queue_.size) = some e' ∧ e'.GetFirst.Any 1 = false) ∧
      (∀ j, j ≠ q.head_ % q.queue_.size → q'.slot j = q.slot j) ∧
      q'.queue_.size = q.queue_.size ∧ q'.queue_.vec_ptr_ = q.queue_.vec_ptr_ :=
  pop_success mv q val e hr h hs hf

theorem pop_published_slot_witness :
    demo_queue.tail_ < U64 ∧ demo_queue.head_ < demo_queue.tail_ ∧
    demo_queue.slot (demo_queue.head_ % demo_queue.queue_.size) = some ⟨⟨1⟩, 11⟩ ∧
    (⟨⟨1⟩, 11⟩ : pair bitfield32_t Nat).GetFirst.Any 1 = true ∧
    (∃ q', pop id demo_queue 5
        = some (⟨demo_queue.head_⟩, (⟨⟨1⟩, 11⟩ : pair bitfield32_t Nat).GetSecond, q') ∧
      q'.head_ = demo_queue.head_ + 1 ∧ q'.tail_ = demo_queue.tail_ ∧
      (∃ e', q'.slot (demo_queue.head_ % demo_queue.queue_.size) = some e' ∧
        e'.GetFirst.Any 1 = false) ∧
      (∀ j, j ≠ demo_queue.head_ % demo_queue.queue_.size → q'.slot j = demo_queue.slot j) ∧
      q'.queue_.size = demo_queue.queue_.size ∧
      q'.queue_.vec_ptr_ = demo_queue.queue_.vec_ptr_) :=
  ⟨by decide, by decide, by decide, by decide,
   pop_published_slot id demo_queue 5 ⟨⟨1⟩, 11⟩ (by decide) (by decide) (by decide) (by decide)⟩

/-! ## C5: `emplace` and the narrowed slot index -/

theorem wide_queue_size : wide_queue.queue_.size = 2 ^ 32 + 1 := by
  show (List.replicate (2 ^ 32) _ ++ [_]).length = _
  rw [List.length_append, List.length_replicate, List.length_singleton]

theorem emplace_idx_eq (q : mpsc_queue T) (t : Nat) :
    q.emplace_idx t = t % q.queue_.size % U32 := rfl

theorem narrowed_index : (2 ^ 32 % (2 ^ 32 + 1)) % U32 = 0 := by norm_num [U32]

theorem wide_queue_tail : wide_queue.tail_ = 2 ^ 32 := rfl

theorem wide_queue_head : wide_queue.head_ = 0 := rfl

theorem wide_queue_idx : wide_queue.emplace_idx wide_queue.tail_ = 0 := by
  rw [emplace_idx_eq, wide_queue_size, wide_queue_tail]
  exact narrowed_index

theorem wide_queue_last : wide_queue.slot (2 ^ 32) = some ⟨⟨0⟩, 0⟩ := by
  show (List.replicate (2 ^ 32) _ ++ [_])[2 ^ 32]? = _
  rw [List.getElem?_append_right (by rw [List.length_replicate]), List.length_replicate]
  rfl

theorem wide_queue_first : wide_queue.slot 0 = some ⟨⟨1⟩, 0⟩ := by
  show (List.replicate (2 ^ 32) _ ++ [_])[0]? = _
  rw [List.getElem?_append_left (by rw [List.length_replicate]; decide)]
  exact List.getElem?_replicate_of_lt (by decide)

/-- C5 fails on the code for a depth above 2 ^ 32: on `wide_queue` (depth
2 ^ 32 + 1, head 0, tail t = 2 ^ 32, so t - h < d and t % d = 2 ^ 32) `emplace(7)`
returns the token wrapping t but, the index being narrowed to `uint32_t`,
writes slot 0, which holds a published value that was never popped, and leaves
slot t % d as it was. -/
theorem emplace_wide_queue :
    wide_queue.tail_ - wide_queue.head_ < wide_queue.queue_.size ∧
    wide_queue.tail_ % wide_queue.queue_.size = 2 ^ 32 ∧
    wide_queue.slot 0 = some ⟨⟨1⟩, 0⟩ ∧
    (emplace 0 wide_queue 7).map (fun r => (r.1, r.2.slot (2 ^ 32), r.2.slot 0))
      = some (⟨2 ^ 32⟩, some ⟨⟨0⟩, 0⟩, some ⟨⟨1⟩, 7⟩) := by
  have hroom : wide_queue.tail_ - wide_queue.head_ < wide_queue.queue_.size := by
    rw [wide_queue_size, wide_queue_tail, wide_queue_head]; norm_num
  obtain ⟨q', he, -, -, hs, ho, -, -⟩ := emplace_spec 0 wide_queue 7
    (by rw [wide_queue_size]; norm_num [U64]) (by rw [wide_queue_tail, wide_queue_head]; norm_num)
    hroom
  rw [wide_queue_idx] at hs ho
  refine ⟨hroom, by rw [wide_queue_size, wide_queue_tail]; norm_num, wide_queue_first, ?_⟩
  rw [he, Option.map_some', hs, ho (2 ^ 32) (by norm_num), wide_queue_last, wide_queue_tail]

/-! ## C1: first in, first out -/

theorem filled_emplace (fuel : Nat) (q : mpsc_queue T) (h : Nat) (p : List T) (v : T)
    (hf : Filled q h p) (hroom : h + p.length < q.queue_.size)
    (h32 : h + p.length < U32) (h64 : q.queue_.size < U64) :
    ∃ q', emplace fuel q v = some (⟨h + p.length⟩, q') ∧ Filled q' h (p ++ [v]) ∧
      q'.queue_.size = q.queue_.size := by
  obtain ⟨hh, ht, -, hsl⟩ := hf
  obtain ⟨q', he, ht', hh', hs, ho, hsz, -⟩ := emplace_spec fuel q v h64 (by omega) (by omega)
  have hidx : q.emplace_idx q.tail_ = h + p.length := by
    unfold emplace_idx
    rw [ht, Nat.mod_eq_of_lt hroom, Nat.mod_eq_of_lt h32]
  rw [hidx] at hs ho
  refine ⟨q', by rw [he, ht], ⟨by rw [hh', hh], ?_, ?_, ?_⟩, hsz⟩
  · rw [ht', ht, Nat.mod_eq_of_lt (by omega)]; simp; omega
  · rw [hsz]; simp; omega
  · intro i x hx
    by_cases hi : i < p.length
    · rw [List.getElem?_append_left hi] at hx
      rw [ho _ (by omega)]
      exact hsl i x hx
    · have hlen := (List.getElem?_eq_some.mp hx).1
      simp at hlen
      have : i = p.length := by omega
      subst this
      simp at hx
      subst hx
      exact hs

theorem filled_emplace_all (fuel : Nat) (vs : List T) :
    ∀ (q : mpsc_queue T) (h : Nat) (p : List T), Filled q h p →
      h + p.length + vs.length ≤ q.queue_.size → h + p.length + vs.length ≤ U32 →
      q.queue_.size < U64 →
      ∃ q', emplace_all fuel q vs
          = some ((List.range' (h + p.length) vs.length).map qtok_t.mk, q') ∧
        Filled q' h (p ++ vs) ∧ q'.queue_.size = q.queue_.size := by
  induction vs with
  | nil =>
    intro q h p hf _ _ _
    exact ⟨q, by simp [emplace_all], by simpa using hf, rfl⟩
  | cons v vs ih =>
    intro q h p hf hroom h32 h64
    simp only [List.length_cons] at hroom h32
    obtain ⟨q1, he, hf1, hsz1⟩ := filled_emplace fuel q h p v hf (by omega) (by omega) h64
    obtain ⟨q2, he2, hf2, hsz2⟩ := ih q1 h (p ++ [v]) hf1
      (by rw [hsz1]; simp; omega) (by simp; omega) (by rw [hsz1]; exact h64)
    refine ⟨q2, ?_, by simpa using hf2, by rw [hsz2, hsz1]⟩
    simp only [emplace_all, he, he2]
    simp only [List.length_cons, List.range'_succ, List.map_cons, List.length_append,
      List.length_nil, Nat.zero_add, Nat.add_assoc]

theorem filled_pop (mv : T → T) (q : mpsc_queue T) (val : T) (h : Nat) (x : T) (p : List T)
    (hf : Filled q h (x :: p)) (h64 : q.queue_.size < U64) :
    ∃ q', pop mv q val = some (⟨h⟩, x, q') ∧ Filled q' (h + 1) p ∧
      q'.queue_.size = q.queue_.size := by
  obtain ⟨hh, ht, hle, hsl⟩ := hf
  simp only [List.length_cons] at ht hle
  have hmod : q.head_ % q.queue_.size = h := by rw [hh]; exact Nat.mod_eq_of_lt (by omega)
  have hs0 : q.slot (q.head_ % q.queue_.size) = some ⟨⟨1⟩, x⟩ := by
    rw [hmod]; simpa using hsl 0 x (by simp)
  obtain ⟨q', hp, hh', ht', -, ho, hsz, -⟩ := pop_success mv q val ⟨⟨1⟩, x⟩ (by omega) (by omega)
    hs0 (by simp [pair.GetFirst, bitfield32_t.Any])
  rw [hmod] at ho
  refine ⟨q', by rw [hp, hh]; rfl, ⟨by rw [hh', hh], by rw [ht', ht]; omega, by rw [hsz]; omega, ?_⟩,
    hsz⟩
  intro i y hy
  rw [ho _ (by omega)]
  have := hsl (i + 1) y (by simpa using hy)
  rw [← this]; congr 1; omega

theorem filled_pop_n (mv : T → T) (p : List T) :
    ∀ (q : mpsc_queue T) (val : T) (h : Nat), Filled q h p → q.queue_.size < U64 →
      ∃ q', pop_n mv q val p.length
          = some ((List.range' h p.length).zipWith (fun i x => (qtok_t.mk i, x)) p, q') ∧
        Filled q' (h + p.length) [] := by
  induction p with
  | nil =>
    intro q val h hf _
    exact ⟨q, by simp [pop_n], by simpa using hf⟩
  | cons x p ih =>
    intro q val h hf h64
    obtain ⟨q1, hp, hf1, hsz1⟩ := filled_pop mv q val h x p hf h64
    obtain ⟨q2, hp2, hf2⟩ := ih q1 x (h + 1) hf1 (by rw [hsz1]; exact h64)
    refine ⟨q2, ?_, by simpa [Nat.add_assoc, Nat.add_comm 1] using hf2⟩
    simp only [List.length_cons, pop_n, hp, hp2]
    simp [List.range'_succ]

theorem filled_shm_init (alloc depth : Nat) (dflt : T) (mm : MemoryManager) :
    Filled (shm_init alloc depth dflt mm).1 0 [] ∧
    (shm_init alloc depth dflt mm).1.queue_.size = depth := by
  refine ⟨⟨rfl, rfl, by simp, ?_⟩, ?_⟩
  · intro i x hx; simp at hx
  · simp [shm_init, SetNull, vector.shm_init, vector.size]

/-- First-in first-out on a fresh queue, as long as the slot indices fit 32
bits. -/
theorem fifo_of_fresh_queue (fuel alloc d : Nat) (dflt val0 : T) (mm : MemoryManager)
    (mv : T → T) (vs : List T)
    (hN : vs.length ≤ d) (h32 : vs.length ≤ U32) (h64 : d < U64) :
    ∃ q1 q2,
      emplace_all fuel (shm_init alloc d dflt mm).1 vs
        = some ((List.range' 0 vs.length).map qtok_t.mk, q1) ∧
      pop_n mv q1 val0 vs.length
        = some ((List.range' 0 vs.length).zipWith (fun i x => (qtok_t.mk i, x)) vs, q2) ∧
      ((List.range' 0 vs.length).zipWith (fun i x => (qtok_t.mk i, x)) vs).map Prod.snd = vs ∧
      (∀ r ∈ (List.range' 0 vs.length).zipWith (fun i x => (qtok_t.mk i, x)) vs,
        r.1.IsNull = false) ∧
      q2.head_ = vs.length ∧ q2.tail_ = vs.length := by
  obtain ⟨hf0, hsz0⟩ := filled_shm_init alloc d dflt mm
  obtain ⟨q1, he, hf1, hsz1⟩ := filled_emplace_all fuel vs _ 0 [] hf0
    (by rw [hsz0]; simpa using hN) (by simpa using h32) (by rw [hsz0]; exact h64)
  simp only [List.nil_append, List.length_nil, Nat.add_zero] at he hf1
  obtain ⟨q2, hp, hf2⟩ := filled_pop_n mv vs q1 val0 0 hf1 (by rw [hsz1, hsz0]; exact h64)
  refine ⟨q1, q2, he, hp, ?_, ?_, ?_, ?_⟩
  · apply List.ext_getElem?
    intro i
    simp only [List.getElem?_map, List.getElem?_zipWith]
    by_cases hi : i < vs.length
    · simp [List.getElem?_range', hi]
    · simp [List.getElem?_eq_none (Nat.le_of_not_lt hi)]
  · intro r hr
    obtain ⟨i, hi⟩ := List.mem_iff_getElem?.mp hr
    simp only [List.getElem?_zipWith] at hi
    by_cases hlt : i < vs.length
    · simp [List.getElem?_range', hlt] at hi
      subst hi
      simp [qtok_t.IsNull, qtok_t.GetNull]
      omega
    · simp [List.getElem?_eq_none (Nat.le_of_not_lt hlt)] at hi
  · simpa using hf2.1
  · simpa using hf2.2.1

theorem emplace_all_append (fuel : Nat) (a b : List T) :
    ∀ (q qa qb : mpsc_queue T) (ta tb : List qtok_t),
      emplace_all fuel q a = some (ta, qa) → emplace_all fuel qa b = some (tb, qb) →
      emplace_all fuel q (a ++ b) = some (ta ++ tb, qb) := by
  induction a with
  | nil =>
    intro q qa qb ta tb ha hb
    simp only [emplace_all, Option.some.injEq, Prod.mk.injEq] at ha
    obtain ⟨rfl, rfl⟩ := ha
    simpa using hb
  | cons v a ih =>
    intro q qa qb ta tb ha hb
    cases hq : emplace fuel q v with
    | none => simp [emplace_all, hq] at ha
    | some r =>
      cases hr : emplace_all fuel r.2 a with
      | none => simp [emplace_all, hq, hr] at ha
      | some rs =>
        simp only [emplace_all, hq, hr, Option.some.injEq, Prod.mk.injEq] at ha
        obtain ⟨rfl, rfl⟩ := ha
        have h1 := ih r.2 rs.2 qb rs.1 tb (by rw [hr]) hb
        simp only [List.cons_append, emplace_all, hq]
        rw [show a.append b = a ++ b from rfl, h1]

/-- On a fresh queue of depth 2 ^ 32 + 1, after 2 ^ 32 + 1 values are emplaced the
first pop returns the last of them. -/
theorem first_pop_returns_last (vs : List T) (x dflt val0 : T) (mv : T → T)
    (alloc : Nat) (mm : MemoryManager) (hlen : vs.length = 2 ^ 32) :
    ((emplace_all 0 (shm_init alloc (2 ^ 32 + 1) dflt mm).1 (vs ++ [x])).bind
      (fun r => pop mv r.2 val0)).map (fun r => (r.1, r.2.1)) = some (⟨0⟩, x) := by
  obtain ⟨hf0, hsz0⟩ := filled_shm_init alloc (2 ^ 32 + 1) dflt mm
  obtain ⟨q1, he1, hf1, hsz1⟩ := filled_emplace_all 0 vs _ 0 [] hf0
    (by rw [hsz0, hlen]; norm_num) (by rw [hlen]; norm_num [U32]) (by rw [hsz0]; norm_num [U64])
  rw [hsz0] at hsz1
  obtain ⟨hh1, ht1, -, -⟩ := hf1
  simp only [List.nil_append, Nat.zero_add] at ht1
  rw [hlen] at ht1
  obtain ⟨q2, he2, ht2, hh2, hs2, -, hsz2, -⟩ := emplace_spec 0 q1 x
    (by rw [hsz1]; norm_num [U64]) (by omega) (by rw [hsz1, ht1, hh1]; norm_num)
  have hidx : q1.emplace_idx q1.tail_ = 0 := by
    rw [emplace_idx_eq, hsz1, ht1]
    exact narrowed_index
  rw [hidx] at hs2
  rw [hsz1] at hsz2
  rw [ht1] at ht2
  rw [hh1] at hh2
  have ht2' : q2.tail_ = 2 ^ 32 + 1 := by rw [ht2]; norm_num [U64]
  have hmod : q2.head_ % q2.queue_.size = 0 := by rw [hh2]; exact Nat.zero_mod _
  have hs2' : q2.slot (q2.head_ % q2.queue_.size) = some ⟨⟨1⟩, x⟩ := by
    rw [hmod]; exact hs2
  obtain ⟨q3, hp, -⟩ := pop_success mv q2 val0 ⟨⟨1⟩, x⟩ (by rw [ht2']; norm_num [U64])
    (by rw [hh2, ht2']; norm_num) hs2' (by simp [pair.GetFirst, bitfield32_t.Any])
  have he3 : emplace_all 0 q1 [x] = some ([⟨q1.tail_⟩], q2) := by
    simp only [emplace_all, he2]
  rw [emplace_all_append 0 vs [x] _ q1 q2 _ _ he1 he3]
  show Option.map (fun r => (r.1, r.2.1)) (pop mv q2 val0) = some (⟨0⟩, x)
  rw [hp, Option.map_some', hh2]
  rfl

/-- C1 fails on the code for a depth above 2 ^ 32: on a fresh queue of depth
d = 2 ^ 32 + 1, after N = d calls `emplace` of the values 0, ..., 0, 1 (the 1
last), every call returning, the first `pop(val)` returns token 0 with the
value 1, the last value emplaced, not the first. -/
theorem fifo_broken_past_32_bits :
    ((emplace_all 0 (shm_init 7 (2 ^ 32 + 1) 0 ⟨[], 0⟩).1
        (List.replicate (2 ^ 32) 0 ++ [1])).bind
      (fun r => pop id r.2 0)).map (fun r => (r.1, r.2.1)) = some (⟨0⟩, 1) :=
  first_pop_returns_last (List.replicate (2 ^ 32) 0) 1 0 0 id 7 ⟨[], 0⟩
    (List.length_replicate _ _)

end mpsc_queue

namespace mpsc_queue
variable {T : Type}

/-! ## C7: `peek` -/

theorem mod_ne_of_lt (h i j d : Nat) (hij : i < j) (hd : j - i < d) :
    (h + i) % d ≠ (h + j) % d := by
  intro heq
  have h1 : (h + j - (h + i)) % d = 0 := Nat.sub_mod_eq_zero_of_mod_eq heq.symm
  have h2 : h + j - (h + i) = j - i := by omega
  rw [h2, Nat.mod_eq_of_lt hd] at h1
  omega

theorem peek_head_nat (q : mpsc_queue T) (off : Nat) (hr : q.head_ + off < U64) :
    q.peek_head (off : Int) = q.head_ + off := by
  unfold peek_head
  have h1 : ((q.head_ : Int) + (off : Int)) % (U64 : Int) = ((q.head_ + off : Nat) : Int) := by
    rw [← Int.ofNat_add]
    apply Int.emod_eq_of_lt (Int.ofNat_nonneg _)
    exact_mod_cast hr
  rw [h1]
  exact Int.toNat_ofNat _

theorem null_token_is_null : qtok_t.GetNull.IsNull = true := by
  simp [qtok_t.IsNull]

/-- What a `pop(val)` that returned a non-null token has done. -/
theorem pop_non_null (mv : T → T) (q q' : mpsc_queue T) (val v : T) (tok : qtok_t)
    (hr : q.tail_ < U64) (hp : pop mv q val = some (tok, v, q')) (hn : tok.IsNull = false) :
    q.head_ < q.tail_ ∧ q'.head_ = q.head_ + 1 ∧ q'.tail_ = q.tail_ ∧
    q'.queue_.size = q.queue_.size ∧
    (∀ j, j ≠ q.head_ % q.queue_.size → q'.slot j = q.slot j) := by
  by_cases hge : q.head_ ≥ q.tail_
  · simp only [pop, hge, if_true, Option.some.injEq, Prod.mk.injEq] at hp
    rw [← hp.1, null_token_is_null] at hn
    cases hn
  · cases hs : q.slot (q.head_ % q.queue_.size) with
    | none => simp [pop, hge, hs] at hp
    | some e =>
      by_cases hf : e.GetFirst.Any 1 = true
      · obtain ⟨q'', hp', h1, h2, -, h4, h5, -⟩ := pop_success mv q val e hr (by omega) hs hf
        rw [hp'] at hp
        simp only [Option.some.injEq, Prod.mk.injEq] at hp
        obtain ⟨-, -, rfl⟩ := hp
        exact ⟨by omega, h1, h2, h5, h4⟩
      · have hf' : e.GetFirst.Any 1 = false := by simpa using hf
        simp only [pop, hge, hs, hf', if_false, Option.some.injEq, Prod.mk.injEq,
          Bool.false_eq_true] at hp
        rw [← hp.1, null_token_is_null] at hn
        cases hn

/-- What `k` calls `pop(val)` that all returned a non-null token have done. -/
theorem pop_n_non_null (mv : T → T) (k : Nat) :
    ∀ (q q1 : mpsc_queue T) (val : T) (res : List (qtok_t × T)), q.tail_ < U64 →
      pop_n mv q val k = some (res, q1) → (∀ r ∈ res, r.1.IsNull = false) →
      q1.head_ = q.head_ + k ∧ q1.tail_ = q.tail_ ∧ q1.queue_.size = q.queue_.size ∧
      (∀ j, (∀ i, i < k → j ≠ (q.head_ + i) % q.queue_.size) → q1.slot j = q.slot j) := by
  induction k with
  | zero =>
    intro q q1 val res _ hp _
    simp only [pop_n, Option.some.injEq, Prod.mk.injEq] at hp
    obtain ⟨-, rfl⟩ := hp
    exact ⟨rfl, rfl, rfl, fun _ _ => rfl⟩
  | succ k ih =>
    intro q q1 val res hr hp hn
    cases h1 : pop mv q val with
    | none => simp [pop_n, h1] at hp
    | some r =>
      cases h2 : pop_n mv r.2.2 r.2.1 k with
      | none => simp [pop_n, h1, h2] at hp
      | some rs =>
        simp only [pop_n, h1, h2, Option.some.injEq, Prod.mk.injEq] at hp
        obtain ⟨rfl, rfl⟩ := hp
        obtain ⟨a1, a2, a3, a4, a5⟩ := pop_non_null mv q r.2.2 val r.2.1 r.1 hr h1
          (hn (r.1, r.2.1) (List.mem_cons_self _ _))
        obtain ⟨b1, b2, b3, b4⟩ := ih r.2.2 rs.2 r.2.1 rs.1 (by rw [a3]; exact hr) h2
          (fun x hx => hn x (List.mem_cons_of_mem _ hx))
        refine ⟨by rw [b1, a2]; omega, by rw [b2, a3], by rw [b3, a4], ?_⟩
        intro j hj
        rw [b4 j ?_, a5 j ?_]
        · simpa using hj 0 (by omega)
        · intro i hi
          rw [a2, a4]
          have := hj (i + 1) (by omega)
          rwa [show q.head_ + (i + 1) = q.head_ + 1 + i by omega] at this

end mpsc_queue

namespace mpsc_queue
variable {T : Type}

/-- C7, as amended: `peek` never modifies the queue (for every state, pointer and
offset the queue it leaves is the queue it found); when off >= 0,
head + off < tail and the slot at (head + off) % depth has flag bit 0 set, both
overloads return the token wrapping head + off and set `val` to point at that
slot (its value, for the `T*` overload); and when moreover off < depth, that
value is the one `pop(val)` returns after `off` earlier pops that each
returned a token. -/
theorem peek_reads_without_modifying (mv : T → T) (q : mpsc_queue T) (p : SlotPtr) (off : Nat)
    (e : pair bitfield32_t T)
    (hr : q.tail_ < U64) (hlt : q.head_ + off < q.tail_)
    (hs : q.slot ((q.head_ + off) % q.queue_.size) = some e) (hf : e.GetFirst.Any 1 = true) :
    (∀ (q' : mpsc_queue T) p' off' r, peek q' p' off' = some r → r.2.2 = q') ∧
    (∀ (q' : mpsc_queue T) p' off' r, peek_pair q' p' off' = some r → r.2.2 = q') ∧
    peek q p (off : Int)
      = some (⟨q.head_ + off⟩, SlotPtr.slot ((q.head_ + off) % q.queue_.size), q) ∧
    q.deref (SlotPtr.slot ((q.head_ + off) % q.queue_.size)) = some e.GetSecond ∧
    peek_pair q p (off : Int)
      = some (⟨q.head_ + off⟩, SlotPtr.slot ((q.head_ + off) % q.queue_.size), q) ∧
    q.deref_pair (SlotPtr.slot ((q.head_ + off) % q.queue_.size)) = some e ∧
    (off < q.queue_.size → ∀ val val1 res q1, pop_n mv q val off = some (res, q1) →
      (∀ r ∈ res, r.1.IsNull = false) →
      ∃ q2, pop mv q1 val1 = some (⟨q.head_ + off⟩, e.GetSecond, q2)) := by
  have hph : q.peek_head (off : Int) = q.head_ + off := peek_head_nat q off (by omega)
  have hn : ¬ q.head_ + off ≥ q.tail_ := by omega
  refine ⟨?_, ?_, ?_, ?_, ?_, ?_, ?_⟩
  · intro q' p' off' r hp
    unfold peek at hp
    simp only at hp
    split at hp
    · cases hp; rfl
    · split at hp
      · cases hp
      · split at hp <;> (cases hp; rfl)
  · intro q' p' off' r hp
    unfold peek_pair at hp
    simp only at hp
    split at hp
    · cases hp; rfl
    · split at hp
      · cases hp
      · split at hp <;> (cases hp; rfl)
  · simp only [peek, hph, hn, hs, hf, if_false, if_true]
  · simp [deref, hs]
  · simp only [peek_pair, hph, hn, hs, hf, if_false, if_true]
  · simp [deref_pair, hs]
  · intro hoff val val1 res q1 hp hnn
    obtain ⟨b1, b2, b3, b4⟩ := pop_n_non_null mv off q q1 val res hr hp hnn
    have hs1 : q1.slot (q1.head_ % q1.queue_.size) = some e := by
      rw [b1, b3, b4 _ ?_]
      · exact hs
      · intro i hi
        exact (mod_ne_of_lt q.head_ i off q.queue_.size hi (by omega)).symm
    obtain ⟨q2, hp2, -⟩ := pop_success mv q1 val1 e (by rw [b2]; exact hr) (by rw [b1, b2]; exact hlt)
      hs1 hf
    exact ⟨q2, by rw [hp2, b1]⟩

theorem peek_reads_without_modifying_witness :
    demo_queue_full.tail_ < U64 ∧ demo_queue_full.head_ + 1 < demo_queue_full.tail_ ∧
    demo_queue_full.slot ((demo_queue_full.head_ + 1) % demo_queue_full.queue_.size)
      = some ⟨⟨1⟩, 12⟩ ∧
    (⟨⟨1⟩, 12⟩ : pair bitfield32_t Nat).GetFirst.Any 1 = true ∧
    peek demo_queue_full (SlotPtr.other 9) ((1 : Nat) : Int)
      = some (⟨demo_queue_full.head_ + 1⟩,
          SlotPtr.slot ((demo_queue_full.head_ + 1) % demo_queue_full.queue_.size),
          demo_queue_full) ∧
    demo_queue_full.deref
        (SlotPtr.slot ((demo_queue_full.head_ + 1) % demo_queue_full.queue_.size))
      = some (⟨⟨1⟩, 12⟩ : pair bitfield32_t Nat).GetSecond :=
  ⟨by decide, by decide, by decide, by decide,
   (peek_reads_without_modifying id demo_queue_full (SlotPtr.other 9) 1 ⟨⟨1⟩, 12⟩
     (by decide) (by decide) (by decide) (by decide)).2.2.1,
   (peek_reads_without_modifying id demo_queue_full (SlotPtr.other 9) 1 ⟨⟨1⟩, 12⟩
     (by decide) (by decide) (by decide) (by decide)).2.2.2.1⟩

/-- C7 fails as stated: in the reachable state `overfull_system` (depth 1, head 0,
tail 2, slot 0 published with 5) offset 1 satisfies head + off < tail and the
slot at (head + off) % depth is published, and `peek(val, 1)` returns token 1
pointing at the value 5; but after one earlier pop (which returns that 5 with
token 0) the next `pop(val)` returns the null token: the value peeked at
offset 1 is not what a pop returns after 1 earlier pop. -/
theorem peek_past_depth_is_not_the_next_pop :
    overfull_system.q.head_ + 1 < overfull_system.q.tail_ ∧
    overfull_system.q.slot ((overfull_system.q.head_ + 1) % overfull_system.q.queue_.size)
      = some ⟨⟨1⟩, 5⟩ ∧
    peek overfull_system.q (SlotPtr.other 9) 1
      = some (⟨1⟩, SlotPtr.slot 0, overfull_system.q) ∧
    overfull_system.q.deref (SlotPtr.slot 0) = some 5 ∧
    (pop_n id overfull_system.q 0 1).map (fun r => r.1) = some [(⟨0⟩, 5)] ∧
    ((pop_n id overfull_system.q 0 1).bind (fun r => pop id r.2 0)).map (fun r => r.1)
      = some qtok_t.GetNull := by
  decide

end mpsc_queue

/-! ## C8, C9: `shm_destroy` and the destructor -/

theorem vector_shm_destroy_null {α : Type} (s : vector α × MemoryManager) :
    ((vector.ops α).shm_destroy s).1.1.IsNull = true := by
  unfold ContainerOps.shm_destroy
  by_cases h : (vector.ops α).IsNull s = true
  · simp only [h, if_true]; exact h
  · simp only [h, if_false]
    simp [vector.ops, vector.SetNull, vector.IsNull]

theorem vector_shm_destroy_alloc {α : Type} (s : vector α × MemoryManager) :
    ((vector.ops α).shm_destroy s).1.1.alloc_id_ = s.1.alloc_id_ := by
  unfold ContainerOps.shm_destroy
  by_cases h : (vector.ops α).IsNull s = true
  · simp only [h, if_true]
  · simp only [h, if_false]
    cases hp : s.1.vec_ptr_ <;> simp [vector.ops, vector.SetNull, vector.shm_destroy_main, hp]

theorem vector_shm_destroy_next {α : Type} (s : vector α × MemoryManager) :
    ((vector.ops α).shm_destroy s).1.2.next = s.2.next := by
  unfold ContainerOps.shm_destroy
  by_cases h : (vector.ops α).IsNull s = true
  · simp only [h, if_true]
  · simp only [h, if_false]
    cases hp : s.1.vec_ptr_ <;>
      simp [vector.ops, vector.SetNull, vector.shm_destroy_main, hp, MemoryManager.Free]

namespace mpsc_queue

variable {T : Type}

theorem shm_destroy_is_null (s : mpsc_queue T × MemoryManager) :
    (ops T).IsNull ((ops T).shm_destroy s).1 = true := by
  unfold ContainerOps.shm_destroy
  by_cases h : (ops T).IsNull s = true
  · simp only [h, if_true]
  · simp only [h, if_false]
    show (vector.IsNull _) = true
    exact vector_shm_destroy_null (s.1.queue_, s.2)

theorem shm_destroy_of_null {S : Type} (c : ContainerOps S) (x : S) (hx : c.IsNull x = true) :
    c.shm_destroy x = (x, []) := by
  simp [ContainerOps.shm_destroy, hx]

theorem shm_destroy_of_non_null (s : mpsc_queue T × MemoryManager)
    (h : (ops T).IsNull s = false) :
    (ops T).shm_destroy s
      = ((ops T).SetNull ((ops T).shm_destroy_main s), [Call.shm_destroy_main, Call.SetNull]) ∧
    (∀ off, s.1.queue_.vec_ptr_ = some off →
      ((ops T).shm_destroy s).1.2 = s.2.Free s.1.queue_.alloc_id_ off) := by
  refine ⟨by simp [ContainerOps.shm_destroy, h], ?_⟩
  intro off hoff
  have hv : s.1.queue_.IsNull = false := h
  have hq : s.1.IsNull = false := h
  simp [ContainerOps.shm_destroy, ops, shm_destroy_main, hv, hq, vector.ops,
    vector.shm_destroy_main, hoff, SetNull]

/-- C8: `shm_destroy` is idempotent. On a container (of any class) whose
`IsNull()` is true it changes nothing and calls no class function; on a
non-null `mpsc_queue` it calls `shm_destroy_main` once and then `SetNull`, the
block of the vector goes back to the allocator, and `IsNull()` holds
afterwards; hence a second `shm_destroy` is a no-op and two consecutive calls
leave the state that one call leaves. -/
theorem shm_destroy_idempotent (s : mpsc_queue T × MemoryManager) :
    (∀ (S : Type) (c : ContainerOps S) (x : S), c.IsNull x = true → c.shm_destroy x = (x, [])) ∧
    ((ops T).IsNull s = false →
      (ops T).shm_destroy s
        = ((ops T).SetNull ((ops T).shm_destroy_main s), [Call.shm_destroy_main, Call.SetNull]) ∧
      (∀ off, s.1.queue_.vec_ptr_ = some off →
        ((ops T).shm_destroy s).1.2 = s.2.Free s.1.queue_.alloc_id_ off)) ∧
    (ops T).IsNull ((ops T).shm_destroy s).1 = true ∧
    (ops T).shm_destroy ((ops T).shm_destroy s).1 = (((ops T).shm_destroy s).1, []) ∧
    shm_destroy (shm_destroy s) = shm_destroy s := by
  have hnull := shm_destroy_is_null s
  refine ⟨fun S c x hx => shm_destroy_of_null c x hx, shm_destroy_of_non_null s, hnull,
    shm_destroy_of_null _ _ hnull, ?_⟩
  unfold shm_destroy
  rw [shm_destroy_of_null _ _ hnull]

/-- C9 fails as stated: on the non-null queue `fresh_queue`, whose block (7, 0) is
allocated, the destructor calls no class function and leaves the block
allocated, while `shm_destroy` calls `shm_destroy_main` and `SetNull` and gives
the block back: the two end in different states. -/
theorem destructor_is_not_shm_destroy :
    (ops Nat).IsNull fresh_queue = false ∧
    fresh_queue.2.live = [(7, 0)] ∧
    ((ops Nat).destructor fresh_queue).2 = [] ∧
    ((ops Nat).destructor fresh_queue).1.2.live = [(7, 0)] ∧
    ((ops Nat).shm_destroy fresh_queue).2 = [Call.shm_destroy_main, Call.SetNull] ∧
    ((ops Nat).shm_destroy fresh_queue).1.2.live = [] ∧
    ((ops Nat).destructor fresh_queue).1 ≠ ((ops Nat).shm_destroy fresh_queue).1 := by
  decide

/-- C9, as amended: the destructor of every container class (mpsc_queue, pair,
ticket_queue) is the defaulted destructor of the container template: it calls
neither `shm_destroy_main` nor `SetNull` and leaves the container and the
allocated blocks as they were. On a non-null `mpsc_queue` the block of the
vector therefore stays allocated after the destructor, and only an explicit
`shm_destroy` gives it back. -/
theorem destructor_keeps_storage (q : mpsc_queue T) (mm : MemoryManager) (off : Nat)
    (hq : q.queue_.vec_ptr_ = some off) (hlive : (q.queue_.alloc_id_, off) ∈ mm.live) :
    (ops T).destructor (q, mm) = ((q, mm), []) ∧
    (q.queue_.alloc_id_, off) ∈ ((ops T).destructor (q, mm)).1.2.live ∧
    ((ops T).shm_destroy (q, mm)).1.2.live = mm.live.erase (q.queue_.alloc_id_, off) ∧
    ((ops T).shm_destroy (q, mm)).2 = [Call.shm_destroy_main, Call.SetNull] ∧
    (∀ (A B M : Type) (da : A × M → A × M) (db : B × M → B × M) (x : pair A B × M),
      (pair.ops da db).destructor x = (x, [])) ∧
    (∀ x : ticket_queue T × MemoryManager, (ticket_queue.ops T).destructor x = (x, [])) := by
  have hn : (ops T).IsNull (q, mm) = false := by
    show q.queue_.vec_ptr_.isNone = false
    rw [hq]; rfl
  obtain ⟨h2a, h2b⟩ := shm_destroy_of_non_null (q, mm) hn
  refine ⟨rfl, hlive, ?_, ?_, fun _ _ _ _ _ _ => rfl, fun _ => rfl⟩
  · rw [h2b off hq]; rfl
  · rw [h2a]

theorem destructor_keeps_storage_witness :
    fresh_queue.1.queue_.vec_ptr_ = some 0 ∧
    (fresh_queue.1.queue_.alloc_id_, 0) ∈ fresh_queue.2.live ∧
    (ops Nat).destructor (fresh_queue.1, fresh_queue.2) = ((fresh_queue.1, fresh_queue.2), []) ∧
    ((ops Nat).shm_destroy (fresh_queue.1, fresh_queue.2)).1.2.live
      = fresh_queue.2.live.erase (fresh_queue.1.queue_.alloc_id_, 0) :=
  ⟨by decide, by decide,
   (destructor_keeps_storage fresh_queue.1 fresh_queue.2 0 (by decide) (by decide)).1,
   (destructor_keeps_storage fresh_queue.1 fresh_queue.2 0 (by decide) (by decide)).2.2.1⟩

end mpsc_queue

namespace System

variable {T : Type}

/-! ## C4: occupancy in every reachable state -/

theorem get_set_self (ps : List (ProducerPC T)) (i : Nat) (pc pc' : ProducerPC T)
    (hi : ps[i]? = some pc) : (ps.set i pc')[i]? = some pc' := by
  have hlt : i < ps.length := (List.getElem?_eq_some.mp hi).1
  simp [hlt]

theorem get_set_cases (ps : List (ProducerPC T)) (i j : Nat) (pc' x : ProducerPC T)
    (h : (ps.set i pc')[j]? = some x) : (j = i ∧ x = pc') ∨ (j ≠ i ∧ ps[j]? = some x) := by
  by_cases hji : j = i
  · subst hji
    left
    have hlt : j < (ps.set j pc').length := (List.getElem?_eq_some.mp h).1
    rw [List.length_set] at hlt
    rw [List.getElem?_set_self hlt] at h
    exact ⟨rfl, (Option.some.inj h).symm⟩
  · right
    rw [List.getElem?_set_ne (Ne.symm hji)] at h
    exact ⟨hji, h⟩

theorem get_set_other (ps : List (ProducerPC T)) (i j : Nat) (pc' : ProducerPC T)
    (h : j ≠ i) : (ps.set i pc')[j]? = ps[j]? :=
  List.getElem?_set_ne (Ne.symm h)

/-- Two indices of one window of `C` consecutive indices that share a slot are
equal. -/
theorem window_slot_unique (C head t t' : Nat) (h1 : head ≤ t) (h2 : t < head + C)
    (h3 : head ≤ t') (h4 : t' < head + C) (hm : t % C = t' % C) : t = t' := by
  by_contra hne
  rcases Nat.lt_or_gt_of_ne hne with hlt | hgt
  · have := mpsc_queue.mod_ne_of_lt 0 t t' C hlt (by omega)
    simp only [Nat.zero_add] at this
    exact this hm
  · have := mpsc_queue.mod_ne_of_lt 0 t' t C hgt (by omega)
    simp only [Nat.zero_add] at this
    exact this hm.symm

theorem unheld_set (ps : List (ProducerPC T)) (i t : Nat) (pc' : ProducerPC T)
    (hu : unheld ps t) (hp : held pc' ≠ some t) : unheld (ps.set i pc') t := by
  intro j x hx
  rcases get_set_cases ps i j pc' x hx with ⟨-, rfl⟩ | ⟨-, hj⟩
  · exact hp
  · exact hu j x hj

theorem cons_ok_of_unheld (C : Nat) (q : mpsc_queue T) (ps ps' : List (ProducerPC T))
    (c : ConsumerPC) (h : cons_ok C q ps c) (hu : ∀ t, t < q.tail_ → unheld ps t → unheld ps' t) :
    cons_ok C q ps' c := by
  cases c with
  | idle => trivial
  | loaded_head wv h0 => exact h
  | loaded wv h0 t0 => exact h
  | flagged wv h0 => exact ⟨h.1, h.2.1, hu _ h.2.1 h.2.2⟩
  | moved h0 => exact ⟨h.1, h.2.1, hu _ h.2.1 h.2.2⟩
  | cleared h0 => exact ⟨h.1, h.2.1, hu _ h.2.1 h.2.2.1, h.2.2.2⟩

/-- A producer moves between two program counters that hold the same index (or
none) and touches no shared memory. -/
theorem inv_pc_update (C k i : Nat) (s : System T) (pc pc' : ProducerPC T)
    (hinv : Inv C k s) (hi : s.producers[i]? = some pc) (hheld : held pc' = held pc)
    (hok : pc_ok C s.q.head_ s.q.tail_ pc')
    (hw : waiting pc = true → waiting pc' = false →
      ∀ t, held pc = some t → t < s.q.head_ + C) :
    Inv C (k + 1) { s with producers := s.producers.set i pc' } := by
  have hun : ∀ t, unheld s.producers t → unheld (s.producers.set i pc') t := by
    intro t hu
    exact unheld_set _ _ _ _ hu (by rw [hheld]; exact hu i pc hi)
  refine ⟨hinv.size_eq, hinv.head_le, Nat.le_succ_of_le hinv.tail_le, ?_, ?_, ?_, ?_, ?_⟩
  · intro j x hx
    rcases get_set_cases _ i j pc' x hx with ⟨-, rfl⟩ | ⟨-, hj⟩
    · exact hok
    · exact hinv.pcs j x hj
  · intro j1 j2 x1 x2 t h1 h2 e1 e2
    rcases get_set_cases _ i j1 pc' x1 h1 with ⟨a1, b1⟩ | ⟨n1, g1⟩
    · rcases get_set_cases _ i j2 pc' x2 h2 with ⟨a2, b2⟩ | ⟨n2, g2⟩
      · rw [a1, a2]
      · rw [a1]
        exact hinv.distinct _ _ pc x2 t hi g2 (by rw [← hheld, ← b1]; exact e1) e2
    · rcases get_set_cases _ i j2 pc' x2 h2 with ⟨a2, b2⟩ | ⟨n2, g2⟩
      · rw [a2]
        exact hinv.distinct _ _ x1 pc t g1 hi e1 (by rw [← hheld, ← b2]; exact e2)
      · exact hinv.distinct _ _ x1 x2 t g1 g2 e1 e2
  · intro t e h1 h2 h3 h4
    obtain ⟨a, b⟩ := hinv.flags t e h1 h2 h3 h4
    exact ⟨a, hun t b⟩
  · exact cons_ok_of_unheld C s.q _ _ _ hinv.cons (fun t _ hu => hun t hu)
  · intro t (h1 : s.q.head_ + C ≤ t) (h2 : t < s.q.tail_)
    obtain ⟨j, x, hj, hwx, hx⟩ := hinv.over t h1 h2
    by_cases hji : j = i
    · subst hji
      rw [hi] at hj
      cases hj
      cases hw' : waiting pc'
      · exact absurd (hw hwx hw' t hx) (by omega)
      · exact ⟨j, pc', get_set_self _ _ _ _ hi, hw', by rw [hheld]; exact hx⟩
    · exact ⟨j, x, by rw [get_set_other _ _ _ _ hji]; exact hj, hwx, hx⟩

end System

namespace System

variable {T : Type}

theorem inv_mono_k (C k : Nat) (s : System T) (hinv : Inv C k s) : Inv C (k + 1) s :=
  ⟨hinv.size_eq, hinv.head_le, Nat.le_succ_of_le hinv.tail_le, hinv.pcs, hinv.distinct,
    hinv.flags, hinv.cons, hinv.over⟩

theorem pc_ok_mono_tail (C head tail tail' : Nat) (pc : ProducerPC T)
    (h : pc_ok C head tail pc) (hle : tail ≤ tail') : pc_ok C head tail' pc := by
  cases pc with
  | idle => trivial
  | loaded v h0 => exact h
  | claimed v h0 t => exact ⟨h.1, h.2.1, by have := h.2.2; omega⟩
  | spinning v t => exact ⟨h.1, by have := h.2; omega⟩
  | ready v t => exact ⟨h.1, by have := h.2.1; omega, h.2.2⟩
  | written v t => exact ⟨h.1, by have := h.2.1; omega, h.2.2⟩

theorem held_lt_tail (C head tail t : Nat) (pc : ProducerPC T)
    (h : pc_ok C head tail pc) (ht : held pc = some t) : head ≤ t ∧ t < tail := by
  cases pc with
  | idle => cases ht
  | loaded v h0 => cases ht
  | claimed v h0 t0 => cases ht; exact ⟨h.2.1, h.2.2⟩
  | spinning v t0 => cases ht; exact ⟨h.1, h.2⟩
  | ready v t0 => cases ht; exact ⟨h.1, h.2.1⟩
  | written v t0 => cases ht; exact ⟨h.1, h.2.1⟩

/-- The consumer's view survives a change of the queue that keeps head, does not
lower tail, keeps no index held that was free, and keeps the cleared flag
clear. -/
theorem cons_ok_mono (C : Nat) (q q' : mpsc_queue T) (ps ps' : List (ProducerPC T))
    (c : ConsumerPC) (h : cons_ok C q ps c) (hh : q'.head_ = q.head_)
    (ht : q.tail_ ≤ q'.tail_)
    (hu : ∀ t, t < q.tail_ → unheld ps t → unheld ps' t)
    (hfc : unheld ps q.head_ → flag_clear q (q.head_ % C) → flag_clear q' (q.head_ % C)) :
    cons_ok C q' ps' c := by
  cases c with
  | idle => trivial
  | loaded_head wv h0 => exact h.trans hh.symm
  | loaded wv h0 t0 => exact ⟨h.1.trans hh.symm, h.2.trans ht⟩
  | flagged wv h0 =>
    exact ⟨h.1.trans hh.symm, lt_of_lt_of_le h.2.1 ht, hu _ h.2.1 h.2.2⟩
  | moved h0 =>
    exact ⟨h.1.trans hh.symm, lt_of_lt_of_le h.2.1 ht, hu _ h.2.1 h.2.2⟩
  | cleared h0 =>
    obtain ⟨a, b, c, d⟩ := h
    subst a
    exact ⟨hh.symm, lt_of_lt_of_le b ht, hu _ b c, hfc c d⟩

/-- A producer claims an index: `tail_.fetch_add(1)`. -/
theorem inv_claim (C k i : Nat) (s : System T) (w : T) (h : Nat) (hk : k + 1 < U64)
    (hinv : Inv C k s) (hi : s.producers[i]? = some (ProducerPC.loaded w h)) :
    Inv C (k + 1) { s with q := s.q.fetch_add_tail,
                           producers := s.producers.set i (ProducerPC.claimed w h s.q.tail_) } := by
  have htl := hinv.tail_le
  have hq : s.q.fetch_add_tail.tail_ = s.q.tail_ + 1 := by
    show (s.q.tail_ + 1) % U64 = s.q.tail_ + 1
    exact Nat.mod_eq_of_lt (by omega)
  have hqh : s.q.fetch_add_tail.head_ = s.q.head_ := rfl
  have hqs : ∀ j, s.q.fetch_add_tail.slot j = s.q.slot j := fun _ => rfl
  have hun : ∀ t, t < s.q.tail_ → unheld s.producers t →
      unheld (s.producers.set i (ProducerPC.claimed w h s.q.tail_)) t := by
    intro t ht hu
    refine unheld_set _ _ _ _ hu ?_
    intro hc
    cases hc
    omega
  refine ⟨hinv.size_eq, ?_, ?_, ?_, ?_, ?_, ?_, ?_⟩
  · show s.q.head_ ≤ s.q.fetch_add_tail.tail_
    rw [hq]; exact Nat.le_succ_of_le hinv.head_le
  · show s.q.fetch_add_tail.tail_ ≤ k + 1
    rw [hq]; omega
  · intro j x hx
    show pc_ok C s.q.head_ s.q.fetch_add_tail.tail_ x
    rw [hq]
    rcases get_set_cases _ i j _ x hx with ⟨-, rfl⟩ | ⟨-, hj⟩
    · exact ⟨hinv.pcs i _ hi, hinv.head_le, Nat.lt_succ_self _⟩
    · exact pc_ok_mono_tail _ _ _ _ _ (hinv.pcs j x hj) (Nat.le_succ _)
  · intro j1 j2 x1 x2 t h1 h2 e1 e2
    rcases get_set_cases _ i j1 _ x1 h1 with ⟨a1, b1⟩ | ⟨n1, g1⟩
    · rcases get_set_cases _ i j2 _ x2 h2 with ⟨a2, b2⟩ | ⟨n2, g2⟩
      · rw [a1, a2]
      · rw [b1] at e1
        cases e1
        have := (held_lt_tail _ _ _ _ _ (hinv.pcs j2 x2 g2) e2).2
        omega
    · rcases get_set_cases _ i j2 _ x2 h2 with ⟨a2, b2⟩ | ⟨n2, g2⟩
      · rw [b2] at e2
        cases e2
        have := (held_lt_tail _ _ _ _ _ (hinv.pcs j1 x1 g1) e1).2
        omega
      · exact hinv.distinct _ _ x1 x2 t g1 g2 e1 e2
  · intro t e h1 h2 h3 h4
    obtain ⟨a, b⟩ := hinv.flags t e h1 h2 h3 h4
    exact ⟨by show t < s.q.fetch_add_tail.tail_; rw [hq]; omega, hun t a b⟩
  · exact cons_ok_mono C s.q _ _ _ _ hinv.cons hqh (by rw [hq]; omega) hun (fun _ hfc => hfc)
  · intro t (h1 : s.q.head_ + C ≤ t) (h2 : t < s.q.fetch_add_tail.tail_)
    rw [hq] at h2
    by_cases ht : t = s.q.tail_
    · exact ⟨i, _, get_set_self _ _ _ _ hi, rfl, by rw [ht]; rfl⟩
    · obtain ⟨j, x, hj, hwx, hx⟩ := hinv.over t h1 (by omega)
      have hji : j ≠ i := by
        intro hc
        rw [hc, hi] at hj
        cases hj
        cases hwx
      exact ⟨j, x, by rw [get_set_other _ _ _ _ hji]; exact hj, hwx, hx⟩

end System

namespace System

variable {T : Type}

theorem emplace_idx_mod (C t : Nat) (q : mpsc_queue T) (hsz : q.queue_.size = C)
    (hC : 1 ≤ C) (h32 : C ≤ U32) : q.emplace_idx t = t % C := by
  rw [mpsc_queue.emplace_idx_eq, hsz]
  exact Nat.mod_eq_of_lt (lt_of_lt_of_le (Nat.mod_lt _ (by omega)) h32)

/-- The queue, the consumer's program counter and `val` change while head, tail
and the size stay. -/
theorem inv_queue_update (C k : Nat) (s : System T) (q' : mpsc_queue T) (c' : ConsumerPC)
    (v' : T) (hinv : Inv C k s) (hh : q'.head_ = s.q.head_) (ht : q'.tail_ = s.q.tail_)
    (hsz : q'.queue_.size = s.q.queue_.size)
    (hfl : ∀ t e, s.q.head_ ≤ t → t < s.q.head_ + C → q'.slot (t % C) = some e →
      e.GetFirst.Any 1 = true → t < s.q.tail_ ∧ unheld s.producers t)
    (hc : cons_ok C q' s.producers c') :
    Inv C k { s with q := q', consumer := c', val := v' } := by
  refine ⟨hsz.trans hinv.size_eq, ?_, ?_, ?_, hinv.distinct, ?_, hc, ?_⟩
  · show q'.head_ ≤ q'.tail_
    rw [hh, ht]; exact hinv.head_le
  · show q'.tail_ ≤ k
    rw [ht]; exact hinv.tail_le
  · intro j x hx
    show pc_ok C q'.head_ q'.tail_ x
    rw [hh, ht]; exact hinv.pcs j x hx
  · intro t e (h1 : q'.head_ ≤ t) (h2 : t < q'.head_ + C) h3 h4
    rw [hh] at h1 h2
    obtain ⟨a, b⟩ := hfl t e h1 h2 h3 h4
    exact ⟨by show t < q'.tail_; rw [ht]; exact a, b⟩
  · intro t (h1 : q'.head_ + C ≤ t) (h2 : t < q'.tail_)
    rw [hh] at h1
    rw [ht] at h2
    exact hinv.over t h1 h2

/-- A producer writes its slot: `replace` (lines 203-208). -/
theorem inv_replace (C k i : Nat) (s : System T) (w : T) (t : Nat) (hC : 1 ≤ C)
    (h32 : C ≤ U32) (hinv : Inv C k s) (hi : s.producers[i]? = some (ProducerPC.ready w t)) :
    Inv C (k + 1) { s with q := s.q.emplace_replace t w,
                           producers := s.producers.set i (ProducerPC.written w t) } := by
  have h1 : Inv C (k + 1) { s with producers := s.producers.set i (ProducerPC.written w t) } :=
    inv_pc_update C k i s _ _ hinv hi rfl (hinv.pcs i (ProducerPC.ready w t) hi)
      (fun hw => by cases hw)
  have hidx : s.q.emplace_idx t = t % C := emplace_idx_mod C t s.q hinv.size_eq hC h32
  have hlt : t % C < s.q.queue_.size := by rw [hinv.size_eq]; exact Nat.mod_lt _ (by omega)
  have hq : s.q.emplace_replace t w = s.q.set_slot (t % C) ⟨⟨0⟩, w⟩ := by
    unfold mpsc_queue.emplace_replace; rw [hidx]
  have hnew : ∀ e, (s.q.set_slot (t % C) ⟨⟨0⟩, w⟩).slot (t % C) = some e →
      e.GetFirst.Any 1 = false := by
    intro e he
    rw [mpsc_queue.slot_set_slot_eq _ _ _ hlt] at he
    cases he
    simp [pair.GetFirst, bitfield32_t.Any]
  rw [hq]
  refine inv_queue_update C (k + 1) _ _ s.consumer s.val h1 rfl rfl
    (mpsc_queue.size_set_slot _ _ _) ?_ ?_
  · intro t' e a1 a2 a3 a4
    by_cases hm : t' % C = t % C
    · rw [hm] at a3
      rw [hnew e a3] at a4
      cases a4
    · rw [mpsc_queue.slot_set_slot_ne _ _ _ _ (Ne.symm hm)] at a3
      exact h1.flags t' e a1 a2 a3 a4
  · refine cons_ok_mono C s.q _ _ _ _ h1.cons rfl (le_refl _) (fun _ _ hu => hu) ?_
    intro _ hfc e he
    by_cases hm : s.q.head_ % C = t % C
    · rw [hm] at he
      exact hnew e he
    · rw [mpsc_queue.slot_set_slot_ne _ _ _ _ (Ne.symm hm)] at he
      exact hfc e he

/-- A producer publishes its slot: `SetBits(1)` (line 212), and returns. -/
theorem inv_publish (C k i : Nat) (s : System T) (w : T) (t : Nat) (q1 : mpsc_queue T)
    (hC : 1 ≤ C) (h32 : C ≤ U32) (hinv : Inv C k s)
    (hi : s.producers[i]? = some (ProducerPC.written w t))
    (hp : s.q.emplace_publish t = some q1) :
    Inv C (k + 1) { s with q := q1, producers := s.producers.set i ProducerPC.idle } := by
  have hidx : s.q.emplace_idx t = t % C := emplace_idx_mod C t s.q hinv.size_eq hC h32
  have hlt : t % C < s.q.queue_.size := by rw [hinv.size_eq]; exact Nat.mod_lt _ (by omega)
  obtain ⟨hw1, hw2, hw3⟩ := hinv.pcs i _ hi
  have hq : ∃ e, q1 = s.q.set_slot (t % C) e := by
    unfold mpsc_queue.emplace_publish at hp
    rw [hidx] at hp
    obtain ⟨e0, he0⟩ := mpsc_queue.slot_of_lt_size s.q _ hlt
    rw [he0] at hp
    exact ⟨_, (Option.some.inj hp).symm⟩
  obtain ⟨e1, rfl⟩ := hq
  have hothers : ∀ (j : Nat) (x : ProducerPC T),
      (s.producers.set i ProducerPC.idle)[j]? = some x →
      held x = some t → False := by
    intro j x hx hh
    rcases get_set_cases _ i j _ x hx with ⟨-, b⟩ | ⟨n, g⟩
    · rw [b] at hh; cases hh
    · exact n (hinv.distinct j i x _ t g hi hh rfl)
  have hun : ∀ t', unheld s.producers t' →
      unheld (s.producers.set i ProducerPC.idle) t' := by
    intro t' hu
    exact unheld_set _ _ _ _ hu (by intro hc; cases hc)
  refine ⟨(mpsc_queue.size_set_slot _ _ _).trans hinv.size_eq, hinv.head_le,
    Nat.le_succ_of_le hinv.tail_le, ?_, ?_, ?_, ?_, ?_⟩
  · intro j x hx
    rcases get_set_cases _ i j _ x hx with ⟨-, b⟩ | ⟨-, g⟩
    · rw [b]; trivial
    · exact hinv.pcs j x g
  · intro j1 j2 x1 x2 t' a1 a2 e1 e2
    rcases get_set_cases _ i j1 _ x1 a1 with ⟨-, b1⟩ | ⟨-, g1⟩
    · rw [b1] at e1; cases e1
    · rcases get_set_cases _ i j2 _ x2 a2 with ⟨-, b2⟩ | ⟨-, g2⟩
      · rw [b2] at e2; cases e2
      · exact hinv.distinct _ _ x1 x2 t' g1 g2 e1 e2
  · intro t' e (a1 : s.q.head_ ≤ t') (a2 : t' < s.q.head_ + C) a3 a4
    by_cases hm : t' % C = t % C
    · have : t' = t := window_slot_unique C s.q.head_ t' t a1 a2 hw1 hw3 hm
      subst this
      exact ⟨hw2, fun j x hx hh => hothers j x hx hh⟩
    · have a3' : s.q.slot (t' % C) = some e := by
        rw [← mpsc_queue.slot_set_slot_ne _ _ _ e1 (Ne.symm hm)]; exact a3
      obtain ⟨b1, b2⟩ := hinv.flags t' e a1 a2 a3' a4
      exact ⟨b1, hun t' b2⟩
  · refine cons_ok_mono C s.q _ _ _ _ hinv.cons rfl (le_refl _) (fun t' _ hu => hun t' hu) ?_
    intro hu hfc e he
    by_cases hm : s.q.head_ % C = t % C
    · have : s.q.head_ = t :=
        window_slot_unique C s.q.head_ _ t (le_refl _) (by omega) hw1 hw3 hm
      exact absurd rfl (this ▸ hu i _ hi)
    · rw [mpsc_queue.slot_set_slot_ne _ _ _ _ (Ne.symm hm)] at he
      exact hfc e he
  · intro t' (a1 : s.q.head_ + C ≤ t') (a2 : t' < s.q.tail_)
    obtain ⟨j, x, hj, hwx, hx⟩ := hinv.over t' a1 a2
    have hji : j ≠ i := by
      intro hc
      rw [hc, hi] at hj
      cases hj
      cases hwx
    exact ⟨j, x, by rw [get_set_other _ _ _ _ hji]; exact hj, hwx, hx⟩

end System

namespace System

variable {T : Type}

/-- The consumer moves to a program counter that fits the queue, touching no
shared memory. -/
theorem inv_consumer (C k : Nat) (s : System T) (c' : ConsumerPC) (hinv : Inv C k s)
    (hc : cons_ok C s.q s.producers c') : Inv C (k + 1) { s with consumer := c' } :=
  ⟨hinv.size_eq, hinv.head_le, Nat.le_succ_of_le hinv.tail_le, hinv.pcs, hinv.distinct,
    hinv.flags, hc, hinv.over⟩

/-- The consumer moves the value out of the head slot (line 231). -/
theorem inv_move (C k h : Nat) (mv : T → T) (s : System T) (e : pair bitfield32_t T)
    (hinv : Inv C k s) (hcons : s.consumer = ConsumerPC.flagged true h)
    (hs : s.q.slot (h % s.q.queue_.size) = some e) :
    Inv C (k + 1) { s with val := e.GetSecond,
                           q := s.q.set_slot (h % s.q.queue_.size)
                             { e with second_ := mv e.second_ },
                           consumer := ConsumerPC.moved h } := by
  have hc := hinv.cons
  rw [hcons] at hc
  have hlt := mpsc_queue.slot_lt_size _ _ _ hs
  rw [hinv.size_eq] at hs hlt ⊢
  refine inv_mono_k C k _ (inv_queue_update C k s _ _ _ hinv rfl rfl
    (mpsc_queue.size_set_slot _ _ _) ?_ hc)
  intro t' e' a1 a2 a3 a4
  by_cases hm : t' % C = h % C
  · rw [hm, mpsc_queue.slot_set_slot_eq _ _ _ (by rw [hinv.size_eq]; exact hlt)] at a3
    cases a3
    exact hinv.flags t' e a1 a2 (by rw [hm]; exact hs) a4
  · rw [mpsc_queue.slot_set_slot_ne _ _ _ _ (Ne.symm hm)] at a3
    exact hinv.flags t' e' a1 a2 a3 a4

/-- The consumer clears the flag of the head slot (lines 232 and 254). -/
theorem inv_clear (C k h : Nat) (s : System T) (e : pair bitfield32_t T)
    (hinv : Inv C k s)
    (hcons : h = s.q.head_ ∧ h < s.q.tail_ ∧ unheld s.producers h)
    (hs : s.q.slot (h % s.q.queue_.size) = some e) :
    Inv C (k + 1) { s with q := s.q.set_slot (h % s.q.queue_.size)
                             { e with first_ := e.first_.Clear },
                           consumer := ConsumerPC.cleared h } := by
  have hlt := mpsc_queue.slot_lt_size _ _ _ hs
  have hnew : ∀ e', (s.q.set_slot (h % s.q.queue_.size)
      { e with first_ := e.first_.Clear }).slot (h % s.q.queue_.size) = some e' →
      e'.GetFirst.Any 1 = false := by
    intro e' he
    rw [mpsc_queue.slot_set_slot_eq _ _ _ hlt] at he
    cases he
    simp [pair.GetFirst, bitfield32_t.Any, bitfield32_t.Clear]
  rw [hinv.size_eq] at hnew ⊢
  refine inv_mono_k C k _ (inv_queue_update C k s _ _ s.val hinv rfl rfl
    (mpsc_queue.size_set_slot _ _ _) ?_ ⟨hcons.1, hcons.2.1, hcons.2.2, hnew⟩)
  intro t' e' a1 a2 a3 a4
  by_cases hm : t' % C = h % C
  · rw [hm] at a3
    rw [hnew e' a3] at a4
    cases a4
  · rw [mpsc_queue.slot_set_slot_ne _ _ _ _ (Ne.symm hm)] at a3
    exact hinv.flags t' e' a1 a2 a3 a4

/-- The consumer advances head: `head_.fetch_add(1)` (lines 233 and 255). -/
theorem inv_advance (C k h : Nat) (s : System T) (hk : k < U64)
    (hinv : Inv C k s) (hcons : s.consumer = ConsumerPC.cleared h) :
    Inv C (k + 1) { s with q := s.q.fetch_add_head, consumer := ConsumerPC.idle } := by
  have hc := hinv.cons
  rw [hcons] at hc
  obtain ⟨c1, c2, c3, c4⟩ := hc
  subst c1
  have htl := hinv.tail_le
  have hq : s.q.fetch_add_head.head_ = s.q.head_ + 1 := by
    show (s.q.head_ + 1) % U64 = s.q.head_ + 1
    exact Nat.mod_eq_of_lt (by omega)
  have hqt : s.q.fetch_add_head.tail_ = s.q.tail_ := rfl
  have hqs : ∀ j, s.q.fetch_add_head.slot j = s.q.slot j := fun _ => rfl
  refine ⟨hinv.size_eq, ?_, Nat.le_succ_of_le hinv.tail_le, ?_, hinv.distinct, ?_, trivial, ?_⟩
  · show s.q.fetch_add_head.head_ ≤ s.q.tail_
    rw [hq]; omega
  · intro j x hx
    show pc_ok C s.q.fetch_add_head.head_ s.q.tail_ x
    rw [hq]
    have hok := hinv.pcs j x hx
    have hne : ∀ t, held x = some t → s.q.head_ + 1 ≤ t := by
      intro t ht
      have h1 := (held_lt_tail _ _ _ _ _ hok ht).1
      have h2 : t ≠ s.q.head_ := fun hc => c3 j x hx (hc ▸ ht)
      omega
    cases x with
    | idle => trivial
    | loaded v h0 => exact Nat.le_succ_of_le hok
    | claimed v h0 t => exact ⟨Nat.le_succ_of_le hok.1, hne t rfl, hok.2.2⟩
    | spinning v t => exact ⟨hne t rfl, hok.2⟩
    | ready v t => exact ⟨hne t rfl, hok.2.1, by have := hok.2.2; omega⟩
    | written v t => exact ⟨hne t rfl, hok.2.1, by have := hok.2.2; omega⟩
  · intro t e (a1 : s.q.fetch_add_head.head_ ≤ t) (a2 : t < s.q.fetch_add_head.head_ + C) a3 a4
    rw [hq] at a1 a2
    rw [hqs] at a3
    by_cases hlt : t < s.q.head_ + C
    · exact hinv.flags t e (by omega) hlt a3 a4
    · have ht : t = s.q.head_ + C := by omega
      rw [ht, Nat.add_mod_right] at a3
      rw [c4 e a3] at a4
      cases a4
  · intro t (a1 : s.q.fetch_add_head.head_ + C ≤ t) (a2 : t < s.q.tail_)
    rw [hq] at a1
    exact hinv.over t (by omega) a2

end System

namespace System

variable {T : Type}

/-- Every step of every thread keeps the invariant. -/
theorem step_inv (mv : T → T) (C k : Nat) (s : System T) (a : Action T) (hC : 1 ≤ C)
    (h32 : C ≤ U32) (hk : k + 1 < U64) (hinv : Inv C k s) : Inv C (k + 1) (step mv s a) := by
  cases a with
  | produce i v =>
    show Inv C (k + 1) (producer_step i v s)
    unfold producer_step
    split
    · exact inv_mono_k C k s hinv
    · rename_i hi
      exact inv_pc_update C k i s _ _ hinv hi rfl (le_refl _) (fun hw => by cases hw)
    · rename_i w h hi
      exact inv_claim C k i s w h hk hinv hi
    · rename_i w h t hi
      obtain ⟨p1, p2, p3⟩ := hinv.pcs i _ hi
      have htl := hinv.tail_le
      split
      · exact inv_pc_update C k i s _ _ hinv hi rfl ⟨p2, p3⟩ (fun _ hw => by cases hw)
      · rename_i hocc
        have hfit : t < s.q.head_ + C := by
          rw [mpsc_queue.occupancy_eq t h (by omega) (by omega), hinv.size_eq] at hocc
          omega
        exact inv_pc_update C k i s _ _ hinv hi rfl ⟨p2, p3, hfit⟩
          (fun _ _ t' ht' => by cases ht'; exact hfit)
    · rename_i w t hi
      obtain ⟨p1, p2⟩ := hinv.pcs i _ hi
      exact inv_pc_update C k i s _ _ hinv hi rfl ⟨le_refl _, p1, p2⟩
        (fun _ hw => by cases hw)
    · rename_i w t hi
      exact inv_replace C k i s w t hC h32 hinv hi
    · rename_i w t hi
      split
      · exact inv_mono_k C k s hinv
      · rename_i q1 hp
        exact inv_publish C k i s w t q1 hC h32 hinv hi hp
  | consume wv =>
    show Inv C (k + 1) (consumer_step mv wv s)
    have hc := hinv.cons
    unfold consumer_step
    split
    · exact inv_consumer C k s _ hinv rfl
    · rename_i wv' h hcons
      rw [hcons] at hc
      exact inv_consumer C k s _ hinv ⟨hc, le_refl _⟩
    · rename_i wv' h t hcons
      rw [hcons] at hc
      split
      · exact inv_consumer C k s _ hinv trivial
      · rename_i hlt
        split
        · exact inv_mono_k C k s hinv
        · rename_i e hs
          split
          · rename_i hf
            rw [hinv.size_eq] at hs
            have hh : s.q.head_ ≤ h := by rw [hc.1]
            have := hinv.flags h e hh (by rw [hc.1]; omega) hs hf
            exact inv_consumer C k s _ hinv ⟨hc.1, this.1, this.2⟩
          · exact inv_consumer C k s _ hinv trivial
    · rename_i h hcons
      split
      · exact inv_mono_k C k s hinv
      · rename_i e hs
        exact inv_move C k h mv s e hinv hcons hs
    · rename_i h hcons
      rw [hcons] at hc
      split
      · exact inv_mono_k C k s hinv
      · rename_i e hs
        exact inv_clear C k h s e hinv hc hs
    · rename_i h hcons
      rw [hcons] at hc
      split
      · exact inv_mono_k C k s hinv
      · rename_i e hs
        exact inv_clear C k h s e hinv hc hs
    · rename_i h hcons
      exact inv_advance C k h s (by omega) hinv hcons

/-- The invariant holds after every schedule of fewer than 2 ^ 64 steps. -/
theorem run_inv (mv : T → T) (C : Nat) (hC : 1 ≤ C) (h32 : C ≤ U32) (acts : List (Action T)) :
    ∀ (s : System T) (k : Nat), Inv C k s → k + acts.length < U64 →
      Inv C (k + acts.length) (run mv s acts) := by
  induction acts with
  | nil => intro s k hinv _; exact hinv
  | cons a acts ih =>
    intro s k hinv hlen
    simp only [List.length_cons] at hlen
    have h1 := step_inv mv C k s a hC h32 (by omega) hinv
    have h2 := ih (step mv s a) (k + 1) h1 (by omega)
    have e : k + (a :: acts).length = k + 1 + acts.length := by
      simp only [List.length_cons]; omega
    rw [e]
    exact h2

/-- The invariant holds at the start. -/
theorem init_inv (n alloc C : Nat) (dflt : T) (mm : MemoryManager) :
    Inv C 0 (init n alloc C dflt mm) := by
  have hslot : ∀ j e, (init n alloc C dflt mm).q.slot j = some e → e.GetFirst.Any 1 = false := by
    intro j e he
    have : (List.replicate C (⟨⟨0⟩, dflt⟩ : pair bitfield32_t T))[j]? = some e := he
    rw [List.getElem?_replicate] at this
    split at this
    · cases this
      simp [pair.GetFirst, bitfield32_t.Any]
    · cases this
  have hidle : ∀ (i : Nat) (pc : ProducerPC T), (init n alloc C dflt mm).producers[i]? = some pc →
      pc = ProducerPC.idle := by
    intro i pc hpc
    have : (List.replicate n (ProducerPC.idle : ProducerPC T))[i]? = some pc := hpc
    rw [List.getElem?_replicate] at this
    split at this
    · cases this; rfl
    · cases this
  refine ⟨(mpsc_queue.filled_shm_init alloc C dflt mm).2, le_refl _, le_refl _, ?_, ?_, ?_,
    trivial, ?_⟩
  · intro i pc hpc
    rw [hidle i pc hpc]; trivial
  · intro i j x1 x2 t h1 _ e1 _
    rw [hidle i x1 h1] at e1; cases e1
  · intro t e _ _ h3 h4
    rw [hslot _ e h3] at h4; cases h4
  · intro t (h1 : 0 + C ≤ t) (h2 : t < 0)
    omega

end System

namespace System

variable {T : Type}

/-! ## C4: the counters in every reachable state, for every capacity -/

theorem pc_bound_mono (C head head' tail tail' : Nat) (pc : ProducerPC T)
    (h : pc_bound C head tail pc) (hh : head ≤ head') (ht : tail ≤ tail') :
    pc_bound C head' tail' pc := by
  cases pc with
  | idle => trivial
  | loaded v h0 => exact le_trans h hh
  | claimed v h0 t => exact ⟨le_trans h.1 hh, lt_of_lt_of_le h.2 ht⟩
  | spinning v t => exact lt_of_lt_of_le h ht
  | ready v t => exact ⟨lt_of_lt_of_le h.1 ht, by have := h.2; omega⟩
  | written v t => exact ⟨lt_of_lt_of_le h.1 ht, by have := h.2; omega⟩

theorem counter_inv_mono_k (C k : Nat) (s : System T) (hinv : CounterInv C k s) :
    CounterInv C (k + 1) s :=
  ⟨hinv.size_eq, hinv.head_le, Nat.le_succ_of_le hinv.tail_le, hinv.pcs, hinv.cons, hinv.over⟩

/-- The slots, the consumer's program counter and `val` change while head, tail
and the size stay. -/
theorem counter_inv_consumer (C k : Nat) (s : System T) (q' : mpsc_queue T)
    (c' : ConsumerPC) (v' : T) (hinv : CounterInv C k s) (hh : q'.head_ = s.q.head_)
    (ht : q'.tail_ = s.q.tail_) (hsz : q'.queue_.size = s.q.queue_.size)
    (hc : cons_bound s.q.head_ s.q.tail_ c') :
    CounterInv C (k + 1) { s with q := q', consumer := c', val := v' } := by
  refine ⟨hsz.trans hinv.size_eq, ?_, ?_, ?_, ?_, ?_⟩
  · show q'.head_ ≤ q'.tail_
    rw [hh, ht]; exact hinv.head_le
  · show q'.tail_ ≤ k + 1
    rw [ht]; exact Nat.le_succ_of_le hinv.tail_le
  · intro j x hx
    show pc_bound C q'.head_ q'.tail_ x
    rw [hh, ht]; exact hinv.pcs j x hx
  · show cons_bound q'.head_ q'.tail_ c'
    rw [hh, ht]; exact hc
  · intro t (h1 : q'.head_ + C ≤ t) (h2 : t < q'.tail_)
    rw [hh] at h1
    rw [ht] at h2
    exact hinv.over t h1 h2

/-- A producer moves to its next program counter, and the slots may change,
while head, tail and the size stay: a producer that stops waiting holds an index
below `head_ + C`. -/
theorem counter_inv_producer (C k i : Nat) (s : System T) (q' : mpsc_queue T)
    (pc pc' : ProducerPC T) (hinv : CounterInv C k s) (hi : s.producers[i]? = some pc)
    (hh : q'.head_ = s.q.head_) (ht : q'.tail_ = s.q.tail_)
    (hsz : q'.queue_.size = s.q.queue_.size)
    (hok : pc_bound C s.q.head_ s.q.tail_ pc')
    (hw : waiting pc = true → ∀ t, held pc = some t →
      (waiting pc' = true ∧ held pc' = some t) ∨ t < s.q.head_ + C) :
    CounterInv C (k + 1) { s with q := q', producers := s.producers.set i pc' } := by
  refine ⟨hsz.trans hinv.size_eq, ?_, ?_, ?_, ?_, ?_⟩
  · show q'.head_ ≤ q'.tail_
    rw [hh, ht]; exact hinv.head_le
  · show q'.tail_ ≤ k + 1
    rw [ht]; exact Nat.le_succ_of_le hinv.tail_le
  · intro j x hx
    show pc_bound C q'.head_ q'.tail_ x
    rw [hh, ht]
    rcases get_set_cases _ i j pc' x hx with ⟨-, rfl⟩ | ⟨-, hj⟩
    · exact hok
    · exact hinv.pcs j x hj
  · show cons_bound q'.head_ q'.tail_ s.consumer
    rw [hh, ht]; exact hinv.cons
  · intro t (h1 : q'.head_ + C ≤ t) (h2 : t < q'.tail_)
    rw [hh] at h1
    rw [ht] at h2
    obtain ⟨j, x, hj, hwx, hx⟩ := hinv.over t h1 h2
    by_cases hji : j = i
    · subst hji
      rw [hi] at hj
      cases hj
      rcases hw hwx t hx with ⟨a, b⟩ | c
      · exact ⟨j, pc', get_set_self _ _ _ _ hi, a, b⟩
      · omega
    · exact ⟨j, x, by rw [get_set_other _ _ _ _ hji]; exact hj, hwx, hx⟩

/-- A producer claims an index: `tail_.fetch_add(1)` (line 186). -/
theorem counter_inv_claim (C k i : Nat) (s : System T) (w : T) (h : Nat) (hk : k + 1 < U64)
    (hinv : CounterInv C k s) (hi : s.producers[i]? = some (ProducerPC.loaded w h)) :
    CounterInv C (k + 1)
      { s with q := s.q.fetch_add_tail,
               producers := s.producers.set i (ProducerPC.claimed w h s.q.tail_) } := by
  have htl := hinv.tail_le
  have hq : s.q.fetch_add_tail.tail_ = s.q.tail_ + 1 := by
    show (s.q.tail_ + 1) % U64 = s.q.tail_ + 1
    exact Nat.mod_eq_of_lt (by omega)
  refine ⟨hinv.size_eq, ?_, ?_, ?_, ?_, ?_⟩
  · show s.q.head_ ≤ s.q.fetch_add_tail.tail_
    rw [hq]; exact Nat.le_succ_of_le hinv.head_le
  · show s.q.fetch_add_tail.tail_ ≤ k + 1
    rw [hq]; omega
  · intro j x hx
    show pc_bound C s.q.head_ s.q.fetch_add_tail.tail_ x
    rw [hq]
    rcases get_set_cases _ i j _ x hx with ⟨-, rfl⟩ | ⟨-, hj⟩
    · exact ⟨hinv.pcs i _ hi, Nat.lt_succ_self _⟩
    · exact pc_bound_mono _ _ _ _ _ _ (hinv.pcs j x hj) (le_refl _) (Nat.le_succ _)
  · show cons_bound s.q.head_ s.q.fetch_add_tail.tail_ s.consumer
    rw [hq]
    have hc := hinv.cons
    cases hcs : s.consumer with
    | idle => trivial
    | loaded_head wv h0 => rw [hcs] at hc; exact hc
    | loaded wv h0 t0 => rw [hcs] at hc; exact ⟨hc.1, Nat.le_succ_of_le hc.2⟩
    | flagged wv h0 => rw [hcs] at hc; exact ⟨hc.1, Nat.lt_succ_of_lt hc.2⟩
    | moved h0 => rw [hcs] at hc; exact ⟨hc.1, Nat.lt_succ_of_lt hc.2⟩
    | cleared h0 => rw [hcs] at hc; exact ⟨hc.1, Nat.lt_succ_of_lt hc.2⟩
  · intro t (h1 : s.q.head_ + C ≤ t) (h2 : t < s.q.fetch_add_tail.tail_)
    rw [hq] at h2
    by_cases ht : t = s.q.tail_
    · exact ⟨i, _, get_set_self _ _ _ _ hi, rfl, by rw [ht]; rfl⟩
    · obtain ⟨j, x, hj, hwx, hx⟩ := hinv.over t h1 (by omega)
      have hji : j ≠ i := by
        intro hc
        rw [hc, hi] at hj
        cases hj
        cases hwx
      exact ⟨j, x, by rw [get_set_other _ _ _ _ hji]; exact hj, hwx, hx⟩

/-- The consumer advances head: `head_.fetch_add(1)` (lines 233 and 255). -/
theorem counter_inv_advance (C k h : Nat) (s : System T) (hk : k < U64)
    (hinv : CounterInv C k s) (hcons : s.consumer = ConsumerPC.cleared h) :
    CounterInv C (k + 1) { s with q := s.q.fetch_add_head, consumer := ConsumerPC.idle } := by
  have hc := hinv.cons
  rw [hcons] at hc
  obtain ⟨c1, c2⟩ := hc
  subst c1
  have htl := hinv.tail_le
  have hq : s.q.fetch_add_head.head_ = s.q.head_ + 1 := by
    show (s.q.head_ + 1) % U64 = s.q.head_ + 1
    exact Nat.mod_eq_of_lt (by omega)
  refine ⟨hinv.size_eq, ?_, Nat.le_succ_of_le hinv.tail_le, ?_, trivial, ?_⟩
  · show s.q.fetch_add_head.head_ ≤ s.q.tail_
    rw [hq]; omega
  · intro j x hx
    show pc_bound C s.q.fetch_add_head.head_ s.q.tail_ x
    rw [hq]
    exact pc_bound_mono _ _ _ _ _ _ (hinv.pcs j x hx) (Nat.le_succ _) (le_refl _)
  · intro t (a1 : s.q.fetch_add_head.head_ + C ≤ t) (a2 : t < s.q.tail_)
    rw [hq] at a1
    exact hinv.over t (by omega) a2

/-- Every step of every thread keeps the invariant of the counters, whatever
the capacity. -/
theorem step_counter_inv (mv : T → T) (C k : Nat) (s : System T) (a : Action T)
    (hk : k + 1 < U64) (hinv : CounterInv C k s) : CounterInv C (k + 1) (step mv s a) := by
  cases a with
  | produce i v =>
    show CounterInv C (k + 1) (producer_step i v s)
    unfold producer_step
    split
    · exact counter_inv_mono_k C k s hinv
    · rename_i hi
      exact counter_inv_producer C k i s s.q _ _ hinv hi rfl rfl rfl (le_refl _)
        (fun hw => by cases hw)
    · rename_i w h hi
      exact counter_inv_claim C k i s w h hk hinv hi
    · rename_i w h t hi
      obtain ⟨p1, p2⟩ := hinv.pcs i _ hi
      have htl := hinv.tail_le
      split
      · exact counter_inv_producer C k i s s.q _ _ hinv hi rfl rfl rfl p2
          (fun _ t' ht' => Or.inl ⟨rfl, ht'⟩)
      · rename_i hocc
        have hfit : t < s.q.head_ + C := by
          by_cases hle : h ≤ t
          · rw [mpsc_queue.occupancy_eq t h hle (by omega), hinv.size_eq] at hocc
            omega
          · omega
        exact counter_inv_producer C k i s s.q _ _ hinv hi rfl rfl rfl ⟨p2, hfit⟩
          (fun _ t' ht' => by cases ht'; exact Or.inr hfit)
    · rename_i w t hi
      have p1 := hinv.pcs i _ hi
      exact counter_inv_producer C k i s s.q _ _ hinv hi rfl rfl rfl ⟨le_refl _, p1⟩
        (fun _ t' ht' => Or.inl ⟨rfl, ht'⟩)
    · rename_i w t hi
      have p1 := hinv.pcs i _ hi
      exact counter_inv_producer C k i s (s.q.emplace_replace t w) _ _ hinv hi rfl rfl
        (mpsc_queue.size_set_slot _ _ _) p1 (fun hw => by cases hw)
    · rename_i w t hi
      split
      · exact counter_inv_mono_k C k s hinv
      · rename_i q1 hp
        have hq : q1.head_ = s.q.head_ ∧ q1.tail_ = s.q.tail_ ∧
            q1.queue_.size = s.q.queue_.size := by
          unfold mpsc_queue.emplace_publish at hp
          split at hp
          · cases hp
          · cases hp
            exact ⟨rfl, rfl, mpsc_queue.size_set_slot _ _ _⟩
        exact counter_inv_producer C k i s q1 _ _ hinv hi hq.1 hq.2.1 hq.2.2 trivial
          (fun hw => by cases hw)
  | consume wv =>
    show CounterInv C (k + 1) (consumer_step mv wv s)
    have hc := hinv.cons
    unfold consumer_step
    split
    · exact counter_inv_consumer C k s s.q _ s.val hinv rfl rfl rfl rfl
    · rename_i wv' h hcons
      rw [hcons] at hc
      exact counter_inv_consumer C k s s.q _ s.val hinv rfl rfl rfl ⟨hc, le_refl _⟩
    · rename_i wv' h t hcons
      rw [hcons] at hc
      split
      · exact counter_inv_consumer C k s s.q _ s.val hinv rfl rfl rfl trivial
      · rename_i hlt
        split
        · exact counter_inv_mono_k C k s hinv
        · rename_i e hs
          split
          · exact counter_inv_consumer C k s s.q _ s.val hinv rfl rfl rfl
              ⟨hc.1, by have := hc.2; omega⟩
          · exact counter_inv_consumer C k s s.q _ s.val hinv rfl rfl rfl trivial
    · rename_i h hcons
      rw [hcons] at hc
      split
      · exact counter_inv_mono_k C k s hinv
      · rename_i e hs
        exact counter_inv_consumer C k s _ _ _ hinv rfl rfl
          (mpsc_queue.size_set_slot _ _ _) hc
    · rename_i h hcons
      rw [hcons] at hc
      split
      · exact counter_inv_mono_k C k s hinv
      · rename_i e hs
        exact counter_inv_consumer C k s _ _ s.val hinv rfl rfl
          (mpsc_queue.size_set_slot _ _ _) hc
    · rename_i h hcons
      rw [hcons] at hc
      split
      · exact counter_inv_mono_k C k s hinv
      · rename_i e hs
        exact counter_inv_consumer C k s _ _ s.val hinv rfl rfl
          (mpsc_queue.size_set_slot _ _ _) hc
    · rename_i h hcons
      exact counter_inv_advance C k h s (by omega) hinv hcons

/-- The invariant of the counters holds after every schedule of fewer than
2 ^ 64 steps. -/
theorem run_counter_inv (mv : T → T) (C : Nat) (acts : List (Action T)) :
    ∀ (s : System T) (k : Nat), CounterInv C k s → k + acts.length < U64 →
      CounterInv C (k + acts.length) (run mv s acts) := by
  induction acts with
  | nil => intro s k hinv _; exact hinv
  | cons a acts ih =>
    intro s k hinv hlen
    simp only [List.length_cons] at hlen
    have h1 := step_counter_inv mv C k s a (by omega) hinv
    have h2 := ih (step mv s a) (k + 1) h1 (by omega)
    have e : k + (a :: acts).length = k + 1 + acts.length := by
      simp only [List.length_cons]; omega
    rw [e]
    exact h2

/-- The invariant of the counters holds at the start. -/
theorem init_counter_inv (n alloc C : Nat) (dflt : T) (mm : MemoryManager) :
    CounterInv C 0 (init n alloc C dflt mm) := by
  have hidle : ∀ (i : Nat) (pc : ProducerPC T), (init n alloc C dflt mm).producers[i]? = some pc →
      pc = ProducerPC.idle := by
    intro i pc hpc
    have : (List.replicate n (ProducerPC.idle : ProducerPC T))[i]? = some pc := hpc
    rw [List.getElem?_replicate] at this
    split at this
    · cases this; rfl
    · cases this
  refine ⟨(mpsc_queue.filled_shm_init alloc C dflt mm).2, le_refl _, le_refl _, ?_, trivial, ?_⟩
  · intro i pc hpc
    rw [hidle i pc hpc]; trivial
  · intro t (h1 : 0 + C ≤ t) (h2 : t < 0)
    omega

/-- Under the invariant of the counters, tail exceeds head + C by no more than
the number of waiting producers. -/
theorem tail_le_of_counter_inv (C k : Nat) (s : System T) (hinv : CounterInv C k s) :
    s.q.tail_ ≤ s.q.head_ + C + waiting_count s := by
  have hsub : List.range' (s.q.head_ + C) (s.q.tail_ - (s.q.head_ + C)) ⊆
      (s.producers.filter waiting).map (fun pc => (held pc).getD 0) := by
    intro t ht
    rw [List.mem_range'_1] at ht
    obtain ⟨i, pc, hi, hw, hh⟩ := hinv.over t ht.1 (by omega)
    rw [List.mem_map]
    refine ⟨pc, ?_, by rw [hh]; rfl⟩
    rw [List.mem_filter]
    exact ⟨List.mem_iff_getElem?.mpr ⟨i, hi⟩, hw⟩
  have hlen := (List.subperm_of_subset (List.nodup_range' _ _) hsub).length_le
  rw [List.length_range', List.length_map, ← List.countP_eq_length_filter] at hlen
  unfold waiting_count
  omega

end System

namespace System

variable {T : Type}

/-- C4, as amended: for every capacity C, any number `n` of producers and one
consumer, in the state reached by any schedule of fewer than 2 ^ 64 steps - the
states in which a producer inside `emplace` has incremented tail and still
waits for space included - head <= tail and tail - head is at most C plus the
number of producers that have incremented tail and have not yet passed the
space test; so `GetSize` reports at most C plus that number, and at most C when
no producer is waiting for space. -/
theorem occupancy_bound (mv : T → T) (n alloc C : Nat) (dflt : T) (mm : MemoryManager)
    (acts : List (Action T)) (hlen : acts.length < U64) :
    (run mv (init n alloc C dflt mm) acts).q.head_ ≤ (run mv (init n alloc C dflt mm) acts).q.tail_ ∧
    (run mv (init n alloc C dflt mm) acts).q.tail_ - (run mv (init n alloc C dflt mm) acts).q.head_
      ≤ C + waiting_count (run mv (init n alloc C dflt mm) acts) ∧
    (run mv (init n alloc C dflt mm) acts).q.GetSize
      ≤ C + waiting_count (run mv (init n alloc C dflt mm) acts) ∧
    (waiting_count (run mv (init n alloc C dflt mm) acts) = 0 →
      (run mv (init n alloc C dflt mm) acts).q.GetSize ≤ C) := by
  have hinv := run_counter_inv mv C acts (init n alloc C dflt mm) 0
    (init_counter_inv n alloc C dflt mm) (by omega)
  have h1 := hinv.head_le
  have h2 := tail_le_of_counter_inv C _ _ hinv
  have h3 : (run mv (init n alloc C dflt mm) acts).q.GetSize
      = (run mv (init n alloc C dflt mm) acts).q.tail_
        - (run mv (init n alloc C dflt mm) acts).q.head_ := by
    unfold mpsc_queue.GetSize
    simp only
    rw [if_neg (by omega)]
  refine ⟨h1, by omega, by omega, fun h0 => by omega⟩

theorem occupancy_bound_witness :
    overfull_schedule.length < U64 ∧
    (run id (init 2 7 1 0 ⟨[], 0⟩) overfull_schedule).q.GetSize
      ≤ 1 + waiting_count (run id (init 2 7 1 0 ⟨[], 0⟩) overfull_schedule) :=
  ⟨by decide,
   (occupancy_bound id 2 7 1 0 ⟨[], 0⟩ overfull_schedule (by decide)).2.2.1⟩

/-- C4 fails as stated: `overfull_system` is reached from a fresh queue of capacity
1 by two producers (the first has emplaced 5 and returned, the second has
incremented tail and spins for room), and there head = 0 and tail = 2:
tail - head = 2 exceeds the capacity and `GetSize` reports 2. -/
theorem occupancy_exceeds_capacity :
    overfull_system = run id (init 2 7 1 0 ⟨[], 0⟩) overfull_schedule ∧
    overfull_system.q.queue_.size = 1 ∧
    overfull_system.producers = [ProducerPC.idle, ProducerPC.spinning 6 1] ∧
    overfull_system.q.head_ = 0 ∧ overfull_system.q.tail_ = 2 ∧
    overfull_system.q.GetSize = 2 ∧
    ¬ (overfull_system.q.tail_ - overfull_system.q.head_ ≤ overfull_system.q.queue_.size) := by
  decide

end System

namespace ShmSerializer

/-! ## C12 - C14: the serializer -/

/-- The lambda of `shm_buf_size` throws on every plain-old-data argument: the type
it tests is a reference type. -/
theorem shm_buf_size_lambda_pod (ar : Bool) (captured : Nat) (bytes : List Nat) :
    shm_buf_size_lambda ar captured (Arg.pod bytes)
      = Except.error Error.IPC_ARGS_NOT_SHM_COMPATIBLE := rfl

/-- The lambda of `shm_buf_size` either throws or leaves the captured `size` as it
was. -/
theorem shm_buf_size_lambda_cases (ar : Bool) (captured : Nat) (arg : Arg) :
    shm_buf_size_lambda ar captured arg = Except.error Error.IPC_ARGS_NOT_SHM_COMPATIBLE ∨
    shm_buf_size_lambda ar captured arg = Except.ok captured := by
  unfold shm_buf_size_lambda
  simp only
  split
  · exact Or.inr rfl
  · split
    · exact Or.inr rfl
    · exact Or.inl rfl

theorem shm_buf_size_apply_cases (ar : Bool) (size : Nat) (args : List Arg) :
    shm_buf_size_apply ar size args = Except.error Error.IPC_ARGS_NOT_SHM_COMPATIBLE ∨
    shm_buf_size_apply ar size args = Except.ok size := by
  induction args with
  | nil => exact Or.inr rfl
  | cons a as ih =>
    unfold shm_buf_size_apply
    rcases shm_buf_size_lambda_cases ar size a with h | h
    · rw [h]; exact Or.inl rfl
    · rw [h]; exact ih

/-- Whatever arguments it is given, `shm_buf_size` throws or returns 0. -/
theorem shm_buf_size_cases (ar : Bool) (args : List Arg) :
    shm_buf_size ar args = Except.error Error.IPC_ARGS_NOT_SHM_COMPATIBLE ∨
    shm_buf_size ar args = Except.ok 0 :=
  shm_buf_size_apply_cases ar 0 args

/-- With a plain-old-data argument among the arguments `shm_buf_size` throws. -/
theorem shm_buf_size_apply_pod (ar : Bool) (size : Nat) (bytes : List Nat) (args : List Arg)
    (h : Arg.pod bytes ∈ args) :
    shm_buf_size_apply ar size args = Except.error Error.IPC_ARGS_NOT_SHM_COMPATIBLE := by
  induction args with
  | nil => cases h
  | cons a as ih =>
    unfold shm_buf_size_apply
    rcases List.mem_cons.mp h with e | e
    · rw [← e, shm_buf_size_lambda_pod]
    · rcases shm_buf_size_lambda_cases ar size a with h1 | h1
      · rw [h1]
      · rw [h1]; exact ih e

/-- With a plain-old-data argument among the arguments `shm_serialize` throws
before it allocates the buffer. -/
theorem shm_serialize_pod (ar : Bool) (s : ShmSerializer) (alloc : Nat) (bytes : List Nat)
    (args : List Arg) (h : Arg.pod bytes ∈ args) :
    shm_serialize ar s alloc args = Except.error Error.IPC_ARGS_NOT_SHM_COMPATIBLE := by
  unfold shm_serialize shm_buf_size
  simp only
  rw [shm_buf_size_apply_pod ar 0 bytes args h]

/-- The lambda of `shm_serialize` leaves `off_` as it was. -/
theorem shm_serialize_lambda_off (ar : Bool) (s s1 : ShmSerializer) (buf buf1 : List Nat)
    (arg : Arg) (h : shm_serialize_lambda ar s buf arg = Except.ok (buf1, s1)) : s1 = s := by
  unfold shm_serialize_lambda at h
  split at h
  · split at h
    · exact Except.noConfusion h
    · injection h with h; exact (Prod.mk.inj h).2.symm
  · split at h
    · simp only at h
      split at h
      · exact Except.noConfusion h
      · injection h with h; exact (Prod.mk.inj h).2.symm
    · exact Except.noConfusion h

/-- The reading side tests the type `T` itself and advances `off_`: from a buffer
that holds the allocator id and then the two encodings one after the other,
`shm_deserialize` and `shm_deserialize<T>` read back allocator 3 and both
arguments. -/
theorem shm_deserialize_reads_consecutive (ar : Bool) :
    construct.shm_deserialize [3, 0, 0, 0, 0, 0, 0, 0, 7, 1, 1, 1, 24, 0, 0, 0, 0, 0, 0, 0]
      = Except.ok (3, ⟨8⟩) ∧
    shm_deserialize_args ar ⟨8⟩ 3 [3, 0, 0, 0, 0, 0, 0, 0, 7, 1, 1, 1, 24, 0, 0, 0, 0, 0, 0, 0]
        [ArgT.pod 4, ArgT.archive]
      = Except.ok ([Arg.pod [7, 1, 1, 1], Arg.archive 24], ⟨20⟩) :=
  ⟨rfl, rfl⟩

/-- C13 fails on the code: `shm_buf_size(x)` with one `int` x (four bytes) throws
IPC_ARGS_NOT_SHM_COMPATIBLE, where the claim gives 4, and so does every call
whose first argument is plain old data: the lambda tests
`std::is_pod<decltype(arg)>` on a parameter declared `auto &&arg`, a reference
type, which is never plain old data (line 23), and so reaches the `throw` of
line 28. Whatever `IS_SHM_ARCHIVEABLE` answers for a reference, no call returns
the sum the claim describes unless that sum is 0: a call that does not throw
returns 0, because the lambda adds to a variable `size` of its own (line 22);
for one archivable argument, where 8 bytes are needed, the code returns 0 or
throws. -/
theorem shm_buf_size_throws_on_pod (ar : Bool) (bytes : List Nat) (rest : List Arg) :
    shm_buf_size ar [Arg.pod [7, 0, 0, 0]] = Except.error Error.IPC_ARGS_NOT_SHM_COMPATIBLE ∧
    shm_buf_size_spec [Arg.pod [7, 0, 0, 0]] = 4 ∧
    shm_buf_size ar (Arg.pod bytes :: rest) = Except.error Error.IPC_ARGS_NOT_SHM_COMPATIBLE ∧
    shm_buf_size true [Arg.archive 24] = Except.ok 0 ∧
    shm_buf_size false [Arg.archive 24] = Except.error Error.IPC_ARGS_NOT_SHM_COMPATIBLE ∧
    shm_buf_size_spec [Arg.archive 24] = 8 :=
  ⟨rfl, rfl, rfl, rfl, rfl, rfl⟩

/-- C14 fails on the code: `shm_serialize(alloc, x)` with allocator id 3 and one
`int` x = 7 returns no buffer: it throws IPC_ARGS_NOT_SHM_COMPATIBLE inside
`shm_buf_size` (line 38), before the buffer is allocated, and so does every call
whose first argument is plain old data; the lambda of `shm_serialize` itself
throws on a plain-old-data argument before any `memcpy` (lines 44 and 50),
because `decltype(arg)` is a reference type. Only the call without arguments
returns the buffer the claim describes. Behind the throw lie two more defects,
seen on archivable arguments when `IS_SHM_ARCHIVEABLE` accepts a reference: the
buffer has `sizeof(allocator_id) + 0 = 8` bytes, so that the first
`OffsetPointer` is copied outside it, and in a buffer with room the lambda
writes both arguments at offset 8 (`off_` stays 8), the second over the
first. -/
theorem shm_serialize_throws_on_pod (ar : Bool) (s : ShmSerializer) (alloc : Nat)
    (bytes buf : List Nat) (rest : List Arg) :
    shm_serialize ar construct 3 [Arg.pod [7, 0, 0, 0]]
      = Except.error Error.IPC_ARGS_NOT_SHM_COMPATIBLE ∧
    shm_serialize ar s alloc (Arg.pod bytes :: rest)
      = Except.error Error.IPC_ARGS_NOT_SHM_COMPATIBLE ∧
    shm_serialize_lambda ar s buf (Arg.pod bytes)
      = Except.error Error.IPC_ARGS_NOT_SHM_COMPATIBLE ∧
    shm_serialize ar construct 3 [] = Except.ok ([3, 0, 0, 0, 0, 0, 0, 0], ⟨8⟩) ∧
    shm_serialize true construct 3 [Arg.archive 24] = Except.error Error.undefined_behaviour ∧
    shm_serialize_apply true ⟨8⟩ (List.replicate 24 0) [Arg.archive 24, Arg.archive 40]
      = Except.ok ([0, 0, 0, 0, 0, 0, 0, 0, 40, 0, 0, 0, 0, 0, 0, 0,
          0, 0, 0, 0, 0, 0, 0, 0], ⟨8⟩) :=
  ⟨rfl, rfl, rfl, rfl, rfl, rfl⟩

/-- C12 fails on the code: the round trip of allocator 3 with one `int` argument
x = 7 gives nothing back, because `shm_serialize` throws
IPC_ARGS_NOT_SHM_COMPATIBLE, and so does the round trip of every argument list
whose first argument is plain old data; `decltype(arg)` in the lambdas of
lines 21 and 43 is a reference type, which `std::is_pod` rejects. Only the round
trip of an empty argument list succeeds. The reading side, which tests the type
`T` itself, would read an `int` back from a buffer laid out as the claim
describes. -/
theorem round_trip_throws_on_pod (ar : Bool) (alloc : Nat) (bytes : List Nat) (rest : List Arg) :
    round_trip ar 3 [Arg.pod [7, 0, 0, 0]] = Except.error Error.IPC_ARGS_NOT_SHM_COMPATIBLE ∧
    round_trip ar alloc (Arg.pod bytes :: rest)
      = Except.error Error.IPC_ARGS_NOT_SHM_COMPATIBLE ∧
    round_trip ar 3 [] = Except.ok (3, []) ∧
    shm_deserialize_args ar ⟨8⟩ 3 [3, 0, 0, 0, 0, 0, 0, 0, 7, 0, 0, 0] [ArgT.pod 4]
      = Except.ok ([Arg.pod [7, 0, 0, 0]], ⟨12⟩) :=
  ⟨rfl, rfl, rfl, rfl⟩

end ShmSerializer

/-! ## Flags of a backend -/

theorem any_one (b : bitfield32_t) : b.Any 1 = b.bits_.testBit 0 := by
  have h := Nat.and_two_pow b.bits_ 0
  simp only [pow_zero, mul_one] at h
  unfold bitfield32_t.Any
  rw [h]
  cases b.bits_.testBit 0 <;> rfl

theorem any_two (b : bitfield32_t) : b.Any 2 = b.bits_.testBit 1 := by
  have h := Nat.and_two_pow b.bits_ 1
  simp only [pow_one] at h
  unfold bitfield32_t.Any
  rw [h]
  cases b.bits_.testBit 1 <;> rfl

theorem testBit_SetBits (b : bitfield32_t) (m i : Nat) :
    (b.SetBits m).bits_.testBit i = (decide (i < 32) && (b.bits_.testBit i || m.testBit i)) := by
  show ((b.bits_ ||| m) % 2 ^ 32).testBit i = _
  rw [Nat.testBit_mod_two_pow, Nat.testBit_lor]

theorem testBit_UnsetBits (b : bitfield32_t) (m i : Nat) :
    (b.UnsetBits m).bits_.testBit i
      = (b.bits_.testBit i && (m.testBit i ^^ decide (i < 32))) := by
  show (b.bits_ &&& (m ^^^ (2 ^ 32 - 1))).testBit i = _
  rw [Nat.testBit_land, Nat.testBit_xor, Nat.testBit_two_pow_sub_one]

namespace PosixShmMmap

theorem IsInitialized_SetInitialized (h : PosixShmMmap) : h.SetInitialized.IsInitialized = true := by
  show (h.flags_.SetBits 1).Any 1 = true
  rw [any_one, testBit_SetBits]
  generalize h.flags_.bits_.testBit 0 = x
  cases x <;> decide

theorem IsInitialized_UnsetInitialized (h : PosixShmMmap) :
    h.UnsetInitialized.IsInitialized = false := by
  show (h.flags_.UnsetBits 1).Any 1 = false
  rw [any_one, testBit_UnsetBits]
  generalize h.flags_.bits_.testBit 0 = x
  cases x <;> decide

theorem IsInitialized_Own (h : PosixShmMmap) : h.Own.IsInitialized = h.IsInitialized := by
  show (h.flags_.SetBits 2).Any 1 = h.flags_.Any 1
  rw [any_one, any_one, testBit_SetBits]
  generalize h.flags_.bits_.testBit 0 = x
  cases x <;> decide

theorem IsInitialized_Disown (h : PosixShmMmap) : h.Disown.IsInitialized = h.IsInitialized := by
  show (h.flags_.UnsetBits 2).Any 1 = h.flags_.Any 1
  rw [any_one, any_one, testBit_UnsetBits]
  generalize h.flags_.bits_.testBit 0 = x
  cases x <;> decide

theorem IsOwned_Own (h : PosixShmMmap) : h.Own.IsOwned = true := by
  show (h.flags_.SetBits 2).Any 2 = true
  rw [any_two, testBit_SetBits]
  generalize h.flags_.bits_.testBit 1 = x
  cases x <;> decide

theorem IsOwned_Disown (h : PosixShmMmap) : h.Disown.IsOwned = false := by
  show (h.flags_.UnsetBits 2).Any 2 = false
  rw [any_two, testBit_UnsetBits]
  generalize h.flags_.bits_.testBit 1 = x
  cases x <;> decide

theorem IsOwned_SetInitialized (h : PosixShmMmap) : h.SetInitialized.IsOwned = h.IsOwned := by
  show (h.flags_.SetBits 1).Any 2 = h.flags_.Any 2
  rw [any_two, any_two, testBit_SetBits]
  generalize h.flags_.bits_.testBit 1 = x
  cases x <;> decide

theorem IsOwned_UnsetInitialized (h : PosixShmMmap) : h.UnsetInitialized.IsOwned = h.IsOwned := by
  show (h.flags_.UnsetBits 1).Any 2 = h.flags_.Any 2
  rw [any_two, any_two, testBit_UnsetBits]
  generalize h.flags_.bits_.testBit 1 = x
  cases x <;> decide

end PosixShmMmap

namespace OS

theorem lookup_filter_ne (names : List (chararr × Nat)) (url : chararr) :
    List.lookup url (names.filter (fun p => p.1 != url)) = none := by
  induction names with
  | nil => rfl
  | cons p ps ih =>
    obtain ⟨k, b⟩ := p
    by_cases h : k = url
    · rw [List.filter_cons_of_neg (by simp [h])]
      exact ih
    · have h' : (url == k) = false := by
        simp only [beq_eq_false_iff_ne, ne_eq]
        exact fun e => h e.symm
      rw [List.filter_cons_of_pos (by simp [h]), List.lookup_cons, h']
      exact ih

theorem lookup_shm_unlink (os : OS) (url : chararr) (hurl : url ≠ "") :
    (os.shm_unlink url).lookup url = none := by
  simp only [shm_unlink, hurl, if_false, lookup]
  exact lookup_filter_ne os.names url

theorem fd_object_new (os : OS) (fds : List (Option Nat)) (obj : Nat) (h : os.fds = fds ++ [some obj]) :
    os.fd_object (fds.length : Int) = some obj := by
  have h0 : ¬ ((fds.length : Int) < 0) := by omega
  simp only [fd_object, h0, if_false, Int.toNat_ofNat, h, List.getElem?_concat_length]
  rfl

end OS

namespace OS

theorem shm_open_after_unlink (os : OS) (url : chararr) (hurl : url ≠ "") :
    (os.shm_unlink url).shm_open url true
      = ((os.fds.length : Int),
         { page_size_ := os.page_size_,
           names := (url, os.objects.length) :: os.names.filter (fun p => p.1 != url),
           objects := os.objects ++ [⟨0, ShmObject.zero_header⟩],
           fds := os.fds ++ [some os.objects.length],
           maps := os.maps }) := by
  have hl := lookup_shm_unlink os url hurl
  simp only [shm_open, hurl, if_false, hl]
  simp [shm_unlink, hurl]

theorem off64_t_of_lt (n : Nat) (h : n < 2 ^ 63) : off64_t (n % U64) = (n : Int) := by
  have h1 : n % U64 = n := Nat.mod_eq_of_lt (by simp only [U64]; omega)
  simp only [off64_t, h1, h, if_true]

theorem ftruncate64_new (pg : Nat) (N : List (chararr × Nat)) (O : List ShmObject)
    (o : ShmObject) (F : List (Option Nat)) (M : List (Option Mapping)) (len : Nat) :
    ftruncate64 ⟨pg, N, O ++ [o], F ++ [some O.length], M⟩ (F.length : Int) (len : Int)
      = (0, ⟨pg, N, O ++ [{ o with size := len }], F ++ [some O.length], M⟩) := by
  have hfd : fd_object ⟨pg, N, O ++ [o], F ++ [some O.length], M⟩ (F.length : Int)
      = some O.length := fd_object_new _ F O.length rfl
  have h0 : ¬ ((len : Int) < 0) := by omega
  simp only [ftruncate64, hfd, h0, if_false, List.getElem?_concat_length, Int.toNat_ofNat]
  rw [List.set_append_right _ _ (Nat.le_refl _)]
  simp

theorem mmap64_new (pg : Nat) (N : List (chararr × Nat)) (O : List ShmObject)
    (F : List (Option Nat)) (n : Nat) (M : List (Option Mapping)) (len off : Nat)
    (hlen : 0 < len) (hoff : off % pg = 0) (hfit : off + len < 2 ^ 63) :
    mmap64 ⟨pg, N, O, F ++ [some n], M⟩ len (F.length : Int) off
      = (some M.length, ⟨pg, N, O, F ++ [some n], M ++ [some ⟨n, off, len⟩]⟩) := by
  have hfd : fd_object ⟨pg, N, O, F ++ [some n], M⟩ (F.length : Int) = some n :=
    fd_object_new _ F n rfl
  have hc : ¬ (len = 0 ∨ off % pg ≠ 0 ∨ 2 ^ 63 ≤ off + len) := by omega
  simp only [mmap64, hfd, hc, if_false]

end OS

namespace OS

theorem header_object_of (os : OS) (a n len : Nat) (o : ShmObject)
    (hm : os.maps[a]? = some (some ⟨n, 0, len⟩)) (hlen : sizeof_MemoryBackendHeader ≤ len)
    (ho : os.objects[n]? = some o) (hsz : sizeof_MemoryBackendHeader ≤ o.size) :
    os.header_object (some a) = some n := by
  simp only [header_object, hm, hlen, ho, hsz, and_self, if_true]

theorem load_header_of (os : OS) (a n len : Nat) (o : ShmObject)
    (hm : os.maps[a]? = some (some ⟨n, 0, len⟩)) (hlen : sizeof_MemoryBackendHeader ≤ len)
    (ho : os.objects[n]? = some o) (hsz : sizeof_MemoryBackendHeader ≤ o.size) :
    os.load_header (some a) = some o.header := by
  simp only [load_header, header_object_of os a n len o hm hlen ho hsz, ho, Option.map_some']

theorem store_header_of (os : OS) (a n len : Nat) (o : ShmObject)
    (f : MemoryBackendHeader → MemoryBackendHeader)
    (hm : os.maps[a]? = some (some ⟨n, 0, len⟩)) (hlen : sizeof_MemoryBackendHeader ≤ len)
    (ho : os.objects[n]? = some o) (hsz : sizeof_MemoryBackendHeader ≤ o.size) :
    os.store_header (some a) f
      = some { os with objects := os.objects.set n { o with header := f o.header } } := by
  simp only [store_header, header_object_of os a n len o hm hlen ho hsz, ho]

theorem store_header_new (pg : Nat) (N : List (chararr × Nat)) (O : List ShmObject)
    (o : ShmObject) (F : List (Option Nat)) (M : List (Option Mapping)) (a len : Nat)
    (f : MemoryBackendHeader → MemoryBackendHeader)
    (hm : M[a]? = some (some ⟨O.length, 0, len⟩)) (hlen : sizeof_MemoryBackendHeader ≤ len)
    (hsz : sizeof_MemoryBackendHeader ≤ o.size) :
    store_header ⟨pg, N, O ++ [o], F, M⟩ (some a) f
      = some ⟨pg, N, O ++ [⟨o.size, f o.header⟩], F, M⟩ := by
  rw [store_header_of ⟨pg, N, O ++ [o], F, M⟩ a O.length len o f hm hlen
    (List.getElem?_concat_length _ _) hsz]
  show some (OS.mk pg N ((O ++ [o]).set O.length ⟨o.size, f o.header⟩) F M) = _
  rw [List.set_append_right _ _ (Nat.le_refl _)]
  simp

theorem load_header_new (pg : Nat) (N : List (chararr × Nat)) (O : List ShmObject)
    (o : ShmObject) (F : List (Option Nat)) (M : List (Option Mapping)) (a len : Nat)
    (hm : M[a]? = some (some ⟨O.length, 0, len⟩)) (hlen : sizeof_MemoryBackendHeader ≤ len)
    (hsz : sizeof_MemoryBackendHeader ≤ o.size) :
    load_header ⟨pg, N, O ++ [o], F, M⟩ (some a) = some o.header :=
  load_header_of ⟨pg, N, O ++ [o], F, M⟩ a O.length len o hm hlen
    (List.getElem?_concat_length _ _) hsz

end OS

namespace PosixShmMmap

theorem shm_init_ok (h : PosixShmMmap) (os : OS) (id : MemoryBackendId) (size : Nat)
    (url : chararr) (hurl : url ≠ "") (hsize : 0 < size)
    (hfit : size + os.page_size_ < 2 ^ 63)
    (hpage : sizeof_MemoryBackendHeader ≤ os.page_size_) :
    h.shm_init os id size url
      = Except.ok (true,
          { header_ := some os.maps.length, data_ := some (os.maps.length + 1),
            data_size_ := size, flags_ := h.SetInitialized.Own.flags_,
            fd_ := (os.fds.length : Int), url_ := url },
          { page_size_ := os.page_size_,
            names := (url, os.objects.length) :: os.names.filter (fun p => p.1 != url),
            objects := os.objects ++
              [⟨size + os.page_size_, ⟨MemoryBackendType.kPosixShmMmap, id, size⟩⟩],
            fds := os.fds ++ [some os.objects.length],
            maps := os.maps ++ [some ⟨os.objects.length, 0, os.page_size_⟩,
                                some ⟨os.objects.length, os.page_size_, size⟩] }) := by
  have hpg : 16 ≤ os.page_size_ := hpage
  have h0 : ¬ ((os.fds.length : Int) < 0) := by omega
  have hmap1 := OS.mmap64_new os.page_size_
    ((url, os.objects.length) :: os.names.filter (fun p => p.1 != url))
    (os.objects ++ [⟨size + os.page_size_, ShmObject.zero_header⟩])
    os.fds os.objects.length os.maps os.page_size_ 0 (by omega) (Nat.zero_mod _) (by omega)
  have hst := OS.store_header_new os.page_size_
    ((url, os.objects.length) :: os.names.filter (fun p => p.1 != url)) os.objects
    ⟨size + os.page_size_, ShmObject.zero_header⟩ (os.fds ++ [some os.objects.length])
    (os.maps ++ [some ⟨os.objects.length, 0, os.page_size_⟩]) os.maps.length os.page_size_
    (fun _ => ⟨MemoryBackendType.kPosixShmMmap, id, size⟩)
    (List.getElem?_concat_length _ _) hpage (by show 16 ≤ size + os.page_size_; omega)
  have hmap2 := OS.mmap64_new os.page_size_
    ((url, os.objects.length) :: os.names.filter (fun p => p.1 != url))
    (os.objects ++ [⟨size + os.page_size_, ⟨MemoryBackendType.kPosixShmMmap, id, size⟩⟩])
    os.fds os.objects.length (os.maps ++ [some ⟨os.objects.length, 0, os.page_size_⟩])
    size os.page_size_ hsize (Nat.mod_self _) (by omega)
  simp only [shm_init, OS.shm_open_after_unlink os url hurl, h0, if_false, _Reserve,
    OS.off64_t_of_lt _ hfit, OS.ftruncate64_new, lt_irrefl, _Map, _ShmMap, hmap1, hst, hmap2]
  simp

end PosixShmMmap

namespace OS

theorem shm_open_existing (os : OS) (url : chararr) (obj : Nat) (O_CREAT : Bool)
    (hurl : url ≠ "") (hl : os.lookup url = some obj) :
    os.shm_open url O_CREAT
      = ((os.fds.length : Int),
         ⟨os.page_size_, os.names, os.objects, os.fds ++ [some obj], os.maps⟩) := by
  simp only [shm_open, hurl, if_false, hl]

theorem shm_open_missing (os : OS) (url : chararr) (hl : os.lookup url = none) :
    os.shm_open url false = (-1, os) := by
  by_cases hurl : url = ""
  · simp only [shm_open, hurl, if_true]
  · simp [shm_open, hurl, hl]

end OS

namespace PosixShmMmap

theorem shm_deserialize_ok (h : PosixShmMmap) (os : OS) (url : chararr) (n : Nat) (o : ShmObject)
    (hurl : url ≠ "") (hl : os.lookup url = some n) (ho : os.objects[n]? = some o)
    (hsz : sizeof_MemoryBackendHeader ≤ o.size)
    (hpage : sizeof_MemoryBackendHeader ≤ os.page_size_)
    (hdata : 0 < o.header.data_size_)
    (hfit : o.header.data_size_ + os.page_size_ < 2 ^ 63) :
    h.shm_deserialize os url
      = Except.ok (true,
          { header_ := some os.maps.length, data_ := some (os.maps.length + 1),
            data_size_ := o.header.data_size_, flags_ := h.SetInitialized.Disown.flags_,
            fd_ := (os.fds.length : Int), url_ := h.url_ },
          { page_size_ := os.page_size_, names := os.names, objects := os.objects,
            fds := os.fds ++ [some n],
            maps := os.maps ++ [some ⟨n, 0, os.page_size_⟩,
                                some ⟨n, os.page_size_, o.header.data_size_⟩] }) := by
  have hpg : 16 ≤ os.page_size_ := hpage
  have h0 : ¬ ((os.fds.length : Int) < 0) := by omega
  have hmap1 := OS.mmap64_new os.page_size_ os.names os.objects os.fds n os.maps
    os.page_size_ 0 (by omega) (Nat.zero_mod _) (by omega)
  have hld := OS.load_header_of
    (⟨os.page_size_, os.names, os.objects, os.fds ++ [some n],
      os.maps ++ [some ⟨n, 0, os.page_size_⟩]⟩ : OS)
    os.maps.length n os.page_size_ o (List.getElem?_concat_length _ _) hpage ho hsz
  have hmap2 := OS.mmap64_new os.page_size_ os.names os.objects os.fds n
    (os.maps ++ [some ⟨n, 0, os.page_size_⟩]) o.header.data_size_ os.page_size_ hdata
    (Nat.mod_self _) (by omega)
  simp only [shm_deserialize, OS.shm_open_existing os url n false hurl hl, h0, if_false, _Map,
    _ShmMap, hmap1, hld, hmap2]
  simp
  rfl

theorem shm_deserialize_missing (h : PosixShmMmap) (os : OS) (url : chararr)
    (hl : os.lookup url = none) :
    h.shm_deserialize os url
      = Except.ok (false, { h.SetInitialized.Disown with fd_ := -1 }, os) := by
  simp only [shm_deserialize, OS.shm_open_missing os url hl]
  rfl

end PosixShmMmap

namespace OS

theorem getElem?_append_pair_fst {α : Type} (M : List α) (a b : α) :
    (M ++ [a, b])[M.length]? = some a := by
  rw [List.getElem?_append_right (Nat.le_refl _)]
  simp

theorem getElem?_append_pair_snd {α : Type} (M : List α) (a b : α) :
    (M ++ [a, b])[M.length + 1]? = some b := by
  rw [List.getElem?_append_right (by omega)]
  simp

theorem lookup_cons_self (url : chararr) (n : Nat) (names : List (chararr × Nat)) :
    List.lookup url ((url, n) :: names) = some n := by
  simp [List.lookup_cons]

theorem unmapped_set (M : List (Option Mapping)) (a : Nat) :
    ((M.set a none)[a]?).join = none := by
  by_cases h : a < M.length
  · simp [List.getElem?_set, h]
  · simp [List.getElem?_set, h]

theorem unmapped_set_of (M : List (Option Mapping)) (a b : Nat) (h : (M[a]?).join = none) :
    ((M.set b none)[a]?).join = none := by
  by_cases hab : b = a
  · rw [hab]; exact unmapped_set M a
  · rw [List.getElem?_set_ne hab]; exact h

theorem unmapped_munmap (os : OS) (ptr : Option Nat) (len a : Nat) (h : ptr = some a) :
    (((os.munmap ptr len).maps)[a]?).join = none := by
  rw [h]
  exact unmapped_set os.maps a

theorem unmapped_munmap_of (os : OS) (ptr : Option Nat) (len a : Nat)
    (h : ((os.maps)[a]?).join = none) : (((os.munmap ptr len).maps)[a]?).join = none := by
  cases ptr with
  | none => exact h
  | some b => exact unmapped_set_of os.maps a b h

theorem fd_object_close (os : OS) (fd : Int) : (os.close fd).fd_object fd = none := by
  by_cases h : fd < 0
  · simp [fd_object, h]
  · simp only [fd_object, h, if_false, close]
    by_cases hl : fd.toNat < os.fds.length
    · simp [List.getElem?_set, hl]
    · simp [List.getElem?_set, hl]

end OS

namespace PosixShmMmap

theorem shm_detach_of_not_initialized (s : PosixShmMmap × OS) (h : s.1.IsInitialized = false) :
    shm_detach s = s := by
  simp [shm_detach, _Detach, _ShmDetach, h]

theorem shm_detach_of_initialized (s : PosixShmMmap × OS) (h : s.1.IsInitialized = true) :
    shm_detach s
      = (s.1.UnsetInitialized,
         (((s.2.munmap s.1.data_ s.1.data_size_).munmap s.1.header_ s.2.page_size_).close
            s.1.fd_)) := by
  simp only [shm_detach, _Detach, _ShmDetach, h, Bool.not_true, Bool.false_eq_true, if_false]
  cases s.1.data_ <;> rfl

theorem shm_destroy_of_initialized (s : PosixShmMmap × OS) (h : s.1.IsInitialized = true) :
    shm_destroy s
      = ((shm_detach s).1.UnsetInitialized, (shm_detach s).2.shm_unlink s.1.url_) := by
  simp only [shm_destroy, _Destroy, h, Bool.not_true, Bool.false_eq_true, if_false]
  rw [show _Detach s = shm_detach s from rfl, shm_detach_of_initialized s h]
  rfl

theorem shm_detach_frame (s : PosixShmMmap × OS) :
    (shm_detach s).2.names = s.2.names ∧ (shm_detach s).2.objects = s.2.objects ∧
    (shm_detach s).2.page_size_ = s.2.page_size_ ∧
    (shm_detach s).1.IsOwned = s.1.IsOwned ∧ (shm_detach s).1.IsInitialized = false := by
  cases h : s.1.IsInitialized
  · rw [shm_detach_of_not_initialized s h]
    exact ⟨rfl, rfl, rfl, rfl, h⟩
  · rw [shm_detach_of_initialized s h]
    refine ⟨?_, ?_, ?_, IsOwned_UnsetInitialized _, IsInitialized_UnsetInitialized _⟩
    · cases s.1.data_ <;> cases s.1.header_ <;> simp only [OS.close, OS.munmap] <;> split <;> rfl
    · cases s.1.data_ <;> cases s.1.header_ <;> simp only [OS.close, OS.munmap] <;> split <;> rfl
    · cases s.1.data_ <;> cases s.1.header_ <;> simp only [OS.close, OS.munmap] <;> split <;> rfl

end PosixShmMmap

namespace PosixShmMmap

/-! ## C15 - C19: the lifecycle of a POSIX shared-memory backend -/

/-- C15: `shm_init(id, size, url)` when the creation of the OS object succeeds,
that is when each OS call of `shm_init` succeeds: `shm_open` (the url is not
empty), `ftruncate64` (`size + page_size` fits a signed 64-bit offset) and both
`mmap64` (the header fits the header page, and `size > 0`). The call returns
true; afterwards `url` names an object that did not exist before, of
`size + page_size` bytes, whose header at byte 0 is {kPosixShmMmap, id, size},
also when read through `header_`; `data_size_` is `size`, `data_` is the address
of a region of `size` bytes mapped at offset `page_size` of that object; and the
handle is Owned and Initialized. -/
theorem shm_init_creates (h : PosixShmMmap) (os : OS) (id : MemoryBackendId) (size : Nat)
    (url : chararr) (hurl : url ≠ "") (hsize : 0 < size)
    (hfit : size + os.page_size_ < 2 ^ 63)
    (hpage : sizeof_MemoryBackendHeader ≤ os.page_size_) :
    ∃ h1 os1, h.shm_init os id size url = Except.ok (true, h1, os1) ∧
      os.objects[os.objects.length]? = none ∧
      os1.lookup url = some os.objects.length ∧
      os1.objects[os.objects.length]?
        = some ⟨size + os.page_size_, ⟨MemoryBackendType.kPosixShmMmap, id, size⟩⟩ ∧
      os1.load_header h1.header_ = some ⟨MemoryBackendType.kPosixShmMmap, id, size⟩ ∧
      h1.data_size_ = size ∧
      (∃ a, h1.data_ = some a ∧
        os1.maps[a]? = some (some ⟨os.objects.length, os.page_size_, size⟩)) ∧
      h1.IsOwned = true ∧ h1.IsInitialized = true := by
  refine ⟨_, _, shm_init_ok h os id size url hurl hsize hfit hpage, ?_, ?_, ?_, ?_, rfl, ?_, ?_, ?_⟩
  · simp
  · exact OS.lookup_cons_self _ _ _
  · exact List.getElem?_concat_length _ _
  · refine OS.load_header_new _ _ _ _ _ _ os.maps.length os.page_size_ ?_ hpage ?_
    · exact OS.getElem?_append_pair_fst _ _ _
    · have hpg : 16 ≤ os.page_size_ := hpage
      show 16 ≤ size + os.page_size_
      omega
  · exact ⟨os.maps.length + 1, rfl, OS.getElem?_append_pair_snd _ _ _⟩
  · exact IsOwned_Own _
  · show h.SetInitialized.Own.IsInitialized = true
    rw [IsInitialized_Own, IsInitialized_SetInitialized]

theorem shm_init_creates_witness :
    ∃ h1 os1,
      (construct 0).shm_init (OS.boot 4096) ⟨3⟩ 8192 "/hermes" = Except.ok (true, h1, os1) ∧
      (OS.boot 4096).objects[(OS.boot 4096).objects.length]? = none ∧
      os1.lookup "/hermes" = some (OS.boot 4096).objects.length ∧
      os1.objects[(OS.boot 4096).objects.length]?
        = some ⟨8192 + (OS.boot 4096).page_size_, ⟨MemoryBackendType.kPosixShmMmap, ⟨3⟩, 8192⟩⟩ ∧
      os1.load_header h1.header_ = some ⟨MemoryBackendType.kPosixShmMmap, ⟨3⟩, 8192⟩ ∧
      h1.data_size_ = 8192 ∧
      (∃ a, h1.data_ = some a ∧
        os1.maps[a]?
          = some (some ⟨(OS.boot 4096).objects.length, (OS.boot 4096).page_size_, 8192⟩)) ∧
      h1.IsOwned = true ∧ h1.IsInitialized = true :=
  shm_init_creates (construct 0) (OS.boot 4096) ⟨3⟩ 8192 "/hermes" (by decide) (by decide)
    (by decide) (by decide)

end PosixShmMmap

namespace PosixShmMmap

theorem init_then_deserialize (h h' : PosixShmMmap) (os : OS) (id : MemoryBackendId)
    (size : Nat) (url : chararr) (hurl : url ≠ "") (hsize : 0 < size)
    (hfit : size + os.page_size_ < 2 ^ 63)
    (hpage : sizeof_MemoryBackendHeader ≤ os.page_size_) :
    ∃ h1 os1 h2 os2, h.shm_init os id size url = Except.ok (true, h1, os1) ∧
      h'.shm_deserialize os1 url = Except.ok (true, h2, os2) ∧
      h2.data_size_ = size ∧ h2.data_size_ = h1.data_size_ ∧
      os2.load_header h2.header_ = some ⟨MemoryBackendType.kPosixShmMmap, id, size⟩ ∧
      os2.load_header h1.header_ = os2.load_header h2.header_ ∧
      h2.IsInitialized = true ∧ h2.IsOwned = false ∧
      h2.url_ = h'.url_ ∧
      os2.lookup url = some os.objects.length ∧
      os2.objects[os.objects.length]?
        = some ⟨size + os.page_size_, ⟨MemoryBackendType.kPosixShmMmap, id, size⟩⟩ ∧
      os2.page_size_ = os.page_size_ := by
  have hpg : 16 ≤ os.page_size_ := hpage
  have hsz : sizeof_MemoryBackendHeader ≤ size + os.page_size_ := by
    show 16 ≤ size + os.page_size_
    omega
  have hd := shm_deserialize_ok h'
    { page_size_ := os.page_size_,
      names := (url, os.objects.length) :: os.names.filter (fun p => p.1 != url),
      objects := os.objects ++
        [⟨size + os.page_size_, ⟨MemoryBackendType.kPosixShmMmap, id, size⟩⟩],
      fds := os.fds ++ [some os.objects.length],
      maps := os.maps ++ [some ⟨os.objects.length, 0, os.page_size_⟩,
                          some ⟨os.objects.length, os.page_size_, size⟩] }
    url os.objects.length ⟨size + os.page_size_, ⟨MemoryBackendType.kPosixShmMmap, id, size⟩⟩
    hurl (OS.lookup_cons_self _ _ _) (List.getElem?_concat_length _ _) hsz hpage hsize hfit
  have hl2 : OS.load_header
      { page_size_ := os.page_size_,
        names := (url, os.objects.length) :: os.names.filter (fun p => p.1 != url),
        objects := os.objects ++
          [⟨size + os.page_size_, ⟨MemoryBackendType.kPosixShmMmap, id, size⟩⟩],
        fds := os.fds ++ [some os.objects.length] ++ [some os.objects.length],
        maps := (os.maps ++ [some ⟨os.objects.length, 0, os.page_size_⟩,
                            some ⟨os.objects.length, os.page_size_, size⟩]) ++
                [some (Mapping.mk os.objects.length 0 os.page_size_),
                 some (Mapping.mk os.objects.length os.page_size_ size)] }
      (some (os.maps ++ [some (Mapping.mk os.objects.length 0 os.page_size_),
                         some (Mapping.mk os.objects.length os.page_size_ size)]).length)
      = some ⟨MemoryBackendType.kPosixShmMmap, id, size⟩ :=
    OS.load_header_new _ _ _ _ _ _ _ os.page_size_ (OS.getElem?_append_pair_fst _ _ _) hpage hsz
  have hl1 : OS.load_header
      { page_size_ := os.page_size_,
        names := (url, os.objects.length) :: os.names.filter (fun p => p.1 != url),
        objects := os.objects ++
          [⟨size + os.page_size_, ⟨MemoryBackendType.kPosixShmMmap, id, size⟩⟩],
        fds := os.fds ++ [some os.objects.length] ++ [some os.objects.length],
        maps := (os.maps ++ [some ⟨os.objects.length, 0, os.page_size_⟩,
                            some ⟨os.objects.length, os.page_size_, size⟩]) ++
                [some (Mapping.mk os.objects.length 0 os.page_size_),
                 some (Mapping.mk os.objects.length os.page_size_ size)] }
      (some os.maps.length)
      = some ⟨MemoryBackendType.kPosixShmMmap, id, size⟩ := by
    refine OS.load_header_new _ _ _ _ _ _ _ os.page_size_ ?_ hpage hsz
    rw [List.getElem?_append_left (by simp)]
    exact OS.getElem?_append_pair_fst _ _ _
  refine ⟨_, _, _, _, shm_init_ok h os id size url hurl hsize hfit hpage, hd, rfl, rfl, hl2,
    hl1.trans hl2.symm, ?_, ?_, rfl, OS.lookup_cons_self _ _ _, List.getElem?_concat_length _ _,
    rfl⟩
  · show h'.SetInitialized.Disown.IsInitialized = true
    rw [IsInitialized_Disown, IsInitialized_SetInitialized]
  · exact IsOwned_Disown _

/-- C16: after a successful `shm_init(id, size, url)` on one handle (under the
conditions of success of its OS calls), `shm_deserialize(url)` on a second
handle, whatever its state, returns true; the second handle then has
`data_size_ = size`, as the first has; the header read through its `header_` is
the header read through the `header_` of the first handle and carries `id`; and
the second handle is Initialized and not Owned. -/
theorem shm_deserialize_after_init (h h' : PosixShmMmap) (os : OS) (id : MemoryBackendId)
    (size : Nat) (url : chararr) (hurl : url ≠ "") (hsize : 0 < size)
    (hfit : size + os.page_size_ < 2 ^ 63)
    (hpage : sizeof_MemoryBackendHeader ≤ os.page_size_) :
    ∃ h1 os1 h2 os2, h.shm_init os id size url = Except.ok (true, h1, os1) ∧
      h'.shm_deserialize os1 url = Except.ok (true, h2, os2) ∧
      h2.data_size_ = size ∧ h2.data_size_ = h1.data_size_ ∧
      os2.load_header h2.header_ = some ⟨MemoryBackendType.kPosixShmMmap, id, size⟩ ∧
      os2.load_header h1.header_ = os2.load_header h2.header_ ∧
      h2.IsInitialized = true ∧ h2.IsOwned = false := by
  obtain ⟨h1, os1, h2, os2, e1, e2, a1, a2, a3, a4, a5, a6, _⟩ :=
    init_then_deserialize h h' os id size url hurl hsize hfit hpage
  exact ⟨h1, os1, h2, os2, e1, e2, a1, a2, a3, a4, a5, a6⟩

theorem shm_deserialize_after_init_witness :
    ∃ h1 os1 h2 os2,
      (construct 0).shm_init (OS.boot 4096) ⟨3⟩ 8192 "/hermes" = Except.ok (true, h1, os1) ∧
      (construct 5).shm_deserialize os1 "/hermes" = Except.ok (true, h2, os2) ∧
      h2.data_size_ = 8192 ∧ h2.data_size_ = h1.data_size_ ∧
      os2.load_header h2.header_ = some ⟨MemoryBackendType.kPosixShmMmap, ⟨3⟩, 8192⟩ ∧
      os2.load_header h1.header_ = os2.load_header h2.header_ ∧
      h2.IsInitialized = true ∧ h2.IsOwned = false :=
  shm_deserialize_after_init (construct 0) (construct 5) (OS.boot 4096) ⟨3⟩ 8192 "/hermes"
    (by decide) (by decide) (by decide) (by decide)

end PosixShmMmap

namespace OS

theorem maps_close (os : OS) (fd : Int) : (os.close fd).maps = os.maps := by
  unfold close
  split <;> rfl

theorem shm_unlink_empty (os : OS) : os.shm_unlink "" = os := by
  simp [shm_unlink]

end OS

namespace PosixShmMmap

theorem shm_detach_unmaps (s : PosixShmMmap × OS) (hinit : s.1.IsInitialized = true) :
    (∀ a, (s.1.data_ = some a ∨ s.1.header_ = some a) →
      (((shm_detach s).2.maps)[a]?).join = none) ∧
    (shm_detach s).2.fd_object s.1.fd_ = none := by
  rw [shm_detach_of_initialized s hinit]
  refine ⟨?_, OS.fd_object_close _ _⟩
  intro a ha
  show (((((s.2.munmap s.1.data_ s.1.data_size_).munmap s.1.header_ s.2.page_size_).close
    s.1.fd_).maps)[a]?).join = none
  rw [OS.maps_close]
  rcases ha with ha | ha
  · exact OS.unmapped_munmap_of _ _ _ _ (OS.unmapped_munmap _ _ _ _ ha)
  · exact OS.unmapped_munmap _ _ _ _ ha

theorem shm_destroy_unlinks (s : PosixShmMmap × OS) (hinit : s.1.IsInitialized = true)
    (hurl : s.1.url_ ≠ "") : (shm_destroy s).2.lookup s.1.url_ = none := by
  rw [shm_destroy_of_initialized s hinit]
  exact OS.lookup_shm_unlink _ _ hurl

theorem shm_destroy_of_unset_url (s : PosixShmMmap × OS) (hinit : s.1.IsInitialized = true)
    (hurl : s.1.url_ = "") :
    shm_destroy s = ((shm_detach s).1.UnsetInitialized, (shm_detach s).2) := by
  rw [shm_destroy_of_initialized s hinit, hurl, OS.shm_unlink_empty]

/-- C19: `shm_detach` is idempotent. On a handle that is not Initialized it
changes nothing, neither the handle nor the system. On an Initialized handle
the regions at `data_` and at `header_` are unmapped, the descriptor `fd_` is
closed and Initialized is cleared. In either case no name and no object of the
system changes and Owned is left as it was, and a second `shm_detach` changes
nothing more. -/
theorem shm_detach_idempotent (s : PosixShmMmap × OS) :
    (s.1.IsInitialized = false → shm_detach s = s) ∧
    (s.1.IsInitialized = true →
      (∀ a, (s.1.data_ = some a ∨ s.1.header_ = some a) →
        (((shm_detach s).2.maps)[a]?).join = none) ∧
      (shm_detach s).2.fd_object s.1.fd_ = none) ∧
    (shm_detach s).1.IsInitialized = false ∧
    (shm_detach s).1.IsOwned = s.1.IsOwned ∧
    (shm_detach s).2.names = s.2.names ∧
    (shm_detach s).2.objects = s.2.objects ∧
    shm_detach (shm_detach s) = shm_detach s := by
  obtain ⟨f1, f2, _, f4, f5⟩ := shm_detach_frame s
  exact ⟨shm_detach_of_not_initialized s, shm_detach_unmaps s, f5, f4, f1, f2,
    shm_detach_of_not_initialized _ f5⟩

/-- C17: after a successful `shm_init(id, size, url)` (under the conditions of
success of its OS calls), `shm_destroy` on that handle leaves no object named
`url`; `shm_deserialize(url)` on any handle then returns false, and
`MemoryBackendFactory::shm_deserialize(kPosixShmMmap, url)` throws
`MEMORY_BACKEND_NOT_FOUND`. -/
theorem shm_destroy_removes_object (h : PosixShmMmap) (os : OS) (id : MemoryBackendId)
    (size : Nat) (url : chararr) (hurl : url ≠ "") (hsize : 0 < size)
    (hfit : size + os.page_size_ < 2 ^ 63)
    (hpage : sizeof_MemoryBackendHeader ≤ os.page_size_) :
    ∃ h1 os1, h.shm_init os id size url = Except.ok (true, h1, os1) ∧
      os1.lookup url = some os.objects.length ∧
      (shm_destroy (h1, os1)).2.lookup url = none ∧
      (∀ h2 : PosixShmMmap, ∃ h3,
        h2.shm_deserialize (shm_destroy (h1, os1)).2 url
          = Except.ok (false, h3, (shm_destroy (h1, os1)).2)) ∧
      (∀ (HERMES_ENABLE_CUDA : Bool) (ext : MemoryBackendType → chararr → Bool) (garbage : Nat),
        MemoryBackendFactory.shm_deserialize HERMES_ENABLE_CUDA ext garbage
            MemoryBackendType.kPosixShmMmap url (shm_destroy (h1, os1)).2
          = Except.error Error.MEMORY_BACKEND_NOT_FOUND) := by
  refine ⟨_, _, shm_init_ok h os id size url hurl hsize hfit hpage, OS.lookup_cons_self _ _ _,
    ?_⟩
  have hinit : h.SetInitialized.Own.IsInitialized = true := by
    rw [IsInitialized_Own, IsInitialized_SetInitialized]
  have hgone := shm_destroy_unlinks
    (({ header_ := some os.maps.length, data_ := some (os.maps.length + 1),
        data_size_ := size, flags_ := h.SetInitialized.Own.flags_,
        fd_ := (os.fds.length : Int), url_ := url } : PosixShmMmap),
     ({ page_size_ := os.page_size_,
        names := (url, os.objects.length) :: os.names.filter (fun p => p.1 != url),
        objects := os.objects ++
          [⟨size + os.page_size_, ⟨MemoryBackendType.kPosixShmMmap, id, size⟩⟩],
        fds := os.fds ++ [some os.objects.length],
        maps := os.maps ++ [some ⟨os.objects.length, 0, os.page_size_⟩,
                            some ⟨os.objects.length, os.page_size_, size⟩] } : OS))
    hinit hurl
  refine ⟨hgone, fun h2 => ⟨_, shm_deserialize_missing h2 _ url hgone⟩, ?_⟩
  intro cuda ext garbage
  simp only [MemoryBackendFactory.shm_deserialize,
    shm_deserialize_missing (construct garbage) _ url hgone]
  rfl

theorem shm_destroy_removes_object_witness :
    ∃ h1 os1,
      (construct 0).shm_init (OS.boot 4096) ⟨3⟩ 8192 "/hermes" = Except.ok (true, h1, os1) ∧
      os1.lookup "/hermes" = some (OS.boot 4096).objects.length ∧
      (shm_destroy (h1, os1)).2.lookup "/hermes" = none ∧
      (∀ h2 : PosixShmMmap, ∃ h3,
        h2.shm_deserialize (shm_destroy (h1, os1)).2 "/hermes"
          = Except.ok (false, h3, (shm_destroy (h1, os1)).2)) ∧
      (∀ (HERMES_ENABLE_CUDA : Bool) (ext : MemoryBackendType → chararr → Bool) (garbage : Nat),
        MemoryBackendFactory.shm_deserialize HERMES_ENABLE_CUDA ext garbage
            MemoryBackendType.kPosixShmMmap "/hermes" (shm_destroy (h1, os1)).2
          = Except.error Error.MEMORY_BACKEND_NOT_FOUND) :=
  shm_destroy_removes_object (construct 0) (OS.boot 4096) ⟨3⟩ 8192 "/hermes" (by decide)
    (by decide) (by decide) (by decide)

theorem demo_backend_eq :
    (construct 0).shm_init (OS.boot 4096) ⟨3⟩ 8192 "/hermes"
      = Except.ok (true, demo_backend.1, demo_backend.2) :=
  rfl

theorem shm_detach_idempotent_witness :
    demo_backend.1.IsInitialized = true ∧
    (((shm_detach demo_backend).2.maps)[1]?).join = none ∧
    (((shm_detach demo_backend).2.maps)[0]?).join = none ∧
    (shm_detach demo_backend).2.fd_object demo_backend.1.fd_ = none ∧
    (shm_detach demo_backend).2.names = demo_backend.2.names ∧
    shm_detach (shm_detach demo_backend) = shm_detach demo_backend :=
  ⟨by decide,
   ((shm_detach_idempotent demo_backend).2.1 (by decide)).1 1 (Or.inl rfl),
   ((shm_detach_idempotent demo_backend).2.1 (by decide)).1 0 (Or.inr rfl),
   ((shm_detach_idempotent demo_backend).2.1 (by decide)).2,
   (shm_detach_idempotent demo_backend).2.2.2.2.1,
   (shm_detach_idempotent demo_backend).2.2.2.2.2.2⟩

end PosixShmMmap

namespace PosixShmMmap

theorem shm_destroy_attached (s : PosixShmMmap × OS) (url : chararr) (n : Nat) (o : ShmObject)
    (hinit : s.1.IsInitialized = true) (hunset : s.1.url_ = "") (hurl : url ≠ "")
    (hl : s.2.lookup url = some n) (ho : s.2.objects[n]? = some o)
    (hsz : sizeof_MemoryBackendHeader ≤ o.size)
    (hpage : sizeof_MemoryBackendHeader ≤ s.2.page_size_)
    (hdata : 0 < o.header.data_size_)
    (hfit : o.header.data_size_ + s.2.page_size_ < 2 ^ 63) :
    (shm_destroy s).1.IsInitialized = false ∧
    (∀ a, (s.1.data_ = some a ∨ s.1.header_ = some a) →
      (((shm_destroy s).2.maps)[a]?).join = none) ∧
    (shm_destroy s).2.fd_object s.1.fd_ = none ∧
    (shm_destroy s).2.names = s.2.names ∧
    (shm_destroy s).2.objects = s.2.objects ∧
    (shm_destroy s).2.lookup url = some n ∧
    (∀ h3 : PosixShmMmap, ∃ h4 os4,
      h3.shm_deserialize (shm_destroy s).2 url = Except.ok (true, h4, os4) ∧
      h4.data_size_ = o.header.data_size_) := by
  obtain ⟨f1, f2, f3, _, _⟩ := shm_detach_frame s
  obtain ⟨u1, u2⟩ := shm_detach_unmaps s hinit
  rw [shm_destroy_of_unset_url s hinit hunset]
  have hl' : (shm_detach s).2.lookup url = some n := by
    show List.lookup url (shm_detach s).2.names = some n
    rw [f1]
    exact hl
  refine ⟨IsInitialized_UnsetInitialized _, u1, u2, f1, f2, hl', ?_⟩
  intro h3
  exact ⟨_, _, shm_deserialize_ok h3 (shm_detach s).2 url n o hurl hl' (by rw [f2]; exact ho) hsz
    (by rw [f3]; exact hpage) hdata (by rw [f3]; exact hfit), rfl⟩

/-- C18, as amended: `shm_destroy` does not test Owned; it detaches an Initialized
handle and unlinks the name its `url_` holds. After a successful
`shm_init(id, size, url)` on one handle, a newly constructed second handle
attached by `shm_deserialize(url)` is Initialized and not Owned and its `url_`
was never set; `shm_destroy` on it detaches it (its regions are unmapped, its
descriptor is closed, Initialized is cleared) and removes no name and no object,
so `url` still names the object the first handle created, and
`shm_deserialize(url)` on any handle still returns true and finds
`data_size_ = size`. -/
theorem shm_destroy_of_attached_handle (h : PosixShmMmap) (os : OS) (id : MemoryBackendId)
    (size : Nat) (url : chararr) (garbage : Nat) (hurl : url ≠ "") (hsize : 0 < size)
    (hfit : size + os.page_size_ < 2 ^ 63)
    (hpage : sizeof_MemoryBackendHeader ≤ os.page_size_) :
    ∃ h1 os1 h2 os2, h.shm_init os id size url = Except.ok (true, h1, os1) ∧
      (construct garbage).shm_deserialize os1 url = Except.ok (true, h2, os2) ∧
      h2.IsInitialized = true ∧ h2.IsOwned = false ∧
      (shm_destroy (h2, os2)).1.IsInitialized = false ∧
      (∀ a, (h2.data_ = some a ∨ h2.header_ = some a) →
        (((shm_destroy (h2, os2)).2.maps)[a]?).join = none) ∧
      (shm_destroy (h2, os2)).2.fd_object h2.fd_ = none ∧
      (shm_destroy (h2, os2)).2.names = os2.names ∧
      (shm_destroy (h2, os2)).2.objects = os2.objects ∧
      (shm_destroy (h2, os2)).2.lookup url = some os.objects.length ∧
      (∀ h3 : PosixShmMmap, ∃ h4 os4,
        h3.shm_deserialize (shm_destroy (h2, os2)).2 url = Except.ok (true, h4, os4) ∧
        h4.data_size_ = size) := by
  obtain ⟨h1, os1, h2, os2, e1, e2, _, _, _, _, a5, a6, a7, a8, a9, a10⟩ :=
    init_then_deserialize h (construct garbage) os id size url hurl hsize hfit hpage
  have hpg : 16 ≤ os.page_size_ := hpage
  obtain ⟨d1, d2, d3, d4, d5, d6, d7⟩ := shm_destroy_attached (h2, os2) url os.objects.length
    ⟨size + os.page_size_, ⟨MemoryBackendType.kPosixShmMmap, id, size⟩⟩ a5 a7 hurl a8 a9
    (by show 16 ≤ size + os.page_size_; omega) (by rw [a10]; exact hpage) hsize
    (by rw [a10]; exact hfit)
  exact ⟨h1, os1, h2, os2, e1, e2, a5, a6, d1, d2, d3, d4, d5, d6, d7⟩

theorem shm_destroy_of_attached_handle_witness :
    ∃ h1 os1 h2 os2,
      (construct 0).shm_init (OS.boot 4096) ⟨3⟩ 8192 "/hermes" = Except.ok (true, h1, os1) ∧
      (construct 5).shm_deserialize os1 "/hermes" = Except.ok (true, h2, os2) ∧
      h2.IsInitialized = true ∧ h2.IsOwned = false ∧
      (shm_destroy (h2, os2)).1.IsInitialized = false ∧
      (∀ a, (h2.data_ = some a ∨ h2.header_ = some a) →
        (((shm_destroy (h2, os2)).2.maps)[a]?).join = none) ∧
      (shm_destroy (h2, os2)).2.fd_object h2.fd_ = none ∧
      (shm_destroy (h2, os2)).2.names = os2.names ∧
      (shm_destroy (h2, os2)).2.objects = os2.objects ∧
      (shm_destroy (h2, os2)).2.lookup "/hermes" = some (OS.boot 4096).objects.length ∧
      (∀ h3 : PosixShmMmap, ∃ h4 os4,
        h3.shm_deserialize (shm_destroy (h2, os2)).2 "/hermes" = Except.ok (true, h4, os4) ∧
        h4.data_size_ = 8192) :=
  shm_destroy_of_attached_handle (construct 0) (OS.boot 4096) ⟨3⟩ 8192 "/hermes" 5 (by decide)
    (by decide) (by decide) (by decide)

end PosixShmMmap

namespace PosixShmMmap

/-- C18 fails as stated: `shm_destroy` has no test of Owned. A handle creates the
object "/hermes" with `shm_init` and is then attached to it again with
`shm_deserialize`: it is Initialized and not Owned, and "/hermes" names object
0. `shm_destroy` on this handle unlinks "/hermes": the object can no longer be
opened by name. -/
theorem shm_destroy_ignores_owned :
    ∃ h1 os1 h2 os2,
      (construct 0).shm_init (OS.boot 4096) ⟨3⟩ 8192 "/hermes" = Except.ok (true, h1, os1) ∧
      h1.shm_deserialize os1 "/hermes" = Except.ok (true, h2, os2) ∧
      h2.IsInitialized = true ∧ h2.IsOwned = false ∧
      os2.lookup "/hermes" = some 0 ∧
      (shm_destroy (h2, os2)).2.lookup "/hermes" = none ∧
      (construct 0).shm_deserialize (shm_destroy (h2, os2)).2 "/hermes"
        = Except.ok (false, { (construct 0).SetInitialized.Disown with fd_ := -1 },
            (shm_destroy (h2, os2)).2) :=
  ⟨_, _, _, _, rfl, rfl, rfl, rfl, rfl, rfl, rfl⟩

end PosixShmMmap

namespace MemoryBackendFactory

/-! ## C20: the factory -/

/-- When the backend's `shm_init` returns false, `shm_init` of the factory throws
`MEMORY_BACKEND_CREATE_FAILED`, for every backend class the factory lists (the
two CUDA classes when they are compiled in). -/
theorem shm_init_of_false (HERMES_ENABLE_CUDA : Bool) (B : BackendT) (b : MemoryBackend)
    (os : OS) (hB : B ≠ BackendT.unlisted)
    (hcuda : HERMES_ENABLE_CUDA = true ∨ (B ≠ BackendT.CudaShmMmap ∧ B ≠ BackendT.CudaMalloc)) :
    shm_init HERMES_ENABLE_CUDA B (Except.ok (false, b, os))
      = Except.error Error.MEMORY_BACKEND_CREATE_FAILED := by
  cases B <;> cases HERMES_ENABLE_CUDA <;> simp_all [shm_init, shm_init_branch]

/-- For `kPosixShmMmap` the factory's `shm_deserialize` returns a backend that is
not null, whose `shm_deserialize(url)` returned true, or it ends with an
error, which is `MEMORY_BACKEND_NOT_FOUND` when `shm_deserialize(url)` returned
false. -/
theorem shm_deserialize_posix (HERMES_ENABLE_CUDA : Bool)
    (ext : MemoryBackendType → chararr → Bool) (garbage : Nat) (url : chararr) (os : OS) :
    (∃ h1 os1, (PosixShmMmap.construct garbage).shm_deserialize os url
        = Except.ok (true, h1, os1) ∧
      shm_deserialize HERMES_ENABLE_CUDA ext garbage MemoryBackendType.kPosixShmMmap url os
        = Except.ok (some (MemoryBackend.posix_shm_mmap h1), os1)) ∨
    (∃ h1 os1, (PosixShmMmap.construct garbage).shm_deserialize os url
        = Except.ok (false, h1, os1) ∧
      shm_deserialize HERMES_ENABLE_CUDA ext garbage MemoryBackendType.kPosixShmMmap url os
        = Except.error Error.MEMORY_BACKEND_NOT_FOUND) ∨
    (∃ e, shm_deserialize HERMES_ENABLE_CUDA ext garbage MemoryBackendType.kPosixShmMmap url os
        = Except.error e) := by
  cases hr : (PosixShmMmap.construct garbage).shm_deserialize os url with
  | error e => exact Or.inr (Or.inr ⟨e, by simp only [shm_deserialize, hr]⟩)
  | ok r =>
    obtain ⟨b, h1, os1⟩ := r
    cases b
    · exact Or.inr (Or.inl ⟨h1, os1, rfl, by simp [shm_deserialize, hr]⟩)
    · exact Or.inl ⟨h1, os1, rfl, by simp [shm_deserialize, hr]⟩

/-- C20 fails on the code: for the type `kMallocBackend`, which no `case` of the
`switch` handles, `shm_deserialize(type, url)` takes the `default` branch and
returns the null pointer without throwing, whatever the url and the system; so
it does for the two CUDA types when `HERMES_ENABLE_CUDA` is not defined. -/
theorem shm_deserialize_returns_null (ext : MemoryBackendType → chararr → Bool) (garbage : Nat)
    (url : chararr) (os : OS) :
    (∀ HERMES_ENABLE_CUDA : Bool,
      shm_deserialize HERMES_ENABLE_CUDA ext garbage MemoryBackendType.kMallocBackend url os
        = Except.ok (none, os)) ∧
    shm_deserialize false ext garbage MemoryBackendType.kCudaShmMmap url os
      = Except.ok (none, os) ∧
    shm_deserialize false ext garbage MemoryBackendType.kCudaMalloc url os
      = Except.ok (none, os) :=
  ⟨fun _ => rfl, rfl, rfl⟩

end MemoryBackendFactory

/-! ## C21: the ticket queue -/

/-- C21: `emplace(tkt)` and `pop(tkt)` of a `ticket_queue` whose mutex is free
each call `Lock`, then once the operation of the wrapped queue, then `Unlock`.
The token returned (and for `pop` the content of `tkt` afterwards) is that of the
wrapped operation on the wrapped queue and the same argument, the wrapped queue
afterwards is the one the wrapped operation leaves, nothing else of the
`ticket_queue` changes, and the mutex is free again. On a mutex that is held
the call waits for it: alone, it does not return. -/
theorem ticket_queue_delegates {T : Type} (m : spsc_queue.Methods T) (q : ticket_queue T)
    (tkt : T) :
    (q.lock_ = false →
      ticket_queue.emplace m q tkt
        = some ((m.emplace q.queue_ tkt).1, { q with queue_ := (m.emplace q.queue_ tkt).2 },
            [TicketCall.Lock, TicketCall.emplace, TicketCall.Unlock]) ∧
      ticket_queue.pop m q tkt
        = some ((m.pop q.queue_ tkt).1, (m.pop q.queue_ tkt).2.1,
            { q with queue_ := (m.pop q.queue_ tkt).2.2 },
            [TicketCall.Lock, TicketCall.pop, TicketCall.Unlock])) ∧
    (∀ t q1 calls, ticket_queue.emplace m q tkt = some (t, q1, calls) → q1.lock_ = false) ∧
    (∀ t v q1 calls, ticket_queue.pop m q tkt = some (t, v, q1, calls) → q1.lock_ = false) ∧
    (q.lock_ = true → ticket_queue.emplace m q tkt = none ∧ ticket_queue.pop m q tkt = none) := by
  refine ⟨?_, ?_, ?_, ?_⟩
  · intro h
    obtain ⟨a, qq, l⟩ := q
    simp only at h
    subst h
    exact ⟨rfl, rfl⟩
  · intro t q1 calls h
    cases hl : q.lock_
    · simp only [ticket_queue.emplace, Mutex.Lock, hl, Bool.false_eq_true, if_false,
        Option.some.injEq, Prod.mk.injEq] at h
      rw [← h.2.1]
      rfl
    · simp [ticket_queue.emplace, Mutex.Lock, hl] at h
  · intro t v q1 calls h
    cases hl : q.lock_
    · simp only [ticket_queue.pop, Mutex.Lock, hl, Bool.false_eq_true, if_false,
        Option.some.injEq, Prod.mk.injEq] at h
      rw [← h.2.2.1]
      rfl
    · simp [ticket_queue.pop, Mutex.Lock, hl] at h
  · intro h
    simp [ticket_queue.emplace, ticket_queue.pop, Mutex.Lock, h]

theorem ticket_queue_delegates_witness :
    (⟨7, ⟨7, ⟨7, some 0, [0, 0]⟩, 0, 0⟩, false⟩ : ticket_queue Nat).lock_ = false ∧
    ticket_queue.emplace
        ⟨fun q _ => (⟨q.tail_⟩, { q with tail_ := q.tail_ + 1 }), fun q t => (⟨q.head_⟩, t, q)⟩
        (⟨7, ⟨7, ⟨7, some 0, [0, 0]⟩, 0, 0⟩, false⟩ : ticket_queue Nat) 5
      = some (⟨0⟩, ⟨7, ⟨7, ⟨7, some 0, [0, 0]⟩, 1, 0⟩, false⟩,
          [TicketCall.Lock, TicketCall.emplace, TicketCall.Unlock]) :=
  ⟨rfl,
   ((ticket_queue_delegates
      ⟨fun q _ => (⟨q.tail_⟩, { q with tail_ := q.tail_ + 1 }), fun q t => (⟨q.head_⟩, t, q)⟩
      (⟨7, ⟨7, ⟨7, some 0, [0, 0]⟩, 0, 0⟩, false⟩ : ticket_queue Nat) 5).1 rfl).1⟩

/-- C22: a `pair` has no null state. `IsNull()` is false in every state and
`SetNull()` changes nothing, so `shm_destroy` of the container template always
calls `shm_destroy_main` (and then `SetNull`), also when it is called again on
the state a first `shm_destroy` left; and `shm_destroy_main` destroys the first
sub-object and then the second. -/
theorem pair_shm_destroy_unconditional {A B M : Type} (destroy_first : A × M → A × M)
    (destroy_second : B × M → B × M) (x : pair A B × M) :
    (pair.ops destroy_first destroy_second).IsNull x = false ∧
    (pair.ops destroy_first destroy_second).SetNull x = x ∧
    (pair.ops destroy_first destroy_second).shm_destroy x
      = ((pair.ops destroy_first destroy_second).shm_destroy_main x,
         [Call.shm_destroy_main, Call.SetNull]) ∧
    (pair.ops destroy_first destroy_second).shm_destroy_main x
      = (⟨(destroy_first (x.1.first_, x.2)).1,
          (destroy_second (x.1.second_, (destroy_first (x.1.first_, x.2)).2)).1⟩,
         (destroy_second (x.1.second_, (destroy_first (x.1.first_, x.2)).2)).2) ∧
    (pair.ops destroy_first destroy_second).shm_destroy
        ((pair.ops destroy_first destroy_second).shm_destroy x).1
      = ((pair.ops destroy_first destroy_second).shm_destroy_main
          ((pair.ops destroy_first destroy_second).shm_destroy_main x),
         [Call.shm_destroy_main, Call.SetNull]) :=
  ⟨rfl, rfl, rfl, rfl, rfl⟩

namespace mpsc_queue

variable {T : Type}

/-! ## C24: the two overloads of `pop` -/

theorem flags_set_slot (q : mpsc_queue T) (i : Nat) (e : pair bitfield32_t T) :
    (q.set_slot i e).queue_.elems.map pair.GetFirst
      = (q.queue_.elems.map pair.GetFirst).set i e.GetFirst := by
  simp [set_slot, List.map_set]

/-- C24: `pop()` and `pop(val)` agree on the queue. In every state either both
have undefined behaviour (the head slot is outside the vector), or both return;
then they return the same token and leave the same head, the same tail, the
same flag in every slot and the same content in every slot other than the head
slot. Either both change nothing (and `val` is left as it was), or the head slot
was published: then `pop(val)` has moved the value of the head slot into `val`,
leaving the moved-from value in the slot, where `pop()` leaves the value. -/
theorem pop_overloads_agree (mv : T → T) (q : mpsc_queue T) (val : T) :
    (pop mv q val = none ∧ pop0 q = none) ∨
    (∃ t v q1 q0, pop mv q val = some (t, v, q1) ∧ pop0 q = some (t, q0) ∧
      q1.head_ = q0.head_ ∧ q1.tail_ = q0.tail_ ∧
      q1.queue_.elems.map pair.GetFirst = q0.queue_.elems.map pair.GetFirst ∧
      (∀ j, j ≠ q.head_ % q.queue_.size → q1.slot j = q0.slot j) ∧
      ((q1 = q ∧ q0 = q ∧ v = val) ∨
       (∃ e, q.slot (q.head_ % q.queue_.size) = some e ∧ e.GetFirst.Any 1 = true ∧
         v = e.GetSecond ∧
         q1 = (q.set_slot (q.head_ % q.queue_.size) ⟨e.first_.Clear, mv e.second_⟩).fetch_add_head ∧
         q0 = (q.set_slot (q.head_ % q.queue_.size) ⟨e.first_.Clear, e.second_⟩).fetch_add_head))) := by
  by_cases hn : q.head_ ≥ q.tail_
  · exact Or.inr ⟨qtok_t.GetNull, val, q, q, by simp [pop, hn], by simp [pop0, hn], rfl, rfl, rfl,
      fun _ _ => rfl, Or.inl ⟨rfl, rfl, rfl⟩⟩
  · cases hs : q.slot (q.head_ % q.queue_.size) with
    | none => exact Or.inl ⟨by simp [pop, hn, hs], by simp [pop0, hn, hs]⟩
    | some e =>
      cases hf : e.GetFirst.Any 1
      · exact Or.inr ⟨qtok_t.GetNull, val, q, q, by simp [pop, hn, hs, hf],
          by simp [pop0, hn, hs, hf], rfl,
          rfl, rfl, fun _ _ => rfl, Or.inl ⟨rfl, rfl, rfl⟩⟩
      · refine Or.inr ⟨⟨q.head_⟩, e.GetSecond,
          (q.set_slot (q.head_ % q.queue_.size) ⟨e.first_.Clear, mv e.second_⟩).fetch_add_head,
          (q.set_slot (q.head_ % q.queue_.size) ⟨e.first_.Clear, e.second_⟩).fetch_add_head,
          by simp [pop, hn, hs, hf], by simp [pop0, hn, hs, hf], rfl, rfl, ?_, ?_,
          Or.inr ⟨e, rfl, hf, rfl, rfl, rfl⟩⟩
        · show (q.set_slot _ _).queue_.elems.map pair.GetFirst
            = (q.set_slot _ _).queue_.elems.map pair.GetFirst
          rw [flags_set_slot, flags_set_slot]
          rfl
        · intro j hj
          show (q.set_slot _ _).slot j = (q.set_slot _ _).slot j
          rw [slot_set_slot_ne _ _ _ _ (Ne.symm hj), slot_set_slot_ne _ _ _ _ (Ne.symm hj)]

end mpsc_queue

namespace PosixShmMmap

/-! ## C25: a failed initialisation -/

/-- C25: a failed initialisation is not rolled back. When the `shm_open` of
`shm_init` fails, `shm_init` returns false and leaves the handle Initialized
and Owned; when the `shm_open` of `shm_deserialize` fails, `shm_deserialize`
returns false and leaves the handle Initialized and not Owned; in both cases
`header_`, `data_` and `url_` are as they were before the call and `fd_` is
negative. -/
theorem failed_init_keeps_flags (h : PosixShmMmap) (os : OS) (id : MemoryBackendId) (size : Nat)
    (url : chararr) :
    (((os.shm_unlink url).shm_open url true).1 < 0 →
      ∃ h1 os1, h.shm_init os id size url = Except.ok (false, h1, os1) ∧
        h1.IsInitialized = true ∧ h1.IsOwned = true ∧
        h1.header_ = h.header_ ∧ h1.data_ = h.data_ ∧ h1.url_ = h.url_ ∧ h1.fd_ < 0) ∧
    ((os.shm_open url false).1 < 0 →
      ∃ h1 os1, h.shm_deserialize os url = Except.ok (false, h1, os1) ∧
        h1.IsInitialized = true ∧ h1.IsOwned = false ∧
        h1.header_ = h.header_ ∧ h1.data_ = h.data_ ∧ h1.url_ = h.url_ ∧ h1.fd_ < 0) := by
  refine ⟨?_, ?_⟩
  · intro hf
    refine ⟨{ h.SetInitialized.Own with fd_ := ((os.shm_unlink url).shm_open url true).1 },
      ((os.shm_unlink url).shm_open url true).2, by simp only [shm_init, hf, if_true], ?_, ?_,
      rfl, rfl, rfl, hf⟩
    · show h.SetInitialized.Own.IsInitialized = true
      rw [IsInitialized_Own, IsInitialized_SetInitialized]
    · exact IsOwned_Own _
  · intro hf
    refine ⟨{ h.SetInitialized.Disown with fd_ := (os.shm_open url false).1 },
      (os.shm_open url false).2, by simp only [shm_deserialize, hf, if_true], ?_, ?_,
      rfl, rfl, rfl, hf⟩
    · show h.SetInitialized.Disown.IsInitialized = true
      rw [IsInitialized_Disown, IsInitialized_SetInitialized]
    · exact IsOwned_Disown _

theorem failed_init_keeps_flags_witness :
    (((OS.boot 4096).shm_unlink "").shm_open "" true).1 < 0 ∧
    ((OS.boot 4096).shm_open "/missing" false).1 < 0 ∧
    (∃ h1 os1, (construct 0).shm_init (OS.boot 4096) ⟨3⟩ 8192 "" = Except.ok (false, h1, os1) ∧
      h1.IsInitialized = true ∧ h1.IsOwned = true ∧
      h1.header_ = (construct 0).header_ ∧ h1.data_ = (construct 0).data_ ∧
      h1.url_ = (construct 0).url_ ∧ h1.fd_ < 0) ∧
    (∃ h1 os1,
      (construct 0).shm_deserialize (OS.boot 4096) "/missing" = Except.ok (false, h1, os1) ∧
      h1.IsInitialized = true ∧ h1.IsOwned = false ∧
      h1.header_ = (construct 0).header_ ∧ h1.data_ = (construct 0).data_ ∧
      h1.url_ = (construct 0).url_ ∧ h1.fd_ < 0) :=
  ⟨by decide, by decide,
   (failed_init_keeps_flags (construct 0) (OS.boot 4096) ⟨3⟩ 8192 "").1 (by decide),
   (failed_init_keeps_flags (construct 0) (OS.boot 4096) ⟨3⟩ 8192 "/missing").2 (by decide)⟩

end PosixShmMmap

namespace System

variable {T : Type}

/-! ## C23: the slot a producer writes -/

/-- For a capacity C with 1 <= C <= 2 ^ 32, in the state reached by any schedule
of fewer than 2 ^ 64 steps, a producer that has passed the space test of
`emplace` with the claimed index `t` and is about to write finds flag bit 0 of
its slot clear; and `t < head + C`, so every index that used this slot before,
being at most `t - C`, is below head: its value has been popped. -/
theorem ready_slot_is_free (mv : T → T) (n alloc C : Nat) (dflt : T) (mm : MemoryManager)
    (acts : List (Action T)) (hC : 1 ≤ C) (h32 : C ≤ U32) (hlen : acts.length < U64)
    (i : Nat) (w : T) (t : Nat)
    (hi : (run mv (init n alloc C dflt mm) acts).producers[i]? = some (ProducerPC.ready w t)) :
    (∀ e, (run mv (init n alloc C dflt mm) acts).q.slot
        ((run mv (init n alloc C dflt mm) acts).q.emplace_idx t) = some e →
      e.GetFirst.Any 1 = false) ∧
    (run mv (init n alloc C dflt mm) acts).q.head_ ≤ t ∧
    t < (run mv (init n alloc C dflt mm) acts).q.head_ + C ∧
    (∀ t', t' < t → t' % C = t % C → t' < (run mv (init n alloc C dflt mm) acts).q.head_) := by
  have hinv := run_inv mv C hC h32 acts (init n alloc C dflt mm) 0 (init_inv n alloc C dflt mm)
    (by omega)
  obtain ⟨p1, _, p3⟩ := hinv.pcs i _ hi
  refine ⟨?_, p1, p3, ?_⟩
  · intro e he
    rw [emplace_idx_mod C t _ hinv.size_eq hC h32] at he
    cases hf : e.GetFirst.Any 1
    · rfl
    · exact absurd rfl ((hinv.flags t e p1 p3 he hf).2 i _ hi)
  · intro t' hlt hmod
    by_contra hge
    have h1 : t' % C + C * (t' / C) = t' := Nat.mod_add_div t' C
    have h2 : t % C + C * (t / C) = t := Nat.mod_add_div t C
    have h3 : t' / C < t / C := by
      by_contra hc
      have : C * (t / C) ≤ C * (t' / C) := Nat.mul_le_mul_left _ (by omega)
      omega
    have h4 : C * (t' / C + 1) ≤ C * (t / C) := Nat.mul_le_mul_left _ (by omega)
    rw [Nat.mul_add, Nat.mul_one] at h4
    omega

end System

namespace mpsc_queue

variable {T : Type}

/-- On a fresh queue of depth 2 ^ 32 + 1, after 2 ^ 32 values are emplaced, the
next `emplace` passes its space test and writes slot 0, which holds the first
value, published and not popped. -/
theorem overwrite_past_32_bits (v0 : T) (vs : List T) (x dflt : T) (alloc : Nat)
    (mm : MemoryManager) (hlen : (v0 :: vs).length = 2 ^ 32) :
    ∃ toks q1 q2,
      emplace_all 0 (shm_init alloc (2 ^ 32 + 1) dflt mm).1 (v0 :: vs) = some (toks, q1) ∧
      q1.head_ = 0 ∧ q1.tail_ = 2 ^ 32 ∧ q1.queue_.size = 2 ^ 32 + 1 ∧
      q1.slot 0 = some ⟨⟨1⟩, v0⟩ ∧
      occupancy q1.tail_ q1.head_ ≤ q1.queue_.size ∧
      q1.emplace_idx q1.tail_ = 0 ∧
      emplace 0 q1 x = some (⟨2 ^ 32⟩, q2) ∧
      q2.head_ = 0 ∧ q2.slot 0 = some ⟨⟨1⟩, x⟩ := by
  obtain ⟨hf0, hsz0⟩ := filled_shm_init alloc (2 ^ 32 + 1) dflt mm
  obtain ⟨q1, he1, hf1, hsz1⟩ := filled_emplace_all 0 (v0 :: vs) _ 0 [] hf0
    (by rw [hsz0, hlen]; norm_num) (by rw [hlen]; norm_num [U32]) (by rw [hsz0]; norm_num [U64])
  rw [hsz0] at hsz1
  obtain ⟨hh1, ht1, -, hsl1⟩ := hf1
  simp only [List.nil_append, Nat.zero_add] at ht1 hsl1
  rw [hlen] at ht1
  obtain ⟨q2, he2, -, hh2, hs2, -, -, -⟩ := emplace_spec 0 q1 x
    (by rw [hsz1]; norm_num [U64]) (by omega) (by rw [hsz1, ht1, hh1]; norm_num)
  have hidx : q1.emplace_idx q1.tail_ = 0 := by
    rw [emplace_idx_eq, hsz1, ht1]
    exact narrowed_index
  rw [hidx] at hs2
  refine ⟨_, q1, q2, he1, hh1, ht1, hsz1, ?_, ?_, hidx, by rw [he2, ht1], by rw [hh2, hh1], hs2⟩
  · have := hsl1 0 v0 (List.getElem?_cons_zero)
    simpa using this
  · rw [occupancy_eq _ _ (by omega) (by rw [ht1, hh1]; norm_num [U64]), ht1, hh1, hsz1]
    norm_num

/-- C23 fails on the code for a depth above 2 ^ 32: on a fresh queue of depth
d = 2 ^ 32 + 1, after the 2 ^ 32 calls `emplace` of the values 5, 0, ..., 0 and
no pop, head is 0 and slot 0 holds the published value 5, which was never
popped. The next `emplace(1)` has claimed index 2 ^ 32 and passes its space test
(2 ^ 32 - 0 + 1 <= d), yet the slot it writes is slot 0, the index being
narrowed to `uint32_t`: afterwards slot 0 holds 1 with its flag set and head is
still 0, so the value 5 was replaced before it was popped. -/
theorem emplace_overwrites_unread_slot :
    ∃ toks q1 q2,
      emplace_all 0 (shm_init 7 (2 ^ 32 + 1) 0 ⟨[], 0⟩).1 (5 :: List.replicate (2 ^ 32 - 1) 0)
        = some (toks, q1) ∧
      q1.head_ = 0 ∧ q1.tail_ = 2 ^ 32 ∧ q1.queue_.size = 2 ^ 32 + 1 ∧
      q1.slot 0 = some ⟨⟨1⟩, 5⟩ ∧
      occupancy q1.tail_ q1.head_ ≤ q1.queue_.size ∧
      q1.emplace_idx q1.tail_ = 0 ∧
      emplace 0 q1 1 = some (⟨2 ^ 32⟩, q2) ∧
      q2.head_ = 0 ∧ q2.slot 0 = some ⟨⟨1⟩, 1⟩ :=
  overwrite_past_32_bits 5 (List.replicate (2 ^ 32 - 1) 0) 1 0 7 ⟨[], 0⟩
    (by rw [List.length_cons, List.length_replicate]; norm_num)

end mpsc_queue

namespace mpsc_queue

variable {T : Type}

/-! ## C10, C11: moving and copying a queue -/

/-- What `shm_destroy` does to a queue and to the memory. -/
theorem shm_destroy_spec (self : mpsc_queue T) (mm : MemoryManager) :
    (shm_destroy (self, mm)).1.alloc_id_ = self.alloc_id_ ∧
    (shm_destroy (self, mm)).1.flags_ = self.flags_ ∧
    (shm_destroy (self, mm)).1.queue_.alloc_id_ = self.queue_.alloc_id_ ∧
    (shm_destroy (self, mm)).1.queue_.vec_ptr_ = none ∧
    (shm_destroy (self, mm)).2.next = mm.next ∧
    (shm_destroy (self, mm)).2.live
      = (match self.queue_.vec_ptr_ with
         | none => mm.live
         | some p => mm.live.erase (self.queue_.alloc_id_, p)) := by
  cases hp : self.queue_.vec_ptr_ <;>
    simp [shm_destroy, ContainerOps.shm_destroy, ops, IsNull, SetNull, shm_destroy_main,
      vector.ops, vector.IsNull, hp, vector.SetNull, vector.shm_destroy_main,
      MemoryManager.Free]

theorem mem_live_after_release (mm : MemoryManager) (a : Nat) (ptr : Option Nat) (b q : Nat)
    (hb : (b, q) ∈ mm.live) (hne : ptr ≠ some q) :
    (b, q) ∈ (match ptr with
              | none => mm.live
              | some p => mm.live.erase (a, p)) := by
  cases ptr with
  | none => exact hb
  | some p =>
    have hpq : (b, q) ≠ (a, p) := by
      intro h
      apply hne
      rw [(Prod.mk.inj h).2]
    exact (List.mem_erase_of_ne hpq).mpr hb

/-- Destroying a vector that is null changes nothing. -/
theorem vector_shm_destroy_of_null {α : Type} (v : vector α) (mm : MemoryManager)
    (h : v.vec_ptr_ = none) : ((vector.ops α).shm_destroy (v, mm)).1 = (v, mm) := by
  simp [ContainerOps.shm_destroy, vector.ops, vector.IsNull, h]

/-- Move assignment between two queues under one allocator, each set up by
`shm_init` (its vector is under its own allocator) and each holding its own
block: the call returns; the destination has head, tail and slots of the source
and holds the very block of the source; the source is null with head = tail =
0; no block is allocated (`next` stays), the one block released is the block the
destination held before, and the block handed over is still allocated. -/
theorem move_assign_same_allocator (self other : mpsc_queue T) (mm : MemoryManager)
    (capacity : Nat) (hsame : self.alloc_id_ = other.alloc_id_)
    (hself : self.queue_.alloc_id_ = self.alloc_id_)
    (hother : other.queue_.alloc_id_ = other.alloc_id_)
    (hsrc : ∀ p, other.queue_.vec_ptr_ = some p → (other.queue_.alloc_id_, p) ∈ mm.live)
    (hdis : self.queue_.vec_ptr_ = none ∨ self.queue_.vec_ptr_ ≠ other.queue_.vec_ptr_) :
    ∃ (d o : mpsc_queue T) (mm' : MemoryManager),
      move_assign false self other mm capacity = Except.ok (d, o, mm') ∧
      d.alloc_id_ = self.alloc_id_ ∧ d.head_ = other.head_ ∧ d.tail_ = other.tail_ ∧
      d.queue_.elems = other.queue_.elems ∧ d.queue_.vec_ptr_ = other.queue_.vec_ptr_ ∧
      o.IsNull = true ∧ o.head_ = 0 ∧ o.tail_ = 0 ∧
      mm'.next = mm.next ∧
      mm'.live = (match self.queue_.vec_ptr_ with
                  | none => mm.live
                  | some p => mm.live.erase (self.queue_.alloc_id_, p)) ∧
      (∀ p, other.queue_.vec_ptr_ = some p → (other.queue_.alloc_id_, p) ∈ mm'.live) := by
  obtain ⟨d1, d2, d3, d4, d5, d6⟩ := shm_destroy_spec self mm
  have hkeep : ∀ p, other.queue_.vec_ptr_ = some p →
      (other.queue_.alloc_id_, p) ∈
        (match self.queue_.vec_ptr_ with
         | none => mm.live
         | some q => mm.live.erase (self.queue_.alloc_id_, q)) := by
    intro p hp
    refine mem_live_after_release mm _ _ _ _ (hsrc p hp) ?_
    rcases hdis with h | h
    · rw [h]; exact fun hc => Option.noConfusion hc
    · rw [← hp]; exact h
  have hv := vector_shm_destroy_of_null (shm_destroy (self, mm)).1.queue_
    (shm_destroy (self, mm)).2 d4
  have ha : (shm_destroy (self, mm)).1.queue_.alloc_id_ = other.queue_.alloc_id_ := by
    rw [d3, hself, hsame, hother]
  refine ⟨{ (shm_destroy (self, mm)).1 with
             head_ := other.head_, tail_ := other.tail_,
             queue_ := { (shm_destroy (self, mm)).1.queue_ with
                         vec_ptr_ := other.queue_.vec_ptr_, elems := other.queue_.elems } },
    SetNull { other with queue_ := other.queue_.SetNull }, (shm_destroy (self, mm)).2,
    ?_, d1, rfl, rfl, rfl, rfl, rfl, rfl, rfl, d5, d6, ?_⟩
  · show shm_move_op true true self other.alloc_id_ other mm capacity = _
    unfold shm_move_op
    rw [if_neg (by intro h; exact Bool.noConfusion h.2)]
    simp only [if_true]
    rw [if_pos (by rw [d1]; exact hsame)]
    unfold vector.move_assign
    simp only
    rw [hv]
    simp only
    rw [if_pos ha]
  · intro p hp
    show (other.queue_.alloc_id_, p) ∈ (shm_destroy (self, mm)).2.live
    rw [d6]
    exact hkeep p hp

theorem move_assign_same_allocator_demo :
    ∃ (d o : mpsc_queue Nat) (mm' : MemoryManager),
      move_assign false fresh_queue.1 demo_source demo_memory 2 = Except.ok (d, o, mm') ∧
      d.queue_.vec_ptr_ = some 1 ∧ o.IsNull = true ∧ mm'.live = [(7, 1)] := by
  obtain ⟨d, o, mm', h1, -, -, -, -, h2, h3, -, -, -, h4, -⟩ :=
    move_assign_same_allocator fresh_queue.1 demo_source demo_memory 2
      (by decide) (by decide) (by decide) (by decide) (by decide)
  exact ⟨d, o, mm', h1, h2, h3, h4⟩

/-- The copy constructor assigns through `*queue_` although no vector was built
in the archive. -/
theorem shm_strong_copy_op_unbuilt (self other : mpsc_queue T) (mm : MemoryManager)
    (capacity : Nat) :
    shm_strong_copy_op false self other mm capacity
      = Except.error Error.undefined_behaviour := rfl

/-- Copy assignment to a queue set up by `shm_init` (its vector is under its own
allocator) from a queue that holds another block, in a memory that hands out
unused offsets and has room for one more block under the allocator of the
destination: the call returns; head, tail and every slot of the destination
equal the source's; the slots of the destination are in a block at an offset
that was not allocated before, allocated under the allocator of the
destination and different from the block of the source, which is still
allocated. -/
theorem copy_assign_is_strong (self other : mpsc_queue T) (mm : MemoryManager)
    (capacity : Nat) (hwf : ∀ a off, (a, off) ∈ mm.live → off < mm.next)
    (hself : self.queue_.alloc_id_ = self.alloc_id_)
    (hsrc : ∀ p, other.queue_.vec_ptr_ = some p → (other.queue_.alloc_id_, p) ∈ mm.live)
    (hdis : self.queue_.vec_ptr_ = none ∨ self.queue_.vec_ptr_ ≠ other.queue_.vec_ptr_)
    (hroom : (shm_destroy (self, mm)).2.live.countP (fun b => b.1 == self.alloc_id_)
      < capacity) :
    ∃ (d : mpsc_queue T) (mm' : MemoryManager),
      copy_assign false self other mm capacity = Except.ok (d, mm') ∧
      d.alloc_id_ = self.alloc_id_ ∧ d.head_ = other.head_ ∧ d.tail_ = other.tail_ ∧
      d.queue_.elems = other.queue_.elems ∧ d.queue_.alloc_id_ = self.alloc_id_ ∧
      d.queue_.vec_ptr_ = some mm.next ∧ (∀ a, (a, mm.next) ∉ mm.live) ∧
      (self.alloc_id_, mm.next) ∈ mm'.live ∧ mm'.next = mm.next + 1 ∧
      d.queue_.vec_ptr_ ≠ other.queue_.vec_ptr_ ∧
      (∀ p, other.queue_.vec_ptr_ = some p → (other.queue_.alloc_id_, p) ∈ mm'.live) := by
  obtain ⟨d1, d2, d3, d4, d5, d6⟩ := shm_destroy_spec self mm
  have hfresh : ∀ a, (a, mm.next) ∉ mm.live := fun a h => Nat.lt_irrefl _ (hwf a _ h)
  have hnew : some mm.next ≠ other.queue_.vec_ptr_ := by
    intro h
    exact hfresh _ (hsrc mm.next h.symm)
  have hkeep : ∀ p, other.queue_.vec_ptr_ = some p →
      (other.queue_.alloc_id_, p) ∈ (shm_destroy (self, mm)).2.live := by
    intro p hp
    rw [d6]
    refine mem_live_after_release mm _ _ _ _ (hsrc p hp) ?_
    rcases hdis with h | h
    · rw [h]; exact fun hc => Option.noConfusion hc
    · rw [← hp]; exact h
  have hv := vector_shm_destroy_of_null (shm_destroy (self, mm)).1.queue_
    (shm_destroy (self, mm)).2 d4
  refine ⟨{ (shm_destroy (self, mm)).1 with
             head_ := other.head_, tail_ := other.tail_,
             queue_ := { alloc_id_ := self.alloc_id_, vec_ptr_ := some mm.next,
                         elems := other.queue_.elems } },
    { live := (self.alloc_id_, mm.next) :: (shm_destroy (self, mm)).2.live,
      next := mm.next + 1 },
    ?_, d1, rfl, rfl, rfl, rfl, rfl, hfresh, List.mem_cons_self _ _, rfl, hnew, ?_⟩
  · show shm_strong_copy_op true (shm_destroy (self, mm)).1 other (shm_destroy (self, mm)).2
      capacity = _
    unfold shm_strong_copy_op vector.copy_assign
    simp only [if_true]
    rw [hv]
    simp only
    unfold MemoryManager.AllocateChecked
    rw [d3, hself, if_pos hroom]
    simp only [MemoryManager.Allocate, d5]
  · intro p hp
    exact List.mem_cons_of_mem _ (hkeep p hp)

theorem copy_assign_is_strong_demo :
    ∃ (d : mpsc_queue Nat) (mm' : MemoryManager),
      copy_assign false fresh_queue.1 demo_source demo_memory 2 = Except.ok (d, mm') ∧
      d.queue_.elems = demo_source.queue_.elems ∧ d.queue_.vec_ptr_ = some 2 ∧
      (7, 1) ∈ mm'.live := by
  obtain ⟨d, mm', h1, -, -, -, h2, -, h3, -, -, -, -, h4⟩ :=
    copy_assign_is_strong fresh_queue.1 demo_source demo_memory 2
      (by intro a off h; simp [demo_memory] at h; show off < 2; omega)
      (by decide) (by decide) (by decide) (by decide)
  exact ⟨d, mm', h1, h2, h3, h4 1 rfl⟩

/-- Copy assignment throws `OutOfMemory` when the region of the destination's
allocator has no room left once the old block of the destination is released. -/
theorem copy_assign_out_of_memory (self other : mpsc_queue T) (mm : MemoryManager)
    (capacity : Nat) (hself : self.queue_.alloc_id_ = self.alloc_id_)
    (hroom : ¬ (shm_destroy (self, mm)).2.live.countP (fun b => b.1 == self.alloc_id_)
      < capacity) :
    copy_assign false self other mm capacity = Except.error Error.OUT_OF_MEMORY := by
  obtain ⟨d1, d2, d3, d4, d5, d6⟩ := shm_destroy_spec self mm
  have hv := vector_shm_destroy_of_null (shm_destroy (self, mm)).1.queue_
    (shm_destroy (self, mm)).2 d4
  show shm_strong_copy_op true (shm_destroy (self, mm)).1 other (shm_destroy (self, mm)).2
    capacity = _
  unfold shm_strong_copy_op vector.copy_assign
  simp only [if_true]
  rw [hv]
  simp only
  unfold MemoryManager.AllocateChecked
  rw [d3, hself, if_neg hroom]

/-- C11 fails on the code for the copy constructor: `mpsc_queue(AllocT *alloc,
const mpsc_queue &other)` stores the allocator id, resets head and tail and
then, in `shm_strong_copy_op`, assigns through `*queue_` (line 103) although no
statement has built a vector in the archive `queue_`: for every storage,
source, allocator and memory the outcome is undefined behaviour, where the
claim has the new queue hold a strong copy. Copy assignment does what the
claim says: `demo_source` copied into `fresh_queue` leaves the destination with
head, tail and slots of the source in a new block (offset 2) under allocator 7,
the block of the source (offset 1) still allocated and the old block of the
destination released; and it throws `OutOfMemory` when the allocator has no
room for the new block. -/
theorem copy_construct_is_undefined (self other : mpsc_queue T) (alloc : Nat)
    (mm : MemoryManager) (capacity : Nat) :
    copy_construct self alloc other mm capacity = Except.error Error.undefined_behaviour ∧
    copy_assign false fresh_queue.1 demo_source demo_memory 2
      = Except.ok
          ({ alloc_id_ := 7,
             queue_ := { alloc_id_ := 7, vec_ptr_ := some 2, elems := [⟨⟨1⟩, 11⟩, ⟨⟨1⟩, 12⟩] },
             tail_ := 2, head_ := 0, flags_ := ⟨0⟩ },
           ⟨[(7, 2), (7, 1)], 3⟩) ∧
    copy_assign false fresh_queue.1 demo_source demo_memory 1
      = Except.error Error.OUT_OF_MEMORY :=
  ⟨rfl, rfl, rfl⟩

end mpsc_queue

end hshm
